import Mathlib

set_option maxRecDepth 100000

/-!
Verification of the bmfont_rs bitmap-font descriptor library.

This file gives a shallow embedding of the library's core code paths:
the Font data model (src/font.rs, src/charset.rs), the decimal value
codecs (src/parse/mod.rs), the font builder (src/builder/mod.rs,
src/builder/load.rs, src/settings.rs), the binary codec
(src/binary/store.rs, src/binary/load.rs, src/binary/impls.rs,
src/binary/pack.rs, src/binary/bits.rs), the tagged-attribute tokenizer
(src/tagged_attributes/mod.rs) and the text codec (src/text/store.rs,
src/text/load.rs).

Rust strings are modelled as lists of UTF-8 bytes (List Nat, each entry
a byte value), machine integers as Nat (unsigned) or Int (signed) with
explicit range-side conditions, byte buffers as List Nat and fallible
operations as Except / Option.
-/

deriving instance DecidableEq for Except

namespace BmFont

/-- ASCII/UTF-8 bytes of a Lean string literal, used for tag, key and
format-literal byte sequences. -/
def bsOf (s : String) : List Nat := s.data.map Char.toNat

/-! ## Decimal rendering (Rust core fmt for integers). -/

/-- Digit bytes of a number, division-by-ten loop as in Rust's integer
Display (a do-while, so at least one digit is emitted). Structural on a
fuel argument so that the kernel can evaluate it; fuel n + 1 is always
enough since a number has at most n + 1 decimal digits. -/
def renderNatGo : Nat → Nat → List Nat → List Nat
  | 0, _, acc => acc
  | fuel + 1, n, acc =>
    if n / 10 = 0 then (48 + n % 10) :: acc
    else renderNatGo fuel (n / 10) ((48 + n % 10) :: acc)

/-- Decimal ASCII rendering of a Nat, as Rust's Display for unsigned integers. -/
def renderNat (n : Nat) : List Nat := renderNatGo (n + 1) n []

/-- Decimal ASCII rendering of an Int, as Rust's Display for signed integers. -/
def renderInt (i : Int) : List Nat :=
  if i < 0 then 45 :: renderNat i.natAbs else renderNat i.toNat

/-- Rust renders bool-as-u32 (store.rs casts with `as u32`): 0 or 1. -/
def renderBool (b : Bool) : List Nat := if b then [49] else [48]

/-! ## Decimal parsing (src/parse/mod.rs, via Rust from_str_radix base 10). -/

/-- ASCII decimal digit test. -/
def isDigit (b : Nat) : Bool := 48 ≤ b && b ≤ 57

/-- Accumulating digit-string evaluation; none on any non-digit byte. -/
def digitsVal : List Nat → Nat → Option Nat
  | [], acc => some acc
  | b :: r, acc => if isDigit b then digitsVal r (acc * 10 + (b - 48)) else none

/-- Value of a non-empty all-digit byte string; none otherwise. -/
def parseDigits (l : List Nat) : Option Nat :=
  if l.isEmpty then none else digitsVal l 0

/-- Rust u*::from_str_radix(src, 10) digit part: optional leading plus sign,
then one or more digits. -/
def parseNatBytes (l : List Nat) : Option Nat :=
  match l with
  | [] => none
  | b :: r => if b = 43 then parseDigits r else parseDigits (b :: r)

/-- Bounded unsigned parse: from_str_radix overflows (and errors) exactly when
the digit-string value exceeds the target type's maximum. -/
def parseUInt (max : Nat) (l : List Nat) : Option Nat :=
  (parseNatBytes l).bind fun v => if v ≤ max then some v else none

/-- Rust i16::from_str_radix(src, 10): optional sign, digits, i16 range. -/
def parseI16Bytes (l : List Nat) : Option Int :=
  match l with
  | [] => none
  | b :: r =>
    if b = 45 then (parseDigits r).bind fun v =>
      if v ≤ 32768 then some (-(v : Int)) else none
    else if b = 43 then (parseDigits r).bind fun v =>
      if v ≤ 32767 then some ((v : Int)) else none
    else (parseDigits (b :: r)).bind fun v =>
      if v ≤ 32767 then some ((v : Int)) else none

/-- Rust bool parse (src/parse/mod.rs): u32::from_str_radix then nonzero test. -/
def parseBoolBytes (l : List Nat) : Option Bool :=
  (parseUInt 4294967295 l).map fun u => u != 0

/-! ## Charset (src/charset.rs). -/

/-- Non-Unicode character set encoding (src/charset.rs Charset). -/
inductive Charset where
  | null : Charset
  | tagged (u : Nat) : Charset
  | undefined (s : List Nat) : Charset
deriving DecidableEq, Repr

/-- Canonical BMFont charset tag names (the match table in Display for
Charset::Tagged and the From<&str> table). -/
def charsetName (u : Nat) : Option (List Nat) :=
  match u with
  | 0 => some (bsOf "ANSI")
  | 1 => some (bsOf "DEFAULT")
  | 2 => some (bsOf "SYMBOL")
  | 77 => some (bsOf "MAC")
  | 128 => some (bsOf "SHIFTJIS")
  | 129 => some (bsOf "HANGUL")
  | 130 => some (bsOf "JOHAB")
  | 134 => some (bsOf "GB2312")
  | 136 => some (bsOf "CHINESEBIG5")
  | 161 => some (bsOf "GREEK")
  | 162 => some (bsOf "TURKISH")
  | 163 => some (bsOf "VIETNAMESE")
  | 177 => some (bsOf "HEBREW")
  | 178 => some (bsOf "ARABIC")
  | 186 => some (bsOf "BALTIC")
  | 204 => some (bsOf "RUSSIAN")
  | 222 => some (bsOf "THAI")
  | 238 => some (bsOf "EASTEUROPE")
  | 255 => some (bsOf "OEM")
  | _ => none

/-- Charset canonical string rendering (impl fmt::Display for Charset). -/
def charsetRender : Charset → List Nat
  | .null => []
  | .tagged u =>
    match charsetName u with
    | some s => s
    | none => renderNat u
  | .undefined s => s

/-- Charset string parsing (impl From<&str> for Charset): empty is Null,
a known tag name maps to its constant, a u8 decimal string to Tagged,
anything else to Undefined. -/
def charsetFromBytes (s : List Nat) : Charset :=
  if s = [] then .null
  else if s = bsOf "ANSI" then .tagged 0
  else if s = bsOf "ARABIC" then .tagged 178
  else if s = bsOf "BALTIC" then .tagged 186
  else if s = bsOf "CHINESEBIG5" then .tagged 136
  else if s = bsOf "DEFAULT" then .tagged 1
  else if s = bsOf "EASTEUROPE" then .tagged 238
  else if s = bsOf "GB2312" then .tagged 134
  else if s = bsOf "GREEK" then .tagged 161
  else if s = bsOf "HANGUL" then .tagged 129
  else if s = bsOf "HEBREW" then .tagged 177
  else if s = bsOf "JOHAB" then .tagged 130
  else if s = bsOf "MAC" then .tagged 77
  else if s = bsOf "OEM" then .tagged 255
  else if s = bsOf "RUSSIAN" then .tagged 204
  else if s = bsOf "SHIFTJIS" then .tagged 128
  else if s = bsOf "SYMBOL" then .tagged 2
  else if s = bsOf "THAI" then .tagged 222
  else if s = bsOf "TURKISH" then .tagged 162
  else if s = bsOf "VIETNAMESE" then .tagged 163
  else
    match parseUInt 255 s with
    | some u => .tagged u
    | none => .undefined s

/-! ## UTF-8 validation (Rust core str::from_utf8 well-formedness). -/

/-- UTF-8 continuation byte test. -/
def isCont (b : Nat) : Bool := 128 ≤ b && b ≤ 191

/-- One-continuation-byte tail of a 2-byte UTF-8 sequence: returns the
remaining input on success. -/
def utf8Tail1 : List Nat → Option (List Nat)
  | c1 :: r2 => if isCont c1 then some r2 else none
  | [] => none

/-- Two-byte tail of a 3-byte UTF-8 sequence, with the admissible range
of the first continuation byte. -/
def utf8Tail2 (lo hi : Nat) : List Nat → Option (List Nat)
  | c1 :: c2 :: r2 =>
    if (lo ≤ c1 && c1 ≤ hi) && isCont c2 then some r2 else none
  | _ => none

/-- Three-byte tail of a 4-byte UTF-8 sequence, with the admissible
range of the first continuation byte. -/
def utf8Tail3 (lo hi : Nat) : List Nat → Option (List Nat)
  | c1 :: c2 :: c3 :: r2 =>
    if (lo ≤ c1 && c1 ≤ hi) && isCont c2 && isCont c3 then some r2
    else none
  | _ => none

/-- Multi-byte sequence dispatch on the lead byte (the RFC 3629 table as
enforced by Rust's str::from_utf8): the remaining input after one coded
point, or none. -/
def utf8Seq (b : Nat) (r : List Nat) : Option (List Nat) :=
  if 194 ≤ b && b ≤ 223 then utf8Tail1 r
  else if b = 224 then utf8Tail2 160 191 r
  else if (225 ≤ b && b ≤ 236) || b = 238 || b = 239 then utf8Tail2 128 191 r
  else if b = 237 then utf8Tail2 128 159 r
  else if b = 240 then utf8Tail3 144 191 r
  else if 241 ≤ b && b ≤ 243 then utf8Tail3 128 191 r
  else if b = 244 then utf8Tail3 128 143 r
  else none

/-- UTF-8 well-formedness loop; structural on a fuel argument (every
coded point consumes at least one byte, so fuel = input length always
suffices and the fuel-exhausted branch is unreachable from the
wrapper). -/
def utf8ValidGo : Nat → List Nat → Bool
  | _, [] => true
  | 0, _ :: _ => false
  | fuel + 1, b :: r =>
    if b ≤ 127 then utf8ValidGo fuel r
    else
      match utf8Seq b r with
      | some r2 => utf8ValidGo fuel r2
      | none => false

/-- UTF-8 well-formedness of a byte sequence, as checked by Rust's
str::from_utf8 / String::from_utf8. -/
def utf8Valid (l : List Nat) : Bool := utf8ValidGo l.length l

/-! ## Font model (src/font.rs). -/

/-- Channel packing description (src/font.rs Packing). -/
inductive Packing where
  | glyph : Packing
  | outline : Packing
  | glyphOutline : Packing
  | zero : Packing
  | one : Packing
deriving DecidableEq, Repr

/-- Packing to byte (impl From<Packing> for u8 via the repr values). -/
def Packing.toU8 : Packing → Nat
  | .glyph => 0
  | .outline => 1
  | .glyphOutline => 2
  | .zero => 3
  | .one => 4

/-- Packing from byte (impl TryFrom<u8> for Packing, rejecting 5 and above). -/
def Packing.tryFromU8 (u : Nat) : Option Packing :=
  match u with
  | 0 => some .glyph
  | 1 => some .outline
  | 2 => some .glyphOutline
  | 3 => some .zero
  | 4 => some .one
  | _ => none

/-- Character padding (src/font.rs Padding). -/
structure Padding where
  up : Nat
  right : Nat
  down : Nat
  left : Nat
deriving DecidableEq, Repr

/-- Character spacing (src/font.rs Spacing). -/
structure Spacing where
  horizontal : Nat
  vertical : Nat
deriving DecidableEq, Repr

/-- Font information block (src/font.rs Info). The chnl-style texture
channel field Chnl(u8) is modelled as a plain byte with its < 16 bound
carried in the validity predicate. -/
structure Info where
  face : List Nat
  size : Int
  bold : Bool
  italic : Bool
  charset : Charset
  unicode : Bool
  stretchH : Nat
  smooth : Bool
  aa : Nat
  padding : Padding
  spacing : Spacing
  outline : Nat
deriving DecidableEq, Repr

/-- Rust Default for Info: all fields default except charset = Tagged(0). -/
def infoDefault : Info :=
  { face := [], size := 0, bold := false, italic := false,
    charset := .tagged 0, unicode := false, stretchH := 0, smooth := false,
    aa := 0, padding := ⟨0, 0, 0, 0⟩, spacing := ⟨0, 0⟩, outline := 0 }

/-- Common block (src/font.rs Common). -/
structure Common where
  lineHeight : Nat
  base : Nat
  scaleW : Nat
  scaleH : Nat
  pages : Nat
  packed : Bool
  alphaChnl : Packing
  redChnl : Packing
  greenChnl : Packing
  blueChnl : Packing
deriving DecidableEq, Repr

/-- Rust Default for Common. -/
def commonDefault : Common :=
  { lineHeight := 0, base := 0, scaleW := 0, scaleH := 0, pages := 0,
    packed := false, alphaChnl := .glyph, redChnl := .glyph,
    greenChnl := .glyph, blueChnl := .glyph }

/-- Character description (src/font.rs Char); chnl is the Chnl bit field
byte. -/
structure Char where
  id : Nat
  x : Nat
  y : Nat
  width : Nat
  height : Nat
  xoffset : Int
  yoffset : Int
  xadvance : Int
  page : Nat
  chnl : Nat
deriving DecidableEq, Repr

/-- Rust Default for Char: numeric fields 0, chnl = Chnl::default() = ALL = 15. -/
def charDefault : Char :=
  { id := 0, x := 0, y := 0, width := 0, height := 0, xoffset := 0,
    yoffset := 0, xadvance := 0, page := 0, chnl := 15 }

/-- Kerning pair (src/font.rs Kerning). -/
structure Kerning where
  first : Nat
  second : Nat
  amount : Int
deriving DecidableEq, Repr

/-- Rust Default for Kerning. -/
def kerningDefault : Kerning := { first := 0, second := 0, amount := 0 }

/-- Page record used by the attribute loader (src/font.rs Page). -/
structure Page where
  id : Nat
  file : List Nat
deriving DecidableEq, Repr

/-- Rust Default for Page. -/
def pageDefault : Page := { id := 0, file := [] }

/-- Count record used by the chars/kernings tags (src/builder Count). -/
structure Count where
  count : Nat
deriving DecidableEq, Repr

/-- Rust Default for Count. -/
def countDefault : Count := { count := 0 }

/-- Bitmap font descriptor aggregate (src/font.rs Font). -/
structure Font where
  info : Info
  common : Common
  pages : List (List Nat)
  chars : List Char
  kernings : List Kerning
deriving DecidableEq, Repr

/-- Rust Default for Font. -/
def fontDefault : Font :=
  { info := infoDefault, common := commonDefault, pages := [], chars := [],
    kernings := [] }

/-! ## Validity: the Rust type-level ranges plus the spec §3 Font
invariant common.pages = pages.len(). -/

/-- i16 range test. -/
def i16Ok (i : Int) : Bool := -32768 ≤ i && i ≤ 32767

/-- Charset payload well-formedness: a Tagged value is a byte, an
Undefined label is a Rust String (valid UTF-8). -/
def charsetValid : Charset → Bool
  | .null => true
  | .tagged u => u < 256
  | .undefined s => utf8Valid s

/-- Info field ranges as enforced by the Rust field types. -/
def infoValid (i : Info) : Bool :=
  utf8Valid i.face && i16Ok i.size && charsetValid i.charset &&
    i.stretchH < 65536 && i.aa < 256 &&
    i.padding.up < 256 && i.padding.right < 256 && i.padding.down < 256 &&
    i.padding.left < 256 && i.spacing.horizontal < 256 &&
    i.spacing.vertical < 256 && i.outline < 256

/-- Common field ranges as enforced by the Rust field types. -/
def commonValid (c : Common) : Bool :=
  c.lineHeight < 65536 && c.base < 65536 && c.scaleW < 65536 &&
    c.scaleH < 65536 && c.pages < 65536

/-- Char field ranges as enforced by the Rust field types (chnl is an
in-range Chnl bit field, so below 16). -/
def charValid (c : Char) : Bool :=
  c.id < 4294967296 && c.x < 65536 && c.y < 65536 && c.width < 65536 &&
    c.height < 65536 && i16Ok c.xoffset && i16Ok c.yoffset &&
    i16Ok c.xadvance && c.page < 256 && c.chnl < 16

/-- Kerning field ranges as enforced by the Rust field types. -/
def kerningValid (k : Kerning) : Bool :=
  k.first < 4294967296 && k.second < 4294967296 && i16Ok k.amount

/-- Valid Font: every field is within its Rust type range, strings are
Rust strings (valid UTF-8), and the spec §3 checked invariant
common.pages = pages.len() holds. -/
def fontValid (f : Font) : Bool :=
  infoValid f.info && commonValid f.common && f.pages.all utf8Valid &&
    f.chars.all charValid && f.kernings.all kerningValid &&
    f.common.pages == f.pages.length

/-! ## Errors (src/error.rs; PageCountMismatch appears in
src/binary/load.rs and InvalidCharsetEncoding in src/font.rs).
Error message payloads of the Parse variant keep the literal entity/
message strings the source constructs where those are fixed literals. -/

/-- Crate error type. -/
inductive Err where
  | brokenPageList : Err
  | duplicateCharCount (line : Option Nat) : Err
  | duplicateCommonBlock (line : Option Nat) : Err
  | duplicateInfoBlock (line : Option Nat) : Err
  | duplicateKerningCount (line : Option Nat) : Err
  | duplicateKey (line : Option Nat) (key : List Nat) : Err
  | incongruentPageNameLen (line : Option Nat) : Err
  | invalidBinary (magicBytes : Nat) : Err
  | invalidBinaryBlock (id : Nat) : Err
  | invalidCharsetEncoding (unicode : Bool) (charset : Charset) : Err
  | invalidCharCount (specified : Nat) (realized : Nat) : Err
  | invalidKerningCount (specified : Nat) (realized : Nat) : Err
  | invalidKey (line : Option Nat) (key : List Nat) : Err
  | invalidPageCount (specified : Nat) (realized : Nat) : Err
  | invalidTag (line : Option Nat) (tag : List Nat) : Err
  | noCommonBlock : Err
  | noInfoBlock : Err
  | pageCountMismatch (pagesLen : Nat) (commonPages : Nat) : Err
  | parse (line : Option Nat) (entity : List Nat) (msg : List Nat) : Err
  | unsafeValueString (path : List Nat) (value : List Nat) : Err
  | unsupportedBinaryVersion (version : Nat) : Err
  | unsupportedValueEncoding (path : List Nat) (value : List Nat) : Err
deriving DecidableEq, Repr

/-- Buffer underflow error (src/binary/pack.rs underflow()). -/
def errUnderflow : Err := .parse none (bsOf "buffer") (bsOf "underflow")

/-- Buffer overflow error (src/binary/pack.rs overflow()). -/
def errOverflow : Err := .parse none (bsOf "buffer") (bsOf "overflow")

/-- Missing NUL terminator error (src/binary/impls.rs C string unpack). -/
def errMissingNul : Err := .parse none (bsOf "CString") (bsOf "missing NUL")

/-- Embedded NUL error (src/binary/impls.rs c_string). -/
def errContainsNul : Err := .parse none (bsOf "CString") (bsOf "contains NUL")

/-- Invalid UTF-8 error (src/binary/impls.rs utf8_string / parse_u8; the
Rust message text is the formatted std error, abbreviated here). -/
def errBadString : Err := .parse none (bsOf "String") (bsOf "invalid")

/-! ## Load settings (src/settings.rs). -/

/-- Font import behavior settings. -/
structure LoadSettings where
  allowStringControlCharacters : Bool := false
  ignoreCounts : Bool := false
  ignoreInvalidTags : Bool := false
deriving DecidableEq, Repr

/-- Default LoadSettings: all strict. -/
def loadSettingsDefault : LoadSettings := {}

/-! ## Font builder (src/builder/mod.rs FontBuilder). -/

/-- Builder accumulator state (FontBuilder fields; the settings
reference is passed where used instead of being stored). -/
structure FontBuilder where
  info : Option Info := none
  common : Option Common := none
  pages : List (List Nat) := []
  chars : List Char := []
  charCount : Option Nat := none
  kernings : List Kerning := []
  kerningCount : Option Nat := none
deriving DecidableEq, Repr

/-- Fresh builder (FontBuilder::new). -/
def builderNew : FontBuilder := {}

/-- Control character test used by check_string: bytes 0x00..=0x1F and
0x7F are rejected. The Rust loop inspects chars; for valid UTF-8 the
byte-level check is equivalent since multi-byte sequences contain no
byte below 0x80. -/
def checkStringOk (s : List Nat) : Bool :=
  s.all fun b => decide (31 < b) && decide (b ≠ 127)

/-- Page-count part of the build checks. -/
def buildCountsErrPage (b : FontBuilder) (common : Common) : Option Err :=
  if common.pages ≠ b.pages.length then
    some (.invalidPageCount common.pages b.pages.length)
  else none

/-- Kerning-count and page-count part of the build checks. -/
def buildCountsErrKern (b : FontBuilder) (common : Common) : Option Err :=
  match b.kerningCount with
  | some specified =>
    if specified ≠ b.kernings.length then
      some (.invalidKerningCount specified b.kernings.length)
    else buildCountsErrPage b common
  | none => buildCountsErrPage b common

/-- First count-mismatch error of FontBuilder::build, in source order:
char count, kerning count, page count. -/
def buildCountsErr (b : FontBuilder) (common : Common) : Option Err :=
  match b.charCount with
  | some specified =>
    if specified ≠ b.chars.length then
      some (.invalidCharCount specified b.chars.length)
    else buildCountsErrKern b common
  | none => buildCountsErrKern b common

/-- String-safety part of FontBuilder::build, in source order: each page
name first, then the info face. -/
def buildStringsErr (info : Info) (pages : List (List Nat)) : Option Err :=
  match pages.find? (fun p => !(checkStringOk p)) with
  | some p => some (.unsafeValueString (bsOf "page id") p)
  | none =>
    if checkStringOk info.face then none
    else some (.unsafeValueString (bsOf "info face") info.face)

/-- FontBuilder::build: mandatory info/common, then (unless ignored)
count checks, then (unless allowed) control character checks. -/
def FontBuilder.build (settings : LoadSettings) (b : FontBuilder) :
    Except Err Font :=
  match b.info with
  | none => .error .noInfoBlock
  | some info =>
    match b.common with
    | none => .error .noCommonBlock
    | some common =>
      match if settings.ignoreCounts then none else buildCountsErr b common with
      | some e => .error e
      | none =>
        match
          if settings.allowStringControlCharacters then none
          else buildStringsErr info b.pages with
        | some e => .error e
        | none => .ok (Font.mk info common b.pages b.chars b.kernings)

/-- FontBuilder::set_info: at most once. -/
def FontBuilder.setInfo (b : FontBuilder) (line : Option Nat) (i : Info) :
    Except Err FontBuilder :=
  if b.info.isSome then .error (.duplicateInfoBlock line)
  else .ok { b with info := some i }

/-- FontBuilder::set_common: at most once. -/
def FontBuilder.setCommon (b : FontBuilder) (line : Option Nat) (c : Common) :
    Except Err FontBuilder :=
  if b.common.isSome then .error (.duplicateCommonBlock line)
  else .ok { b with common := some c }

/-- FontBuilder::add_page with the &mut self result/state split: the
returned state is the builder after the call, so a BrokenPageList
failure visibly leaves the page list untouched. -/
def FontBuilder.addPageMut (b : FontBuilder) (p : Page) :
    Except Err Unit × FontBuilder :=
  if p.id = b.pages.length then (.ok (), { b with pages := b.pages ++ [p.file] })
  else (.error .brokenPageList, b)

/-- FontBuilder::add_page, Except form used by the loaders. -/
def FontBuilder.addPage (b : FontBuilder) (p : Page) : Except Err FontBuilder :=
  match b.addPageMut p with
  | (.ok _, b2) => .ok b2
  | (.error e, _) => .error e

/-- FontBuilder::add_char: unconditional push. -/
def FontBuilder.addChar (b : FontBuilder) (c : Char) : Except Err FontBuilder :=
  .ok { b with chars := b.chars ++ [c] }

/-- FontBuilder::set_char_count: at most once (the Vec reserve is a
capacity hint with no observable effect). -/
def FontBuilder.setCharCount (b : FontBuilder) (line : Option Nat) (n : Nat) :
    Except Err FontBuilder :=
  if b.charCount.isSome then .error (.duplicateCharCount line)
  else .ok { b with charCount := some n }

/-- FontBuilder::add_kerning: unconditional push. -/
def FontBuilder.addKerning (b : FontBuilder) (k : Kerning) :
    Except Err FontBuilder :=
  .ok { b with kernings := b.kernings ++ [k] }

/-- FontBuilder::set_kerning_count: at most once. -/
def FontBuilder.setKerningCount (b : FontBuilder) (line : Option Nat) (n : Nat) :
    Except Err FontBuilder :=
  if b.kerningCount.isSome then .error (.duplicateKerningCount line)
  else .ok { b with kerningCount := some n }

/-! ## Binary codec (src/binary/).

Byte lists model &[u8] slices: every entry is a byte value below 256.

Modelled from the spec: the block id constants of src/binary/constants.rs
are not present under src/ (only their uses in load.rs/store.rs/impls.rs
are); spec §6 fixes them as the "fixed small integers for
Info/Common/Pages/Chars/KerningPairs" of the BMFont v3 stream, namely
1, 2, 3, 4, 5. -/

/-- Info block id. -/
def infoBlockId : Nat := 1

/-- Common block id. -/
def commonBlockId : Nat := 2

/-- Pages block id. -/
def pagesBlockId : Nat := 3

/-- Chars block id. -/
def charsBlockId : Nat := 4

/-- Kerning pairs block id. -/
def kerningPairsBlockId : Nat := 5

/-- Little-endian u16 bytes. -/
def u16le (n : Nat) : List Nat := [n % 256, n / 256 % 256]

/-- Little-endian u32 bytes. -/
def u32le (n : Nat) : List Nat :=
  [n % 256, n / 256 % 256, n / 65536 % 256, n / 16777216 % 256]

/-- Little-endian i16 bytes (two's complement). -/
def i16le (i : Int) : List Nat := u16le (i % 65536).toNat

/-- Little-endian u16 value of two bytes. -/
def rdU16 (lo hi : Nat) : Nat := lo + 256 * hi

/-- Little-endian u32 value of four bytes. -/
def rdU32 (b0 b1 b2 b3 : Nat) : Nat :=
  b0 + 256 * b1 + 65536 * b2 + 16777216 * b3

/-- Two's complement i16 value of a u16 value. -/
def toI16 (n : Nat) : Int := if n < 32768 then (n : Int) else (n : Int) - 65536

/-- Info bit field (src/binary/impls.rs: SMOOTH bit 7, UNICODE bit 6,
ITALIC bit 5, BOLD bit 4). -/
def infoBits (i : Info) : Nat :=
  (if i.smooth then 128 else 0) + (if i.unicode then 64 else 0) +
    (if i.italic then 32 else 0) + (if i.bold then 16 else 0)

/-- Charset to byte on binary write: Null and Undefined coerce to 0. -/
def charsetToU8 : Charset → Nat
  | .null => 0
  | .undefined _ => 0
  | .tagged u => u

/-- Charset from byte on binary read: 0 with unicode is Null, anything
else Tagged. -/
def charsetOfU8 (u : Nat) (unicode : Bool) : Charset :=
  if u = 0 ∧ unicode then .null else .tagged u

/-- NUL-freedom check of c_string (src/binary/impls.rs). -/
def cStringChk (s : List Nat) : Except Err (List Nat) :=
  if s.contains 0 then .error errContainsNul else .ok s

/-- Magic bytes: 3 marker bytes then the version (Magic::new packed LE). -/
def magicBytes (version : Nat) : List Nat := [66, 77, 70, version]

/-- Block header: id byte then little-endian u32 length, then payload. -/
def blockBytes (id : Nat) (payload : List Nat) : List Nat :=
  id :: u32le payload.length ++ payload

/-- Info payload, version 2 layout (impl PackDyn<V2> for Info): fixed
14 bytes then the NUL-terminated face. -/
def infoPackV2 (i : Info) : Except Err (List Nat) :=
  match cStringChk i.face with
  | .error e => .error e
  | .ok face =>
    .ok (i16le i.size ++ infoBits i :: charsetToU8 i.charset ::
      u16le i.stretchH ++ i.aa :: i.padding.up :: i.padding.right ::
      i.padding.down :: i.padding.left :: i.spacing.horizontal ::
      i.spacing.vertical :: i.outline :: (face ++ [0]))

/-- Common payload, version 3 layout (impl Pack<V3> for Common):
15 bytes. -/
def commonPackV3 (c : Common) : List Nat :=
  u16le c.lineHeight ++ u16le c.base ++ u16le c.scaleW ++ u16le c.scaleH ++
    u16le c.pages ++
    [if c.packed then 1 else 0, c.alphaChnl.toU8, c.redChnl.toU8,
     c.greenChnl.toU8, c.blueChnl.toU8]

/-- Char payload record, version 1 layout: 20 bytes. -/
def charPackV1 (c : Char) : List Nat :=
  u32le c.id ++ u16le c.x ++ u16le c.y ++ u16le c.width ++ u16le c.height ++
    i16le c.xoffset ++ i16le c.yoffset ++ i16le c.xadvance ++ [c.page, c.chnl]

/-- Kerning payload record, version 1 layout: 10 bytes. -/
def kerningPackV1 (k : Kerning) : List Nat :=
  u32le k.first ++ u32le k.second ++ i16le k.amount

/-- Pages payload loop of StoreAssist::pages: in strict mode every page
name after the first must have the first name's byte length, then each
name is NUL-checked and emitted NUL-terminated. -/
def pagesPayloadGo (strict : Bool) (id : Nat) (len0 : Nat) :
    List (List Nat) → Except Err (List Nat)
  | [] => .ok []
  | f :: r =>
    if strict = true ∧ id ≠ 0 ∧ f.length ≠ len0 then
      .error (.incongruentPageNameLen none)
    else
      match cStringChk f with
      | .error e => .error e
      | .ok cs =>
        match pagesPayloadGo strict (id + 1) (if id = 0 then f.length else len0) r with
        | .error e => .error e
        | .ok rest => .ok (cs ++ 0 :: rest)

/-- Pages payload (strict v3 export). -/
def pagesPayload (pages : List (List Nat)) : Except Err (List Nat) :=
  pagesPayloadGo true 0 0 pages

/-- Binary export (src/binary/store.rs to_vec, strict v3): magic, info,
common, pages and chars blocks, then a kernings block only when the list
is non-empty. The strict info encoding check (unicode requires a Null
charset) runs first. -/
def binToVec (f : Font) : Except Err (List Nat) :=
  if f.info.unicode = true ∧ f.info.charset ≠ .null then
    .error (.invalidCharsetEncoding true f.info.charset)
  else
    match infoPackV2 f.info with
    | .error e => .error e
    | .ok infoP =>
      match pagesPayload f.pages with
      | .error e => .error e
      | .ok pagesP =>
        .ok (magicBytes 3 ++ blockBytes infoBlockId infoP ++
          blockBytes commonBlockId (commonPackV3 f.common) ++
          blockBytes pagesBlockId pagesP ++
          blockBytes charsBlockId ((f.chars.map charPackV1).flatten) ++
          (if f.kernings = [] then []
           else blockBytes kerningPairsBlockId
             ((f.kernings.map kerningPackV1).flatten)))

/-! ## Binary decoding (src/binary/load.rs with src/binary/impls.rs). -/

/-- Info payload decode, tight (UnpackDyn<V2> unpack_dyn_tight): 14 fixed
bytes, then a NUL-terminated UTF-8 face which must end exactly at the
payload's end. Scanning state: none means the fixed part is being read. -/
def infoFaceScan : List Nat → List Nat → Except Err (List Nat)
  | [], _ => .error errMissingNul
  | 0 :: r, cur =>
    if r = [] then
      if utf8Valid cur.reverse then .ok cur.reverse else .error errBadString
    else .error errOverflow
  | b :: r, cur => infoFaceScan r (b :: cur)

/-- Info payload decode, tight continued: full layout. -/
def infoUnpackV2Tight (src : List Nat) : Except Err Info :=
  match src with
  | s0 :: s1 :: bits :: cs :: h0 :: h1 :: aa :: p0 :: p1 :: p2 :: p3 ::
      sp0 :: sp1 :: ol :: rest =>
    match infoFaceScan rest [] with
    | .error e => .error e
    | .ok face =>
      .ok { face := face
            size := toI16 (rdU16 s0 s1)
            bold := bits / 16 % 2 = 1
            italic := bits / 32 % 2 = 1
            charset := charsetOfU8 cs (bits / 64 % 2 = 1)
            unicode := bits / 64 % 2 = 1
            stretchH := rdU16 h0 h1
            smooth := bits / 128 % 2 = 1
            aa := aa
            padding := ⟨p0, p1, p2, p3⟩
            spacing := ⟨sp0, sp1⟩
            outline := ol }
  | _ => .error errUnderflow

/-- Common payload decode, tight (Unpack<V3> on exactly 15 bytes). -/
def commonUnpackV3Tight (src : List Nat) : Except Err Common :=
  match src with
  | l0 :: l1 :: b0 :: b1 :: w0 :: w1 :: h0 :: h1 :: pg0 :: pg1 :: bits ::
      a :: r :: g :: bl :: rest =>
    if rest = [] then
      match Packing.tryFromU8 a with
      | none => .error errBadString
      | some alpha =>
        match Packing.tryFromU8 r with
        | none => .error errBadString
        | some red =>
          match Packing.tryFromU8 g with
          | none => .error errBadString
          | some green =>
            match Packing.tryFromU8 bl with
            | none => .error errBadString
            | some blue =>
              .ok { lineHeight := rdU16 l0 l1, base := rdU16 b0 b1,
                    scaleW := rdU16 w0 w1, scaleH := rdU16 h0 h1,
                    pages := rdU16 pg0 pg1, packed := bits % 2 = 1,
                    alphaChnl := alpha, redChnl := red, greenChnl := green,
                    blueChnl := blue }
    else .error errOverflow
  | _ => .error errUnderflow

/-- Pages payload decode (UnpackDyn<C> take-all over NUL-terminated
UTF-8 strings): cur is the reversed bytes of the string being read, or
none between strings; acc holds completed strings reversed. -/
def pagesUnpackGo : List Nat → Option (List Nat) → List (List Nat) →
    Except Err (List (List Nat))
  | [], none, acc => .ok acc.reverse
  | [], some _, _ => .error errMissingNul
  | b :: r, none, acc =>
    if b = 0 then pagesUnpackGo r none ([] :: acc)
    else pagesUnpackGo r (some [b]) acc
  | b :: r, some cur, acc =>
    if b = 0 then
      if utf8Valid cur.reverse then pagesUnpackGo r none (cur.reverse :: acc)
      else .error errBadString
    else pagesUnpackGo r (some (b :: cur)) acc

/-- Pages payload decode entry point. -/
def pagesUnpack (bs : List Nat) : Except Err (List (List Nat)) :=
  pagesUnpackGo bs none []

/-- Chars payload decode (Unpack<V1> take-all over 20-byte records);
chnl bytes of 16 and above are rejected by Chnl::try_from. -/
def charsUnpack : List Nat → Except Err (List Char)
  | [] => .ok []
  | b0 :: b1 :: b2 :: b3 :: x0 :: x1 :: y0 :: y1 :: w0 :: w1 :: h0 :: h1 ::
      xo0 :: xo1 :: yo0 :: yo1 :: xa0 :: xa1 :: pg :: ch :: rest =>
    if ch < 16 then
      match charsUnpack rest with
      | .error e => .error e
      | .ok cs =>
        .ok ({ id := rdU32 b0 b1 b2 b3, x := rdU16 x0 x1, y := rdU16 y0 y1,
               width := rdU16 w0 w1, height := rdU16 h0 h1,
               xoffset := toI16 (rdU16 xo0 xo1),
               yoffset := toI16 (rdU16 yo0 yo1),
               xadvance := toI16 (rdU16 xa0 xa1), page := pg,
               chnl := ch } :: cs)
    else .error errBadString
  | _ => .error errUnderflow

/-- Kernings payload decode (Unpack<V1> take-all over 10-byte records). -/
def kerningsUnpack : List Nat → Except Err (List Kerning)
  | [] => .ok []
  | f0 :: f1 :: f2 :: f3 :: s0 :: s1 :: s2 :: s3 :: a0 :: a1 :: rest =>
    match kerningsUnpack rest with
    | .error e => .error e
    | .ok ks =>
      .ok ({ first := rdU32 f0 f1 f2 f3, second := rdU32 s0 s1 s2 s3,
             amount := toI16 (rdU16 a0 a1) } :: ks)
  | _ => .error errUnderflow

/-- Binary loader accumulator (src/binary/load.rs FontBuilderBinary;
the LoadSettings field is deliberately unused by the source, so it is
not carried). -/
structure BinBuilder where
  info : Option Info := none
  common : Option Common := none
  pages : List (List Nat) := []
  chars : List Char := []
  kernings : List Kerning := []
deriving DecidableEq, Repr

/-- Fresh binary builder. -/
def binBuilderNew : BinBuilder := {}

/-- Per-block dispatch of FontBuilderBinary::next: duplicate info/common
blocks are rejected before decoding, pages/chars/kernings append, and an
unknown id is a hard error. -/
def blockDispatch (id : Nat) (payload : List Nat) (st : BinBuilder) :
    Except Err BinBuilder :=
  if id = infoBlockId then
    if st.info.isSome then .error (.duplicateInfoBlock none)
    else
      match infoUnpackV2Tight payload with
      | .error e => .error e
      | .ok i => .ok { st with info := some i }
  else if id = commonBlockId then
    if st.common.isSome then .error (.duplicateCommonBlock none)
    else
      match commonUnpackV3Tight payload with
      | .error e => .error e
      | .ok c => .ok { st with common := some c }
  else if id = pagesBlockId then
    match pagesUnpack payload with
    | .error e => .error e
    | .ok ps => .ok { st with pages := st.pages ++ ps }
  else if id = charsBlockId then
    match charsUnpack payload with
    | .error e => .error e
    | .ok cs => .ok { st with chars := st.chars ++ cs }
  else if id = kerningPairsBlockId then
    match kerningsUnpack payload with
    | .error e => .error e
    | .ok ks => .ok { st with kernings := st.kernings ++ ks }
  else .error (.invalidBinaryBlock id)

/-- Top-level block loop of FontBuilderBinary::load: while the stream is
non-empty read a 5-byte header (underflow otherwise), slice exactly len
payload bytes (underflow if fewer remain) and dispatch. Structural on a
fuel argument for kernel evaluation; each iteration consumes at least
5 bytes, so fuel = input length always suffices and the fuel-exhausted
branch (an Internal-style error) is unreachable from the wrapper. -/
def binLoadGo : Nat → List Nat → BinBuilder → Except Err BinBuilder
  | _, [], st => .ok st
  | fuel + 1, id :: l0 :: l1 :: l2 :: l3 :: r, st =>
    if rdU32 l0 l1 l2 l3 ≤ r.length then
      match blockDispatch id (r.take (rdU32 l0 l1 l2 l3)) st with
      | .error e => .error e
      | .ok st2 => binLoadGo fuel (r.drop (rdU32 l0 l1 l2 l3)) st2
    else .error errUnderflow
  | _ + 1, _ :: _, _ => .error errUnderflow
  | 0, _ :: _, _ => .error (.parse none (bsOf "internal") (bsOf "fuel"))

/-- Block loop entry point. -/
def binLoad (bs : List Nat) (st : BinBuilder) : Except Err BinBuilder :=
  binLoadGo bs.length bs st

/-- FontBuilderBinary::build: mandatory info/common, and the realized
page count must equal common.pages (PageCountMismatch otherwise),
regardless of any LoadSettings. -/
def binBuild (st : BinBuilder) : Except Err Font :=
  match st.info with
  | none => .error .noInfoBlock
  | some info =>
    match st.common with
    | none => .error .noCommonBlock
    | some common =>
      if st.pages.length ≠ common.pages then
        .error (.pageCountMismatch st.pages.length common.pages)
      else .ok (Font.mk info common st.pages st.chars st.kernings)

/-- Binary import (src/binary/load.rs from_bytes): 4 magic bytes
(underflow if fewer), marker check, version 3 check, block loop, build. -/
def binFromBytes (bs : List Nat) : Except Err Font :=
  match bs with
  | b0 :: b1 :: b2 :: b3 :: rest =>
    if rdU32 b0 b1 b2 b3 % 16777216 ≠ 0x464D42 then
      .error (.invalidBinary (rdU32 b0 b1 b2 b3))
    else if rdU32 b0 b1 b2 b3 / 16777216 ≠ 3 then
      .error (.unsupportedBinaryVersion (rdU32 b0 b1 b2 b3 / 16777216))
    else
      match binLoad rest binBuilderNew with
      | .error e => .error e
      | .ok st => binBuild st
  | _ => .error errUnderflow

/-- Binary import with settings (from_bytes_ext): the settings argument
is accepted but, exactly as in the source (the _settings field), has no
effect on binary loading. -/
def binFromBytesExt (_settings : LoadSettings) (bs : List Nat) :
    Except Err Font :=
  binFromBytes bs

/-- Block-presence scan over a block stream, following the same framing
as the load loop (used to state the kernings-absence property). -/
def hasBlockGo : Nat → Nat → List Nat → Bool
  | _, _, [] => false
  | fuel + 1, bid, id :: l0 :: l1 :: l2 :: l3 :: r =>
    if id = bid then true
    else hasBlockGo fuel bid (r.drop (rdU32 l0 l1 l2 l3))
  | _ + 1, _, _ :: _ => false
  | 0, _, _ :: _ => false

/-- Block-presence scan entry point. -/
def hasBlock (bid : Nat) (bs : List Nat) : Bool := hasBlockGo bs.length bid bs

/-- The info record after one pack/unpack cycle: every field survives
except the charset, which goes through the lossy byte coercion. -/
def infoCoerced (i : Info) : Info :=
  { i with charset := charsetOfU8 (charsetToU8 i.charset) i.unicode }

/-- Builder state after loading every block emitted for a font. -/
def binLoadedBuilder (f : Font) : BinBuilder :=
  { info := some (infoCoerced f.info)
    common := some f.common
    pages := f.pages
    chars := f.chars
    kernings := f.kernings }

/-! ## Tagged-attribute tokenizer (src/tagged_attributes/mod.rs).

Byte constants: CR 13, LF 10, SP 32, TB 9, EQ 61, QT 34. State is the
remaining input (a suffix of the original buffer) plus the 1-based line
counter where it changes. -/

/-- Tokenizer errors. -/
inductive TErr where
  | badCRLF : TErr
  | expectedEq : TErr
  | unexpectedEndOfFile : TErr
  | unexpectedEndOfLine : TErr
deriving DecidableEq, Repr

/-- Display text of the tokenizer errors (quote marks of the source
message around the equals sign are omitted). -/
def tErrMsg : TErr → List Nat
  | .badCRLF => bsOf "bad new line"
  | .expectedEq => bsOf "expected eq"
  | .unexpectedEndOfFile => bsOf "unexpected end of file"
  | .unexpectedEndOfLine => bsOf "unexpected end of line"

/-- TaggedAttributes::value_tail_wn: scan an unquoted token; it ends
before CR (which must open a CRLF pair and stays unconsumed together
with its LF), before LF (unconsumed), or at a space or tab (consumed). -/
def valueTailWn : List Nat → Except TErr (List Nat × List Nat)
  | [] => .ok ([], [])
  | b :: r =>
    if b = 13 then
      if r.head? = some 10 then .ok ([], r) else .error .badCRLF
    else if b = 10 then .ok ([], b :: r)
    else if b = 32 ∨ b = 9 then .ok ([], r)
    else
      match valueTailWn r with
      | .error e => .error e
      | .ok (t, rest) => .ok (b :: t, rest)

/-- TaggedAttributes::value_tail_qt: scan a quoted value up to the
closing quote (consumed); CR, LF and end of input are errors. -/
def valueTailQt : List Nat → Except TErr (List Nat × List Nat)
  | [] => .error .unexpectedEndOfFile
  | b :: r =>
    if b = 13 ∨ b = 10 then .error .unexpectedEndOfLine
    else if b = 34 then .ok ([], r)
    else
      match valueTailQt r with
      | .error e => .error e
      | .ok (t, rest) => .ok (b :: t, rest)

/-- Inner loop of key_tail after whitespace ends a key: consume bytes
until an equals sign; anything but space or tab (or end of input) is an
ExpectedEq error. -/
def eatEq : List Nat → Except TErr (List Nat)
  | [] => .error .expectedEq
  | b :: r =>
    if b = 61 then .ok r
    else if b = 32 ∨ b = 9 then eatEq r
    else .error .expectedEq

/-- TaggedAttributes::key_tail: scan the rest of a key; the key ends at
the equals sign (consumed, possibly after whitespace); CR/LF mean an
unterminated key, end of input the same at file level. Control bytes
join the key just as any byte above space. -/
def keyTail : List Nat → Except TErr (List Nat × List Nat)
  | [] => .error .unexpectedEndOfFile
  | b :: r =>
    if b = 61 then .ok ([], r)
    else if b = 13 ∨ b = 10 then .error .unexpectedEndOfLine
    else if b = 32 ∨ b = 9 then
      match eatEq r with
      | .error e => .error e
      | .ok rest => .ok ([], rest)
    else
      match keyTail r with
      | .error e => .error e
      | .ok (t, rest) => .ok (b :: t, rest)

/-- Leading space/tab skip (TaggedAttributes::skip). -/
def skipWs : List Nat → List Nat
  | [] => []
  | b :: r => if b = 32 ∨ b = 9 then skipWs r else b :: r

/-- TaggedAttributes::key_value: skip whitespace; at end of line (LF
stays unconsumed, a CRLF keeps its LF unconsumed) or end of input there
is no further attribute; otherwise read key, equals sign and value
(quoted or unquoted). The line counter never changes here. -/
def keyValue : List Nat → Except TErr (Option (List Nat × List Nat) × List Nat)
  | [] => .ok (none, [])
  | b :: r =>
    if b = 32 ∨ b = 9 then keyValue r
    else if b = 13 then
      if r.head? = some 10 then .ok (none, r) else .error .badCRLF
    else if b = 10 then .ok (none, b :: r)
    else
      match keyTail r with
      | .error e => .error e
      | .ok (kt, r1) =>
        match skipWs r1 with
        | [] => .error .unexpectedEndOfLine
        | c :: r2 =>
          if c = 13 ∨ c = 10 then .error .unexpectedEndOfLine
          else if c = 34 then
            match valueTailQt r2 with
            | .error e => .error e
            | .ok (v, rest) => .ok (some (b :: kt, v), rest)
          else
            match valueTailWn r2 with
            | .error e => .error e
            | .ok (vt, rest) => .ok (some (b :: kt, c :: vt), rest)

/-- TaggedAttributes::tag: skip whitespace and line breaks (counting
lines, and demanding LF directly after CR), then read a tag token; none
at end of input. Errors carry the line current when they occur. -/
def nextTag : List Nat → Nat → Except (TErr × Nat) (Option (List Nat) × List Nat × Nat)
  | [], line => .ok (none, [], line)
  | b :: r, line =>
    if b = 32 ∨ b = 9 then nextTag r line
    else if b = 13 then
      match r with
      | 10 :: r2 => nextTag r2 (line + 1)
      | _ => .error (.badCRLF, line)
    else if b = 10 then nextTag r (line + 1)
    else
      match valueTailWn r with
      | .error e => .error (e, line)
      | .ok (t, rest) => .ok (some (b :: t), rest, line)

/-! ## Attribute loaders (the implement_load! table of
src/builder/load.rs / src/builder/mod.rs). -/

/-- Field parsers returning none on failure; the loader wraps failures
in Error::Parse. String fields validate UTF-8. -/
def pString (v : List Nat) : Option (List Nat) :=
  if utf8Valid v then some v else none

/-- u32 field parse. -/
def pU32 (v : List Nat) : Option Nat := parseUInt 4294967295 v

/-- u16 field parse. -/
def pU16 (v : List Nat) : Option Nat := parseUInt 65535 v

/-- u8 field parse. -/
def pU8 (v : List Nat) : Option Nat := parseUInt 255 v

/-- Chnl field parse: u8 then the Chnl bit-field bound. -/
def pChnl (v : List Nat) : Option Nat :=
  (parseUInt 255 v).bind fun u => if u < 16 then some u else none

/-- Packing field parse: u8 then TryFrom. -/
def pPacking (v : List Nat) : Option Packing :=
  (parseUInt 255 v).bind Packing.tryFromU8

/-- Charset field parse: UTF-8 then the infallible From<&str>. -/
def pCharset (v : List Nat) : Option Charset :=
  if utf8Valid v then some (charsetFromBytes v) else none

/-- Comma split of the [T; N] array parse (str::split_terminator(",")):
one part per separator-delimited run, with a trailing empty part after a
final separator dropped. -/
def splitCommaGo : List Nat → List Nat → List (List Nat)
  | [], cur => if cur = [] then [] else [cur.reverse]
  | b :: r, cur =>
    if b = 44 then cur.reverse :: splitCommaGo r []
    else splitCommaGo r (b :: cur)

/-- Comma split entry point. -/
def splitComma (l : List Nat) : List (List Nat) := splitCommaGo l []

/-- ASCII-whitespace left trim; the source uses str::trim whose Unicode
whitespace beyond ASCII is not reached by any property proved here. -/
def trimLeftWs : List Nat → List Nat
  | [] => []
  | b :: r =>
    if b = 32 ∨ b = 9 ∨ b = 10 ∨ b = 13 ∨ b = 11 ∨ b = 12 then trimLeftWs r
    else b :: r

/-- Both-ends trim. -/
def trimWs (l : List Nat) : List Nat :=
  (trimLeftWs (trimLeftWs l).reverse).reverse

/-- Padding parse: exactly four comma-separated trimmed u8 values
(ArrayUnderflow/ArrayOverflow otherwise), after UTF-8 validation. -/
def pPadding (v : List Nat) : Option Padding :=
  if utf8Valid v then
    match splitComma v with
    | [a, b, c, d] =>
      match pU8 (trimWs a), pU8 (trimWs b), pU8 (trimWs c), pU8 (trimWs d) with
      | some up, some right, some down, some left => some ⟨up, right, down, left⟩
      | _, _, _, _ => none
    | _ => none
  else none

/-- Spacing parse: exactly two comma-separated trimmed u8 values. -/
def pSpacing (v : List Nat) : Option Spacing :=
  if utf8Valid v then
    match splitComma v with
    | [a, b] =>
      match pU8 (trimWs a), pU8 (trimWs b) with
      | some horizontal, some vertical => some ⟨horizontal, vertical⟩
      | _, _ => none
    | _ => none
  else none

/-- One row of an implement_load! table: recognized key, duplicate-check
bit index, parse-and-assign action. -/
structure Field (α : Type) where
  key : List Nat
  bit : Nat
  set : α → List Nat → Option α

/-- One attribute application of the implement_load! loop: unknown key
is InvalidKey (after a UTF-8 check on the key); a key whose bit is
already set is DuplicateKey; a parse failure is Error::Parse tagged with
the key; otherwise assign and set the bit. -/
def applyField {α : Type} (fields : List (Field α)) (line : Option Nat)
    (k v : List Nat) (acc : α) (mask : Nat) : Except Err (α × Nat) :=
  match fields.find? (fun fd => fd.key == k) with
  | none =>
    if utf8Valid k then .error (.invalidKey line k)
    else .error (.parse line (bsOf "key") (bsOf "invalid"))
  | some fd =>
    if mask.testBit fd.bit then .error (.duplicateKey line k)
    else
      match fd.set acc v with
      | some a2 => .ok (a2, mask ||| 2 ^ fd.bit)
      | none => .error (.parse line k (bsOf "invalid"))

/-- Attribute loop of implement_load!: read attributes until the line
ends, folding them into the default-initialized block. Structural on a
fuel argument; every attribute consumes input so fuel = length + 1
always suffices. -/
def loadBlockGo {α : Type} (fields : List (Field α)) :
    Nat → List Nat → Nat → α → Nat → Except Err (α × List Nat)
  | 0, _, _, _, _ => .error (.parse none (bsOf "internal") (bsOf "fuel"))
  | fuel + 1, bs, line, acc, mask =>
    match keyValue bs with
    | .error e =>
      .error (.parse (some line) (bsOf "attribute") (bsOf "attributes: " ++ tErrMsg e))
    | .ok (none, rest) => .ok (acc, rest)
    | .ok (some (k, v), rest) =>
      match applyField fields (some line) k v acc mask with
      | .error e => .error e
      | .ok (acc2, mask2) => loadBlockGo fields fuel rest line acc2 mask2

/-- Attribute loop entry point. -/
def loadBlock {α : Type} (fields : List (Field α)) (bs : List Nat)
    (line : Nat) (acc : α) : Except Err (α × List Nat) :=
  loadBlockGo fields (bs.length + 1) bs line acc 0

/-- Attribute loop at the canonical fuel and an arbitrary duplicate
mask, for stating loop lemmas. -/
def loadBlockRun {α : Type} (fields : List (Field α)) (bs : List Nat)
    (line : Nat) (acc : α) (mask : Nat) : Except Err (α × List Nat) :=
  loadBlockGo fields (bs.length + 1) bs line acc mask

/-- Char attribute table (ids as in the source: xadvance uses bit 8,
bit 7 is skipped). -/
def charFields : List (Field Char) :=
  [⟨bsOf "id", 0, fun a v => (pU32 v).map fun x => { a with id := x }⟩,
   ⟨bsOf "x", 1, fun a v => (pU16 v).map fun x => { a with x := x }⟩,
   ⟨bsOf "y", 2, fun a v => (pU16 v).map fun x => { a with y := x }⟩,
   ⟨bsOf "width", 3, fun a v => (pU16 v).map fun x => { a with width := x }⟩,
   ⟨bsOf "height", 4, fun a v => (pU16 v).map fun x => { a with height := x }⟩,
   ⟨bsOf "xoffset", 5, fun a v => (parseI16Bytes v).map fun x => { a with xoffset := x }⟩,
   ⟨bsOf "yoffset", 6, fun a v => (parseI16Bytes v).map fun x => { a with yoffset := x }⟩,
   ⟨bsOf "xadvance", 8, fun a v => (parseI16Bytes v).map fun x => { a with xadvance := x }⟩,
   ⟨bsOf "page", 9, fun a v => (pU8 v).map fun x => { a with page := x }⟩,
   ⟨bsOf "chnl", 10, fun a v => (pChnl v).map fun x => { a with chnl := x }⟩]

/-- Common attribute table. -/
def commonFields : List (Field Common) :=
  [⟨bsOf "lineHeight", 0, fun a v => (pU16 v).map fun x => { a with lineHeight := x }⟩,
   ⟨bsOf "base", 1, fun a v => (pU16 v).map fun x => { a with base := x }⟩,
   ⟨bsOf "scaleW", 2, fun a v => (pU16 v).map fun x => { a with scaleW := x }⟩,
   ⟨bsOf "scaleH", 3, fun a v => (pU16 v).map fun x => { a with scaleH := x }⟩,
   ⟨bsOf "pages", 4, fun a v => (pU16 v).map fun x => { a with pages := x }⟩,
   ⟨bsOf "packed", 5, fun a v => (parseBoolBytes v).map fun x => { a with packed := x }⟩,
   ⟨bsOf "alphaChnl", 6, fun a v => (pPacking v).map fun x => { a with alphaChnl := x }⟩,
   ⟨bsOf "redChnl", 7, fun a v => (pPacking v).map fun x => { a with redChnl := x }⟩,
   ⟨bsOf "greenChnl", 8, fun a v => (pPacking v).map fun x => { a with greenChnl := x }⟩,
   ⟨bsOf "blueChnl", 9, fun a v => (pPacking v).map fun x => { a with blueChnl := x }⟩]

/-- Count attribute table. -/
def countFields : List (Field Count) :=
  [⟨bsOf "count", 0, fun a v => (pU32 v).map fun x => { a with count := x }⟩]

/-- Info attribute table. -/
def infoFields : List (Field Info) :=
  [⟨bsOf "face", 0, fun a v => (pString v).map fun x => { a with face := x }⟩,
   ⟨bsOf "size", 1, fun a v => (parseI16Bytes v).map fun x => { a with size := x }⟩,
   ⟨bsOf "bold", 2, fun a v => (parseBoolBytes v).map fun x => { a with bold := x }⟩,
   ⟨bsOf "italic", 3, fun a v => (parseBoolBytes v).map fun x => { a with italic := x }⟩,
   ⟨bsOf "charset", 4, fun a v => (pCharset v).map fun x => { a with charset := x }⟩,
   ⟨bsOf "unicode", 5, fun a v => (parseBoolBytes v).map fun x => { a with unicode := x }⟩,
   ⟨bsOf "stretchH", 6, fun a v => (pU16 v).map fun x => { a with stretchH := x }⟩,
   ⟨bsOf "smooth", 7, fun a v => (parseBoolBytes v).map fun x => { a with smooth := x }⟩,
   ⟨bsOf "aa", 8, fun a v => (pU8 v).map fun x => { a with aa := x }⟩,
   ⟨bsOf "padding", 9, fun a v => (pPadding v).map fun x => { a with padding := x }⟩,
   ⟨bsOf "spacing", 10, fun a v => (pSpacing v).map fun x => { a with spacing := x }⟩,
   ⟨bsOf "outline", 11, fun a v => (pU8 v).map fun x => { a with outline := x }⟩]

/-- Kerning attribute table. -/
def kerningFields : List (Field Kerning) :=
  [⟨bsOf "first", 0, fun a v => (pU32 v).map fun x => { a with first := x }⟩,
   ⟨bsOf "second", 1, fun a v => (pU32 v).map fun x => { a with second := x }⟩,
   ⟨bsOf "amount", 2, fun a v => (parseI16Bytes v).map fun x => { a with amount := x }⟩]

/-- Page attribute table. -/
def pageFields : List (Field Page) :=
  [⟨bsOf "id", 0, fun a v => (pU16 v).map fun x => { a with id := x }⟩,
   ⟨bsOf "file", 1, fun a v => (pString v).map fun x => { a with file := x }⟩]

/-! ## Text loader (src/text/load.rs). -/

/-- One recognized-tag step of FontBuilderText::load_bytes: parse the
block's attributes, then apply the corresponding builder setter. An
unrecognized tag is InvalidTag (after a UTF-8 check). -/
def textStep (t rest : List Nat) (line : Nat) (st : FontBuilder) :
    Except Err (FontBuilder × List Nat) :=
  if t = bsOf "info" then
    match loadBlock infoFields rest line infoDefault with
    | .error e => .error e
    | .ok (i, rest2) =>
      match st.setInfo (some line) i with
      | .error e => .error e
      | .ok st2 => .ok (st2, rest2)
  else if t = bsOf "common" then
    match loadBlock commonFields rest line commonDefault with
    | .error e => .error e
    | .ok (c, rest2) =>
      match st.setCommon (some line) c with
      | .error e => .error e
      | .ok st2 => .ok (st2, rest2)
  else if t = bsOf "page" then
    match loadBlock pageFields rest line pageDefault with
    | .error e => .error e
    | .ok (p, rest2) =>
      match st.addPage p with
      | .error e => .error e
      | .ok st2 => .ok (st2, rest2)
  else if t = bsOf "chars" then
    match loadBlock countFields rest line countDefault with
    | .error e => .error e
    | .ok (c, rest2) =>
      match st.setCharCount (some line) c.count with
      | .error e => .error e
      | .ok st2 => .ok (st2, rest2)
  else if t = bsOf "char" then
    match loadBlock charFields rest line charDefault with
    | .error e => .error e
    | .ok (c, rest2) =>
      match st.addChar c with
      | .error e => .error e
      | .ok st2 => .ok (st2, rest2)
  else if t = bsOf "kernings" then
    match loadBlock countFields rest line countDefault with
    | .error e => .error e
    | .ok (c, rest2) =>
      match st.setKerningCount (some line) c.count with
      | .error e => .error e
      | .ok st2 => .ok (st2, rest2)
  else if t = bsOf "kerning" then
    match loadBlock kerningFields rest line kerningDefault with
    | .error e => .error e
    | .ok (k, rest2) =>
      match st.addKerning k with
      | .error e => .error e
      | .ok st2 => .ok (st2, rest2)
  else if utf8Valid t then .error (.invalidTag (some line) t)
  else .error (.parse (some line) (bsOf "tag") (bsOf "invalid"))

/-- Tag loop of FontBuilderText::load_bytes. Structural on fuel; every
iteration consumes the tag token, so fuel = length + 1 suffices. -/
def textLoadGo : Nat → List Nat → Nat → FontBuilder → Except Err FontBuilder
  | 0, _, _, _ => .error (.parse none (bsOf "internal") (bsOf "fuel"))
  | fuel + 1, bs, line, st =>
    match nextTag bs line with
    | .error (e, l2) => .error (.parse (some l2) (bsOf "tag") (tErrMsg e))
    | .ok (none, _, _) => .ok st
    | .ok (some t, rest, line2) =>
      match textStep t rest line2 st with
      | .error e => .error e
      | .ok (st2, rest2) => textLoadGo fuel rest2 line2 st2

/-- Tag loop at the canonical fuel, for stating loader lemmas. -/
def textLoad (bs : List Nat) (line : Nat) (st : FontBuilder) :
    Except Err FontBuilder :=
  textLoadGo (bs.length + 1) bs line st

/-- Text import with settings (src/text/load.rs from_bytes_ext). -/
def textFromBytesExt (settings : LoadSettings) (bs : List Nat) :
    Except Err Font :=
  match textLoadGo (bs.length + 1) bs 1 builderNew with
  | .error e => .error e
  | .ok st => st.build settings

/-- Text import with default (strict) settings. -/
def textFromBytes (bs : List Nat) : Except Err Font :=
  textFromBytesExt loadSettingsDefault bs

/-! ## Text export (src/text/store.rs). -/

/-- Value-safety test of check_value: control bytes, DEL and the double
quote are rejected (byte-level; equivalent to the char loop for valid
UTF-8). -/
def checkValueOk (s : List Nat) : Bool :=
  s.all fun b => decide (31 < b) && decide (b ≠ 34) && decide (b ≠ 127)

/-- check_value of src/text/store.rs. -/
def checkValue (path s : List Nat) : Except Err (List Nat) :=
  if checkValueOk s then .ok s else .error (.unsupportedValueEncoding path s)

/-- Left-aligned minimum-width padding of a format argument (the
Rust format spec with a less-than fill). -/
def padTo (w : Nat) (s : List Nat) : List Nat :=
  s ++ List.replicate (w - s.length) 32

/-- Info line of the text store, CRLF-terminated; the face is quoted and
checked, the charset is quoted and written as rendered. -/
def infoLine (i : Info) : Except Err (List Nat) :=
  match checkValue (bsOf "info face") i.face with
  | .error e => .error e
  | .ok face =>
    .ok (bsOf "info face=\"" ++ face ++ bsOf "\" size=" ++ renderInt i.size ++
      bsOf " bold=" ++ renderBool i.bold ++ bsOf " italic=" ++
      renderBool i.italic ++ bsOf " charset=\"" ++ charsetRender i.charset ++
      bsOf "\" unicode=" ++ renderBool i.unicode ++ bsOf " stretchH=" ++
      renderNat i.stretchH ++ bsOf " smooth=" ++ renderBool i.smooth ++
      bsOf " aa=" ++ renderNat i.aa ++ bsOf " padding=" ++
      renderNat i.padding.up ++ [44] ++ renderNat i.padding.right ++ [44] ++
      renderNat i.padding.down ++ [44] ++ renderNat i.padding.left ++
      bsOf " spacing=" ++ renderNat i.spacing.horizontal ++ [44] ++
      renderNat i.spacing.vertical ++ bsOf " outline=" ++
      renderNat i.outline ++ [13, 10])

/-- Common line of the text store, CRLF-terminated. -/
def commonLine (c : Common) : List Nat :=
  bsOf "common lineHeight=" ++ renderNat c.lineHeight ++ bsOf " base=" ++
    renderNat c.base ++ bsOf " scaleW=" ++ renderNat c.scaleW ++
    bsOf " scaleH=" ++ renderNat c.scaleH ++ bsOf " pages=" ++
    renderNat c.pages ++ bsOf " packed=" ++ renderBool c.packed ++
    bsOf " alphaChnl=" ++ renderNat c.alphaChnl.toU8 ++ bsOf " redChnl=" ++
    renderNat c.redChnl.toU8 ++ bsOf " greenChnl=" ++
    renderNat c.greenChnl.toU8 ++ bsOf " blueChnl=" ++
    renderNat c.blueChnl.toU8 ++ [13, 10]

/-- Page line of the text store: the id is the enumeration index, the
file name is quoted and checked. -/
def pageLine (id : Nat) (file : List Nat) : List Nat :=
  bsOf "page id=" ++ renderNat id ++ bsOf " file=\"" ++ file ++ [34, 13, 10]

/-- Page lines with the value checks, in order. -/
def pageLinesGo (id : Nat) : List (List Nat) → Except Err (List Nat)
  | [] => .ok []
  | f :: r =>
    match checkValue (bsOf "page id") f with
    | .error e => .error e
    | .ok cf =>
      match pageLinesGo (id + 1) r with
      | .error e => .error e
      | .ok rest => .ok (pageLine id cf ++ rest)

/-- Char line of the text store with its left-aligned paddings. -/
def charLine (c : Char) : List Nat :=
  bsOf "char id=" ++ padTo 4 (renderNat c.id) ++ bsOf " x=" ++
    padTo 5 (renderNat c.x) ++ bsOf " y=" ++ padTo 5 (renderNat c.y) ++
    bsOf " width=" ++ padTo 5 (renderNat c.width) ++ bsOf " height=" ++
    padTo 5 (renderNat c.height) ++ bsOf " xoffset=" ++
    padTo 5 (renderInt c.xoffset) ++ bsOf " yoffset=" ++
    padTo 5 (renderInt c.yoffset) ++ bsOf " xadvance=" ++
    padTo 5 (renderInt c.xadvance) ++ bsOf " page=" ++
    padTo 2 (renderNat c.page) ++ bsOf " chnl=" ++
    padTo 2 (renderNat c.chnl) ++ [13, 10]

/-- Kerning line of the text store with its left-aligned paddings. -/
def kerningLine (k : Kerning) : List Nat :=
  bsOf "kerning first=" ++ padTo 3 (renderNat k.first) ++ bsOf " second=" ++
    padTo 3 (renderNat k.second) ++ bsOf " amount=" ++
    padTo 4 (renderInt k.amount) ++ [13, 10]

/-- Text export (src/text/store.rs to_vec): info line, common line, page
lines, chars count line, char lines, kernings count line, kerning
lines. -/
def textToVec (f : Font) : Except Err (List Nat) :=
  match infoLine f.info with
  | .error e => .error e
  | .ok il =>
    match pageLinesGo 0 f.pages with
    | .error e => .error e
    | .ok pls =>
      .ok (il ++ commonLine f.common ++ pls ++ bsOf "chars count=" ++
        renderNat f.chars.length ++ [13, 10] ++
        (f.chars.map charLine).flatten ++ bsOf "kernings count=" ++
        renderNat f.kernings.length ++ [13, 10] ++
        (f.kernings.map kerningLine).flatten)

/-! ## Derived length and framing notions used in statements. -/

/-- Byte length of the emitted binary stream without any kernings block:
magic, then the info, common, pages and chars blocks with their 5-byte
headers. -/
def binCoreLen (f : Font) : Nat :=
  4 + (5 + (15 + f.info.face.length)) + (5 + 15) +
    (5 + (f.pages.map (fun p => p.length + 1)).sum) +
    (5 + 20 * f.chars.length)

/-- Framing bound: every emitted block payload length must fit the u32
length field (the source casts dyn_len with an `as u32` truncation, so
payloads of 2^32 bytes and beyond would corrupt the frame). -/
def binLenOk (f : Font) : Bool :=
  decide (15 + f.info.face.length < 4294967296) &&
    decide ((f.pages.map (fun p => p.length + 1)).sum < 4294967296) &&
    decide (20 * f.chars.length < 4294967296) &&
    decide (10 * f.kernings.length < 4294967296)

/-! ## Concrete inputs used by the claims. -/

/-- Small test font of src/tests/mod.rs (fn small()). -/
def smallFont : Font :=
  { info := { face := bsOf "Small Test", size := 32, bold := false,
              italic := false, charset := .null, unicode := true,
              stretchH := 100, smooth := true, aa := 4,
              padding := ⟨1, 2, 3, 4⟩, spacing := ⟨5, 6⟩, outline := 7 }
    common := { lineHeight := 32, base := 24, scaleW := 1024,
                scaleH := 2048, pages := 1, packed := false,
                alphaChnl := .glyph, redChnl := .glyphOutline,
                greenChnl := .one, blueChnl := .zero }
    pages := [bsOf "small_sheet_0.png"]
    chars := [{ id := 10, x := 281, y := 9, width := 4, height := 7,
                xoffset := 2, yoffset := 24, xadvance := 8, page := 0,
                chnl := 15 },
              { id := 32, x := 0, y := 0, width := 7, height := 20,
                xoffset := 4, yoffset := 17, xadvance := 9, page := 0,
                chnl := 4 }]
    kernings := [{ first := 10, second := 32, amount := -2 },
                 { first := 32, second := 10, amount := 1 }] }

/-- Valid font with charset Null but unicode false (obtainable from the
text loader via an empty charset value with unicode=0). -/
def nullCharsetFont : Font :=
  { fontDefault with info := { infoDefault with charset := .null } }

/-- Settings with ignore_counts enabled. -/
def ignoreCountsSettings : LoadSettings := { ignoreCounts := true }

/-- Info block matching both the c2 binary and text inputs: defaults
with unicode set and charset Null. -/
def c2Info : Info := { infoDefault with unicode := true, charset := .null }

/-- Common block declaring one page. -/
def c2Common : Common := { commonDefault with pages := 1 }

/-- Binary stream carrying c2Info, c2Common, an empty pages block and an
empty chars block: one declared page, zero realized pages. -/
def c2Bin : List Nat :=
  magicBytes 3 ++
    blockBytes infoBlockId
      (i16le 0 ++ 64 :: 0 :: u16le 0 ++ [0, 0, 0, 0, 0, 0, 0, 0] ++ [0]) ++
    blockBytes commonBlockId (commonPackV3 c2Common) ++
    blockBytes pagesBlockId [] ++
    blockBytes charsBlockId []

/-- Text stream carrying the same logical data as c2Bin: the same info
and common blocks, no page lines, chars count 0. -/
def c2Text : List Nat :=
  bsOf "info face=\"\" size=0 bold=0 italic=0 charset=\"\" unicode=1 stretchH=0 smooth=0 aa=0 padding=0,0,0,0 spacing=0,0 outline=0" ++
    [13, 10] ++
    bsOf "common lineHeight=0 base=0 scaleW=0 scaleH=0 pages=1 packed=0 alphaChnl=0 redChnl=0 greenChnl=0 blueChnl=0" ++
    [13, 10] ++ bsOf "chars count=0" ++ [13, 10]

/-- Builder state with a declared char count of 5, three realized chars
and an info face containing the control byte 0x01. -/
def c3State : FontBuilder :=
  { info := some { infoDefault with face := [1] },
    common := some commonDefault,
    chars := [charDefault, charDefault, charDefault],
    charCount := some 5 }

/-- Builder state with a declared char count of 5, one realized char and
clean strings. -/
def c3CleanState : FontBuilder :=
  { info := some infoDefault, common := some commonDefault,
    chars := [charDefault], charCount := some 5 }

/-- Concrete-scenario font of C4: one page a.png, no chars, no
kernings. -/
def c4Font : Font :=
  { fontDefault with
      common := { commonDefault with pages := 1 }
      pages := [bsOf "a.png"] }

/-- Emitted byte stream of the C4 concrete-scenario font. -/
def c4Bytes : List Nat := (binToVec c4Font).toOption.getD []

/-- Encoded default font (a valid magic plus well-formed info, common,
pages and chars blocks). -/
def c5Base : List Nat := (binToVec fontDefault).toOption.getD []

/-- Info block of the C1 witness font. -/
def c1Info : Info :=
  { face := bsOf "A", size := -2, bold := false, italic := false,
    charset := .null, unicode := true, stretchH := 100, smooth := false,
    aa := 1, padding := ⟨1, 2, 3, 4⟩, spacing := ⟨1, 2⟩, outline := 0 }

/-- Common block of the C1 witness font. -/
def c1Common : Common :=
  { lineHeight := 12, base := 9, scaleW := 256, scaleH := 128, pages := 1,
    packed := false, alphaChnl := .glyph, redChnl := .glyph,
    greenChnl := .glyph, blueChnl := .glyph }

/-- Char of the C1 witness font. -/
def c1Char : Char :=
  { id := 65, x := 1, y := 2, width := 3, height := 4, xoffset := -1,
    yoffset := 0, xadvance := 5, page := 0, chnl := 15 }

/-- Kerning pair of the C1 witness font. -/
def c1Kern : Kerning := { first := 65, second := 66, amount := -3 }

/-- Concrete one-page font with one char and one kerning pair exercising
every block of both codecs, used by the C1 witness. -/
def c1Font : Font :=
  { info := c1Info, common := c1Common, pages := [bsOf "a.png"],
    chars := [c1Char], kernings := [c1Kern] }

/-- Binary stream emitted for the C1 witness font. -/
def c1BinBytes : List Nat := (binToVec c1Font).toOption.getD []

/-- Text stream emitted for the C1 witness font. -/
def c1TextBytes : List Nat := (textToVec c1Font).toOption.getD []

/-- Font with two pages of differing name lengths whose info block also
violates the unicode/charset encoding rule. -/
def c10Font : Font :=
  { fontDefault with
      info := { infoDefault with unicode := true, charset := .tagged 1 }
      common := { commonDefault with pages := 2 }
      pages := [bsOf "a", bsOf "bb"] }

/-- Font with two pages of differing name lengths and a clean info
block. -/
def c10Clean : Font :=
  { fontDefault with
      common := { commonDefault with pages := 2 }
      pages := [bsOf "a", bsOf "bb"] }

/-! # Theorems

Helper lemmas first, then one theorem per claim (with its witness or
counterexample where required). -/

/-- Digit-string evaluation distributes over append. -/
theorem digitsVal_append (xs ys : List Nat) (acc : Nat) :
    digitsVal (xs ++ ys) acc = (digitsVal xs acc).bind fun a => digitsVal ys a := by
  induction xs generalizing acc with
  | nil => simp [digitsVal]
  | cons b r ih =>
    simp only [List.cons_append, digitsVal]
    by_cases h : isDigit b = true
    · simp [h, ih]
    · simp [h]

/-- The renderer accumulator splits off. -/
theorem renderNatGo_append (fuel : Nat) :
    ∀ n acc, renderNatGo fuel n acc = renderNatGo fuel n [] ++ acc := by
  induction fuel with
  | zero => intro n acc; simp [renderNatGo]
  | succ fuel ih =>
    intro n acc
    by_cases h : n / 10 = 0
    · simp [renderNatGo, h]
    · simp only [renderNatGo, if_neg h]
      rw [ih (n / 10) ((48 + n % 10) :: acc), ih (n / 10) [48 + n % 10]]
      simp

/-- Rendered numbers consist of digit bytes. -/
theorem renderNatGo_digits (fuel : Nat) :
    ∀ n acc, (∀ b ∈ acc, isDigit b = true) →
      ∀ b ∈ renderNatGo fuel n acc, isDigit b = true := by
  induction fuel with
  | zero => intro n acc hacc; simpa [renderNatGo] using hacc
  | succ fuel ih =>
    intro n acc hacc
    have hd : isDigit (48 + n % 10) = true := by
      simp only [isDigit, Bool.and_eq_true, decide_eq_true_eq]
      omega
    by_cases h : n / 10 = 0
    · simp only [renderNatGo, if_pos h]
      intro b hb
      rcases List.mem_cons.mp hb with rfl | hb
      · exact hd
      · exact hacc _ hb
    · simp only [renderNatGo, if_neg h]
      refine ih _ _ ?_
      intro b hb
      rcases List.mem_cons.mp hb with rfl | hb
      · exact hd
      · exact hacc _ hb

/-- Rendering never produces the empty byte string. -/
theorem renderNatGo_ne_nil (fuel : Nat) :
    ∀ n acc, acc ≠ [] ∨ 0 < fuel → renderNatGo fuel n acc ≠ [] := by
  induction fuel with
  | zero =>
    intro n acc h
    simp only [renderNatGo]
    rcases h with h | h
    · exact h
    · omega
  | succ fuel ih =>
    intro n acc _
    by_cases h : n / 10 = 0
    · simp [renderNatGo, h]
    · simp only [renderNatGo, if_neg h]
      exact ih _ _ (Or.inl (by simp))

/-- Parsing a rendered number recovers it (core digits form). -/
theorem digitsVal_renderNatGo (fuel : Nat) :
    ∀ n, 0 < fuel → n < 10 ^ fuel → digitsVal (renderNatGo fuel n []) 0 = some n := by
  induction fuel with
  | zero => intro n h0 _; omega
  | succ fuel ih =>
    intro n _ hn
    have hd : isDigit (48 + n % 10) = true := by
      simp only [isDigit, Bool.and_eq_true, decide_eq_true_eq]
      omega
    by_cases hq : n / 10 = 0
    · simp only [renderNatGo, if_pos hq, digitsVal, hd, if_true]
      simp only [Option.some.injEq]
      omega
    · have hf : 0 < fuel := by
        by_contra hc
        have hz : fuel = 0 := by omega
        subst hz
        norm_num at hn
        omega
      have hn2 : n / 10 < 10 ^ fuel := by
        refine Nat.div_lt_of_lt_mul ?_
        rw [pow_succ] at hn
        omega
      simp only [renderNatGo, if_neg hq]
      rw [renderNatGo_append, digitsVal_append, ih _ hf hn2]
      simp only [Option.some_bind, digitsVal, hd, if_true, Option.some.injEq]
      omega

/-- Rendered Nat digits property. -/
theorem renderNat_digits (n : Nat) : ∀ b ∈ renderNat n, isDigit b = true :=
  renderNatGo_digits (n + 1) n [] (by simp)

/-- Rendered Nats are nonempty. -/
theorem renderNat_ne_nil (n : Nat) : renderNat n ≠ [] :=
  renderNatGo_ne_nil (n + 1) n [] (Or.inr (Nat.succ_pos n))

/-- Every number is below 10 to its successor. -/
theorem lt_ten_pow_succ (n : Nat) : n < 10 ^ (n + 1) := by
  calc n < 2 ^ n := Nat.lt_two_pow n
    _ ≤ 10 ^ n := Nat.pow_le_pow_left (by norm_num) n
    _ ≤ 10 ^ (n + 1) := Nat.pow_le_pow_right (by norm_num) (Nat.le_succ n)

/-- Digit evaluation of a rendered Nat. -/
theorem digitsVal_renderNat (n : Nat) : digitsVal (renderNat n) 0 = some n :=
  digitsVal_renderNatGo (n + 1) n (Nat.succ_pos n) (lt_ten_pow_succ n)

/-- parseDigits of a rendered Nat. -/
theorem parseDigits_renderNat (n : Nat) : parseDigits (renderNat n) = some n := by
  have h := renderNat_ne_nil n
  simp [parseDigits, List.isEmpty_iff, h, digitsVal_renderNat]

/-- from_str_radix of a rendered Nat. -/
theorem parseNat_renderNat (n : Nat) : parseNatBytes (renderNat n) = some n := by
  have hne := renderNat_ne_nil n
  have hdig := renderNat_digits n
  obtain ⟨b, r, hbr⟩ : ∃ b r, renderNat n = b :: r := by
    cases h : renderNat n with
    | nil => exact absurd h hne
    | cons b r => exact ⟨b, r, rfl⟩
  have hb : isDigit b = true := hdig b (by rw [hbr]; simp)
  have hb43 : ¬(b = 43) := by
    simp only [isDigit, Bool.and_eq_true, decide_eq_true_eq] at hb
    omega
  rw [hbr]
  simp only [parseNatBytes, if_neg hb43]
  rw [← hbr]
  exact parseDigits_renderNat n

/-- Bounded unsigned parse of a rendered Nat. -/
theorem parseUInt_renderNat (max n : Nat) (h : n ≤ max) :
    parseUInt max (renderNat n) = some n := by
  simp [parseUInt, parseNat_renderNat, h]

/-- i16 parse of a rendered in-range Int. -/
theorem parseI16_renderInt (i : Int) (h1 : -32768 ≤ i) (h2 : i ≤ 32767) :
    parseI16Bytes (renderInt i) = some i := by
  by_cases hneg : i < 0
  · have hri : renderInt i = 45 :: renderNat i.natAbs := by
      simp [renderInt, hneg]
    rw [hri]
    simp only [parseI16Bytes, if_pos rfl]
    rw [parseDigits_renderNat]
    have hle : i.natAbs ≤ 32768 := by omega
    simp only [Option.some_bind, hle, if_true, Option.some.injEq]
    omega
  · push_neg at hneg
    have hri : renderInt i = renderNat i.toNat := by
      simp [renderInt, not_lt.mpr hneg]
    rw [hri]
    have hne := renderNat_ne_nil i.toNat
    have hdig := renderNat_digits i.toNat
    obtain ⟨b, r, hbr⟩ : ∃ b r, renderNat i.toNat = b :: r := by
      cases h : renderNat i.toNat with
      | nil => exact absurd h hne
      | cons b r => exact ⟨b, r, rfl⟩
    have hb : isDigit b = true := hdig b (by rw [hbr]; simp)
    have hb45 : ¬(b = 45) := by
      simp only [isDigit, Bool.and_eq_true, decide_eq_true_eq] at hb
      omega
    have hb43 : ¬(b = 43) := by
      simp only [isDigit, Bool.and_eq_true, decide_eq_true_eq] at hb
      omega
    rw [hbr]
    simp only [parseI16Bytes, if_neg hb45, if_neg hb43]
    rw [← hbr, parseDigits_renderNat]
    have hle : i.toNat ≤ 32767 := by omega
    simp only [Option.some_bind, hle, if_true, Option.some.injEq]
    omega

/-- Bool parse of a rendered bool. -/
theorem parseBool_renderBool (b : Bool) : parseBoolBytes (renderBool b) = some b := by
  cases b <;> decide

/-- C9: for every u in 0..=255, rendering Charset::Tagged(u) to its
canonical string and parsing that string back yields Charset::Tagged(u). -/
theorem c9_charset_round_trip :
    ∀ u : Nat, u < 256 → charsetFromBytes (charsetRender (Charset.tagged u)) = Charset.tagged u := by
  decide

/-- C9 witness at u = 129 (HANGUL). -/
theorem c9_witness :
    129 < 256 ∧ charsetFromBytes (charsetRender (Charset.tagged 129)) = Charset.tagged 129 :=
  ⟨by decide, c9_charset_round_trip 129 (by decide)⟩

/-- C8: add_page succeeds exactly when the supplied page id equals the
number of pages already accumulated; any other id fails with
BrokenPageList and leaves the accumulated page list unchanged. -/
theorem c8_add_page (b : FontBuilder) (p : Page) :
    ((b.addPageMut p).1 = Except.ok () ↔ p.id = b.pages.length) ∧
    (p.id = b.pages.length →
      (b.addPageMut p).2 = { b with pages := b.pages ++ [p.file] }) ∧
    (p.id ≠ b.pages.length →
      (b.addPageMut p).1 = Except.error Err.brokenPageList ∧
        (b.addPageMut p).2 = b) := by
  by_cases h : p.id = b.pages.length
  · simp [FontBuilder.addPageMut, h]
  · simp [FontBuilder.addPageMut, h]

/-- C8 witness: page id 2 on an empty builder is rejected with the list
unchanged; page id 0 is accepted. -/
theorem c8_witness :
    ((builderNew.addPageMut ⟨2, bsOf "a.png"⟩).1 =
        Except.error Err.brokenPageList ∧
      (builderNew.addPageMut ⟨2, bsOf "a.png"⟩).2 = builderNew) ∧
    (builderNew.addPageMut ⟨0, bsOf "a.png"⟩).2 =
      { builderNew with pages := [bsOf "a.png"] } := by
  refine ⟨(c8_add_page builderNew ⟨2, bsOf "a.png"⟩).2.2 (by decide), ?_⟩
  have h := (c8_add_page builderNew ⟨0, bsOf "a.png"⟩).2.1 (by decide)
  simpa using h

/-- C3 counterexample: a builder state with declared char count 5, three
realized chars and a control byte in the info face; with ignore_counts
set, build() does not succeed but fails UnsafeValueString. -/
theorem c3_counterexample :
    c3State.info.isSome = true ∧ c3State.common.isSome = true ∧
    c3State.charCount = some 5 ∧ c3State.chars.length = 3 ∧
    ignoreCountsSettings.ignoreCounts = true ∧
    c3State.build ignoreCountsSettings =
      Except.error (Err.unsafeValueString (bsOf "info face") [1]) := by
  decide

/-- C3 (amended): with info, common and a declared char count differing
from the realized length, build() fails InvalidCharCount when
ignore_counts is false; when ignore_counts is true and the strings pass
the control-character policy, build() succeeds with exactly the realized
chars. -/
theorem c3_char_count (settings : LoadSettings) (b : FontBuilder)
    (i : Info) (c : Common) (n : Nat)
    (hi : b.info = some i) (hc : b.common = some c) (hn : b.charCount = some n)
    (hm : b.chars.length ≠ n) :
    (settings.ignoreCounts = false →
      b.build settings = Except.error (Err.invalidCharCount n b.chars.length)) ∧
    (settings.ignoreCounts = true →
      (settings.allowStringControlCharacters = true ∨
        (checkStringOk i.face = true ∧ ∀ p ∈ b.pages, checkStringOk p = true)) →
      b.build settings = Except.ok (Font.mk i c b.pages b.chars b.kernings)) := by
  constructor
  · intro hic
    have hcnt : buildCountsErr b c = some (Err.invalidCharCount n b.chars.length) := by
      simp [buildCountsErr, hn, Ne.symm hm]
    simp [FontBuilder.build, hi, hc, hic, hcnt]
  · intro hic hs
    have hstr : (if settings.allowStringControlCharacters then none
        else buildStringsErr i b.pages) = none := by
      rcases hs with hallow | ⟨hface, hpages⟩
      · simp [hallow]
      · have hfind : b.pages.find? (fun p => !(checkStringOk p)) = none := by
          apply List.find?_eq_none.mpr
          intro p hp
          simp [hpages p hp]
        cases hA : settings.allowStringControlCharacters
        · simp [buildStringsErr, hfind, hface]
        · simp
    simp [FontBuilder.build, hi, hc, hic, hstr]

/-- C3 witness: declared count 5, one realized char; strict settings
fail InvalidCharCount, ignore_counts yields exactly the one char. -/
theorem c3_witness :
    FontBuilder.build loadSettingsDefault c3CleanState =
        Except.error (Err.invalidCharCount 5 1) ∧
    FontBuilder.build ignoreCountsSettings c3CleanState =
        Except.ok (Font.mk infoDefault commonDefault [] [charDefault] []) := by
  constructor
  · exact (c3_char_count loadSettingsDefault c3CleanState infoDefault
      commonDefault 5 rfl rfl rfl (by decide)).1 rfl
  · exact (c3_char_count ignoreCountsSettings c3CleanState infoDefault
      commonDefault 5 rfl rfl rfl (by decide)).2 rfl
      (Or.inr ⟨by decide, by decide⟩)

/-- cStringChk succeeds on NUL-free strings. -/
theorem cStringChk_ok {s : List Nat} (h : s.contains 0 = false) :
    cStringChk s = Except.ok s := by
  unfold cStringChk
  rw [h]
  rfl

/-- infoPackV2 succeeds on NUL-free faces, with its layout. -/
theorem infoPackV2_ok (i : Info) (h : i.face.contains 0 = false) :
    infoPackV2 i = Except.ok (i16le i.size ++ infoBits i :: charsetToU8 i.charset ::
      u16le i.stretchH ++ i.aa :: i.padding.up :: i.padding.right ::
      i.padding.down :: i.padding.left :: i.spacing.horizontal ::
      i.spacing.vertical :: i.outline :: (i.face ++ [0])) := by
  simp [infoPackV2, cStringChk_ok h]

/-- After the first page, a strict pages payload fails on the first
name whose length differs from the established length. -/
theorem pagesPayloadGo_err (ps : List (List Nat)) :
    ∀ id len0, id ≠ 0 → (∀ p ∈ ps, p.contains 0 = false) →
    (∃ p ∈ ps, p.length ≠ len0) →
    pagesPayloadGo true id len0 ps = Except.error (Err.incongruentPageNameLen none) := by
  induction ps with
  | nil =>
    intro id len0 _ _ hex
    simp at hex
  | cons f r ih =>
    intro id len0 hid hnul hex
    by_cases hf : f.length = len0
    · have hcond : ¬(true = true ∧ id ≠ 0 ∧ f.length ≠ len0) := by simp [hf]
      have hnulf : f.contains 0 = false := hnul f (by simp)
      have hrec : pagesPayloadGo true (id + 1)
          (if id = 0 then f.length else len0) r =
          Except.error (Err.incongruentPageNameLen none) := by
        rw [if_neg hid]
        apply ih (id + 1) len0 (by omega) (fun p hp => hnul p (by simp [hp]))
        rcases hex with ⟨p, hp, hpl⟩
        rcases List.mem_cons.mp hp with rfl | hp2
        · exact absurd hf hpl
        · exact ⟨p, hp2, hpl⟩
      simp [pagesPayloadGo, hcond, cStringChk_ok hnulf, hrec]
    · simp [pagesPayloadGo, hid, hf]

/-- A strict pages payload succeeds when every name length matches. -/
theorem pagesPayloadGo_ok (ps : List (List Nat)) :
    ∀ id len0, (∀ p ∈ ps, p.contains 0 = false) →
    (∀ p ∈ ps, p.length = len0) →
    ∃ out, pagesPayloadGo true id len0 ps = Except.ok out := by
  induction ps with
  | nil => intro id len0 _ _; exact ⟨[], rfl⟩
  | cons f r ih =>
    intro id len0 hnul hlen
    have hf : f.length = len0 := hlen f (by simp)
    have hcond : ¬(True ∧ id ≠ 0 ∧ f.length ≠ len0) := by simp [hf]
    have hnulf : f.contains 0 = false := hnul f (by simp)
    have hif : (if id = 0 then f.length else len0) = len0 := by
      by_cases hid : id = 0 <;> simp [hid, hf]
    obtain ⟨out, hout⟩ := ih (id + 1) len0
      (fun p hp => hnul p (by simp [hp]))
      (fun p hp => hlen p (by simp [hp]))
    refine ⟨f ++ 0 :: out, ?_⟩
    simp only [pagesPayloadGo]
    rw [if_neg hcond, cStringChk_ok hnulf, hif, hout]

/-- C10 (amended): when the info block passes the export encoding check
and no string embeds NUL, a font whose page-name byte lengths differ
fails binary export with IncongruentPageNameLen, and equal lengths never
produce that error. -/
theorem c10_incongruent_page_names (f : Font)
    (henc : ¬(f.info.unicode = true ∧ f.info.charset ≠ Charset.null))
    (hface : f.info.face.contains 0 = false)
    (hnul : ∀ p ∈ f.pages, p.contains 0 = false) :
    ((∃ p ∈ f.pages, p.length ≠ f.pages.headI.length) →
      binToVec f = Except.error (Err.incongruentPageNameLen none)) ∧
    ((∀ p ∈ f.pages, p.length = f.pages.headI.length) →
      binToVec f ≠ Except.error (Err.incongruentPageNameLen none)) := by
  constructor
  · intro hex
    have hpp : pagesPayload f.pages = Except.error (Err.incongruentPageNameLen none) := by
      cases hpg : f.pages with
      | nil => rw [hpg] at hex; simp at hex
      | cons p0 rest =>
        rw [hpg] at hex hnul
        have hrec : pagesPayloadGo true 1 p0.length rest =
            Except.error (Err.incongruentPageNameLen none) := by
          apply pagesPayloadGo_err rest 1 p0.length (by omega)
            (fun p hp => hnul p (by simp [hp]))
          rcases hex with ⟨p, hp, hpl⟩
          rcases List.mem_cons.mp hp with rfl | hp2
          · exact absurd rfl hpl
          · exact ⟨p, hp2, hpl⟩
        have hcond : ¬(true = true ∧ (0 : Nat) ≠ 0 ∧ p0.length ≠ 0) := by simp
        simp [pagesPayload, pagesPayloadGo, hcond,
          cStringChk_ok (hnul p0 (by simp)), hrec]
    simp [binToVec, henc, infoPackV2_ok f.info hface, hpp]
  · intro hall
    obtain ⟨out, hout⟩ : ∃ out, pagesPayload f.pages = Except.ok out := by
      cases hpg : f.pages with
      | nil => exact ⟨[], rfl⟩
      | cons p0 rest =>
        rw [hpg] at hall hnul
        obtain ⟨out, hout⟩ := pagesPayloadGo_ok rest 1 p0.length
          (fun p hp => hnul p (by simp [hp]))
          (fun p hp => hall p (by simp [hp]))
        have hcond : ¬(true = true ∧ (0 : Nat) ≠ 0 ∧ p0.length ≠ 0) := by simp
        exact ⟨p0 ++ 0 :: out, by
          simp [pagesPayload, pagesPayloadGo, hcond,
            cStringChk_ok (hnul p0 (by simp)), hout]⟩
    simp [binToVec, henc, infoPackV2_ok f.info hface, hout]

/-- C10 counterexample: a font with two pages of differing name lengths
whose info also violates the unicode/charset rule fails to_vec with
InvalidCharsetEncoding, not IncongruentPageNameLen. -/
theorem c10_counterexample :
    c10Font.pages.map List.length = [1, 2] ∧
    binToVec c10Font =
      Except.error (Err.invalidCharsetEncoding true (Charset.tagged 1)) ∧
    Err.invalidCharsetEncoding true (Charset.tagged 1) ≠
      Err.incongruentPageNameLen none := by
  decide

/-- C10 witness: a clean font with pages a and bb fails with
IncongruentPageNameLen. -/
theorem c10_witness :
    binToVec c10Clean = Except.error (Err.incongruentPageNameLen none) :=
  (c10_incongruent_page_names c10Clean (by decide) (by decide)
    (by decide)).1 ⟨bsOf "bb", by decide, by decide⟩

/-- C7 (amended): a CR not followed by LF is a hard error the moment it
is reached: BadCRLF in tag scanning, at a key_value line end and inside
an unquoted value; inside a quoted value any CR (even with an LF after
it) is an UnexpectedEndOfLine error. A lone CR is thus never accepted as
a line terminator or as value content. -/
theorem c7_cr_requires_lf (r : List Nat) (line : Nat) (v : List Nat)
    (hr : r.head? ≠ some 10)
    (hv : ∀ b ∈ v, b ≠ 13 ∧ b ≠ 10 ∧ b ≠ 32 ∧ b ≠ 9 ∧ b ≠ 34) :
    nextTag (13 :: r) line = Except.error (TErr.badCRLF, line) ∧
    keyValue (13 :: r) = Except.error TErr.badCRLF ∧
    valueTailWn (v ++ 13 :: r) = Except.error TErr.badCRLF ∧
    (∀ r2, valueTailQt (v ++ 13 :: r2) = Except.error TErr.unexpectedEndOfLine) := by
  refine ⟨?_, ?_, ?_, ?_⟩
  · cases r with
    | nil => rfl
    | cons a r2 =>
      have ha : a ≠ 10 := fun h => hr (by simp [h])
      rw [nextTag]
      · rw [if_neg (by decide), if_pos rfl]
      · intro r3 heq
        injection heq with h1 _
        exact ha h1
  · rw [keyValue, if_neg (by decide), if_pos rfl, if_neg hr]
  · induction v with
    | nil =>
      rw [List.nil_append, valueTailWn, if_pos rfl, if_neg hr]
    | cons b v2 ih =>
      obtain ⟨hb13, hb10, hb32, hb9, _⟩ := hv b (by simp)
      have ih2 := ih (fun x hx => hv x (by simp [hx]))
      rw [List.cons_append, valueTailWn, if_neg hb13, if_neg hb10,
        if_neg (by simp [hb32, hb9]), ih2]
  · intro r2
    induction v with
    | nil => rfl
    | cons b v2 ih =>
      obtain ⟨hb13, hb10, _, _, hb34⟩ := hv b (by simp)
      have ih2 := ih (fun x hx => hv x (by simp [hx]))
      rw [List.cons_append, valueTailQt, if_neg (by simp [hb13, hb10]),
        if_neg hb34, ih2]

/-- C7 counterexample: in a quoted value a CR not followed by LF makes
tokenization fail, but with UnexpectedEndOfLine rather than BadCRLF. -/
theorem c7_counterexample :
    keyValue (bsOf "k=\"" ++ 13 :: bsOf "x\"") =
      Except.error TErr.unexpectedEndOfLine ∧
    TErr.unexpectedEndOfLine ≠ TErr.badCRLF := by
  decide

/-- C7 witness: CR followed by the byte A in all three BadCRLF
positions, and inside a quoted value. -/
theorem c7_witness :
    nextTag (13 :: [65]) 1 = Except.error (TErr.badCRLF, 1) ∧
    keyValue (13 :: [65]) = Except.error TErr.badCRLF ∧
    valueTailWn ([66] ++ 13 :: [65]) = Except.error TErr.badCRLF ∧
    valueTailQt ([66] ++ 13 :: [65]) = Except.error TErr.unexpectedEndOfLine := by
  have h := c7_cr_requires_lf [65] 1 [66] (by decide) (by decide)
  exact ⟨h.1, h.2.1, h.2.2.1, h.2.2.2 [65]⟩

/-- C2: with ignore_counts set, the same logical font data (info with
unicode and Null charset, common declaring one page, no pages, no chars)
loads through the text path but fails through the binary path with
PageCountMismatch: the binary loader applies its own unconditional
checks and ignores LoadSettings. -/
theorem c2_binary_loader_ignores_settings :
    textFromBytesExt ignoreCountsSettings c2Text =
      Except.ok (Font.mk c2Info c2Common [] [] []) ∧
    binFromBytesExt ignoreCountsSettings c2Bin =
      Except.error (Err.pageCountMismatch 0 1) := by
  decide

/-- C5 counterexample: appending one trailing byte to a well-formed
stream (valid magic and blocks) makes from_bytes fail with buffer
underflow, so leftover top-level bytes are an error. -/
theorem c5_counterexample :
    binFromBytes c5Base = Except.ok fontDefault ∧
    binFromBytes (c5Base ++ [0]) = Except.error errUnderflow := by
  decide

/-- C1 counterexample: the valid font with charset Null and unicode
false binary-encodes successfully but decodes to a font with charset
Tagged 0, so decode of encode is not the identity. -/
theorem c1_counterexample :
    fontValid nullCharsetFont = true ∧
    (binToVec nullCharsetFont).bind binFromBytes =
      Except.ok { nullCharsetFont with
        info := { nullCharsetFont.info with charset := Charset.tagged 0 } } ∧
    ¬((binToVec nullCharsetFont).bind binFromBytes =
      Except.ok nullCharsetFont) := by
  decide

/-! ## Binary decode-of-encode lemmas. -/

/-- Packing byte conversions invert. -/
theorem tryFromU8_toU8 (p : Packing) : Packing.tryFromU8 p.toU8 = some p := by
  cases p <;> rfl

/-- Reading back a little-endian u16. -/
theorem rdU16_u16le (n : Nat) (h : n < 65536) :
    rdU16 (n % 256) (n / 256 % 256) = n := by
  simp only [rdU16]
  omega

/-- Reading back a two's complement i16. -/
theorem toI16_i16le (x : Int) (h1 : -32768 ≤ x) (h2 : x ≤ 32767) :
    toI16 (rdU16 ((x % 65536).toNat % 256) ((x % 65536).toNat / 256 % 256)) = x := by
  have hm : (x % 65536).toNat < 65536 := by omega
  rw [rdU16_u16le _ hm]
  simp only [toI16]
  omega

/-- Reading back a little-endian u32. -/
theorem rdU32_u32le (n : Nat) (h : n < 4294967296) :
    rdU32 (n % 256) (n / 256 % 256) (n / 65536 % 256) (n / 16777216 % 256) = n := by
  simp only [rdU32]
  omega

/-- The common block decodes to its source. -/
theorem commonUnpack_pack (c : Common) (hv : commonValid c = true) :
    commonUnpackV3Tight (commonPackV3 c) = Except.ok c := by
  obtain ⟨lh, ba, sw, sh, pg, pk, pa, pr, pgr, pb⟩ := c
  simp only [commonValid, Bool.and_eq_true, decide_eq_true_eq] at hv
  obtain ⟨⟨⟨⟨h1, h2⟩, h3⟩, h4⟩, h5⟩ := hv
  have e1 : rdU16 (lh % 256) (lh / 256 % 256) = lh := rdU16_u16le _ h1
  have e2 : rdU16 (ba % 256) (ba / 256 % 256) = ba := rdU16_u16le _ h2
  have e3 : rdU16 (sw % 256) (sw / 256 % 256) = sw := rdU16_u16le _ h3
  have e4 : rdU16 (sh % 256) (sh / 256 % 256) = sh := rdU16_u16le _ h4
  have e5 : rdU16 (pg % 256) (pg / 256 % 256) = pg := rdU16_u16le _ h5
  simp only [commonPackV3, u16le, List.cons_append, List.nil_append,
    commonUnpackV3Tight, tryFromU8_toU8, if_pos rfl]
  rw [e1, e2, e3, e4, e5]
  cases pk <;> rfl

/-- Bit-field recovery of the four info booleans. -/
theorem infoBits_fields (sm un it bo : Bool) :
    ((if sm then 128 else 0) + (if un then 64 else 0) + (if it then 32 else 0) +
        (if bo then 16 else 0)) / 16 % 2 = (if bo then 1 else 0) ∧
    ((if sm then 128 else 0) + (if un then 64 else 0) + (if it then 32 else 0) +
        (if bo then 16 else 0)) / 32 % 2 = (if it then 1 else 0) ∧
    ((if sm then 128 else 0) + (if un then 64 else 0) + (if it then 32 else 0) +
        (if bo then 16 else 0)) / 64 % 2 = (if un then 1 else 0) ∧
    ((if sm then 128 else 0) + (if un then 64 else 0) + (if it then 32 else 0) +
        (if bo then 16 else 0)) / 128 % 2 = (if sm then 1 else 0) := by
  cases sm <;> cases un <;> cases it <;> cases bo <;> decide

/-- Charset byte coercion inverts under the amended side conditions. -/
theorem charsetOfU8_toU8 (cs : Charset) (un : Bool)
    (h1 : ¬(un = true ∧ cs ≠ Charset.null))
    (h2 : ∀ s, cs ≠ Charset.undefined s)
    (h3 : cs = Charset.null → un = true) :
    charsetOfU8 (charsetToU8 cs) un = cs := by
  cases cs with
  | null =>
    have hu := h3 rfl
    simp [charsetToU8, charsetOfU8, hu]
  | tagged u =>
    have hun : un = false := by
      cases hu : un
      · rfl
      · exact absurd ⟨hu, by simp⟩ h1
    simp [charsetToU8, charsetOfU8, hun]
  | undefined s => exact absurd rfl (h2 s)

/-- The face scanner returns the face before the final NUL. -/
theorem infoFaceScan_append (p : List Nat) :
    ∀ cur, (∀ b ∈ p, b ≠ 0) →
    infoFaceScan (p ++ [0]) cur =
      (if utf8Valid (cur.reverse ++ p) then Except.ok (cur.reverse ++ p)
       else Except.error errBadString) := by
  induction p with
  | nil =>
    intro cur _
    simp [infoFaceScan]
  | cons b p2 ih =>
    intro cur hb
    have hb0 : b ≠ 0 := (hb b (by simp))
    have step : infoFaceScan (b :: (p2 ++ [0])) cur =
        infoFaceScan (p2 ++ [0]) (b :: cur) := by
      rw [infoFaceScan]
      all_goals first
        | rfl
        | exact fun h => hb0 h
    rw [List.cons_append, step, ih (b :: cur) (fun x hx => hb x (by simp [hx]))]
    simp

/-- Contains-false gives pointwise NUL-freedom. -/
theorem ne_zero_of_contains_false {s : List Nat} (h : s.contains 0 = false) :
    ∀ b ∈ s, b ≠ 0 := by
  intro b hb hb0
  subst hb0
  have h2 : s.contains 0 = true :=
    List.contains_iff_exists_mem_beq.mpr ⟨0, hb, by simp⟩
  rw [h] at h2
  exact Bool.false_ne_true h2

/-- Decide of a 0/1 bit equality. -/
theorem decide_bit_eq (b : Bool) : decide ((if b then 1 else 0) = 1) = b := by
  cases b <;> rfl

/-- The info block decodes to its source up to the lossy charset byte
coercion; all other fields round-trip exactly. -/
theorem infoUnpack_pack (i : Info) (hv : infoValid i = true)
    (hnul : i.face.contains 0 = false) :
    infoUnpackV2Tight (i16le i.size ++ infoBits i :: charsetToU8 i.charset ::
      u16le i.stretchH ++ i.aa :: i.padding.up :: i.padding.right ::
      i.padding.down :: i.padding.left :: i.spacing.horizontal ::
      i.spacing.vertical :: i.outline :: (i.face ++ [0])) =
    Except.ok { i with
      charset := charsetOfU8 (charsetToU8 i.charset) i.unicode } := by
  obtain ⟨face, size, bold, italic, charset, unicode, stretchH, smooth, aa,
    padding, spacing, outline⟩ := i
  obtain ⟨pu, pr, pd, pl⟩ := padding
  obtain ⟨sph, spv⟩ := spacing
  simp only [infoValid, Bool.and_eq_true, decide_eq_true_eq] at hv
  obtain ⟨⟨⟨⟨⟨⟨⟨⟨⟨⟨⟨hface, hsize⟩, hcs⟩, hstretch⟩, haa⟩, hpu⟩, hpr⟩, hpd⟩,
    hpl⟩, hsh⟩, hsv⟩, hol⟩ := hv
  simp only [i16Ok, Bool.and_eq_true, decide_eq_true_eq] at hsize
  have hnul2 : ∀ b ∈ face, b ≠ 0 := ne_zero_of_contains_false hnul
  have hfs : infoFaceScan (face ++ [0]) [] = Except.ok face := by
    rw [infoFaceScan_append face [] hnul2]
    simp [hface]
  obtain ⟨e16, e32, e64, e128⟩ := infoBits_fields smooth unicode italic bold
  simp only [infoBits, i16le, u16le, List.cons_append, List.nil_append,
    infoUnpackV2Tight, hfs]
  rw [e16, e32, e64, e128]
  rw [decide_bit_eq bold, decide_bit_eq italic, decide_bit_eq unicode,
    decide_bit_eq smooth]
  rw [toI16_i16le size hsize.1 hsize.2, rdU16_u16le stretchH hstretch]

/-- A chars payload decodes to its source list of chars. -/
theorem charsUnpack_pack (cs : List Char) (hv : ∀ c ∈ cs, charValid c = true) :
    charsUnpack ((cs.map charPackV1).flatten) = Except.ok cs := by
  induction cs with
  | nil => rfl
  | cons c r ih =>
    have hc := hv c (by simp)
    obtain ⟨id, x, y, width, height, xo, yo, xa, pg, ch⟩ := c
    simp only [charValid, Bool.and_eq_true, decide_eq_true_eq] at hc
    obtain ⟨⟨⟨⟨⟨⟨⟨⟨⟨hid, hx⟩, hy⟩, hw⟩, hh⟩, hxo⟩, hyo⟩, hxa⟩, hpg⟩, hch⟩ := hc
    simp only [i16Ok, Bool.and_eq_true, decide_eq_true_eq] at hxo hyo hxa
    have ih2 := ih (fun d hd => hv d (by simp [hd]))
    simp only [List.map_cons, List.flatten_cons, charPackV1, u32le, u16le,
      i16le, List.cons_append, List.nil_append, List.append_assoc]
    simp only [charsUnpack, if_pos hch, ih2]
    have hid2 : rdU32 (id % 256) (id / 256 % 256) (id / 65536 % 256)
        (id / 16777216 % 256) = id := rdU32_u32le id hid
    rw [hid2, rdU16_u16le x hx, rdU16_u16le y hy, rdU16_u16le width hw,
      rdU16_u16le height hh, toI16_i16le xo hxo.1 hxo.2,
      toI16_i16le yo hyo.1 hyo.2, toI16_i16le xa hxa.1 hxa.2]

/-- A kernings payload decodes to its source list of kerning pairs. -/
theorem kerningsUnpack_pack (ks : List Kerning)
    (hv : ∀ k ∈ ks, kerningValid k = true) :
    kerningsUnpack ((ks.map kerningPackV1).flatten) = Except.ok ks := by
  induction ks with
  | nil => rfl
  | cons k r ih =>
    have hk := hv k (by simp)
    obtain ⟨first, second, amount⟩ := k
    simp only [kerningValid, Bool.and_eq_true, decide_eq_true_eq] at hk
    obtain ⟨⟨hf, hs⟩, ha⟩ := hk
    simp only [i16Ok, Bool.and_eq_true, decide_eq_true_eq] at ha
    have ih2 := ih (fun d hd => hv d (by simp [hd]))
    simp only [List.map_cons, List.flatten_cons, kerningPackV1, u32le, u16le,
      i16le, List.cons_append, List.nil_append, List.append_assoc]
    simp only [kerningsUnpack, ih2]
    rw [rdU32_u32le first hf, rdU32_u32le second hs,
      toI16_i16le amount ha.1 ha.2]

/-- Scanning one NUL-terminated string inside the pages payload. -/
theorem pagesUnpackGo_scan (p : List Nat) :
    ∀ cur rest acc, (∀ b ∈ p, b ≠ 0) →
    pagesUnpackGo (p ++ 0 :: rest) (some cur) acc =
      (if utf8Valid (cur.reverse ++ p) then
        pagesUnpackGo rest none ((cur.reverse ++ p) :: acc)
       else Except.error errBadString) := by
  induction p with
  | nil =>
    intro cur rest acc _
    simp [pagesUnpackGo]
  | cons b p2 ih =>
    intro cur rest acc hb
    have hb0 : b ≠ 0 := hb b (by simp)
    have step : pagesUnpackGo (b :: (p2 ++ 0 :: rest)) (some cur) acc =
        pagesUnpackGo (p2 ++ 0 :: rest) (some (b :: cur)) acc := by
      rw [pagesUnpackGo, if_neg hb0]
    rw [List.cons_append, step, ih (b :: cur) rest acc
      (fun x hx => hb x (by simp [hx]))]
    simp

/-- A pages payload decodes to its source page list. -/
theorem pagesUnpackGo_pack (ps : List (List Nat)) :
    ∀ acc, (∀ p ∈ ps, p.contains 0 = false) → (∀ p ∈ ps, utf8Valid p = true) →
    pagesUnpackGo ((ps.map (fun p => p ++ [0])).flatten) none acc =
      Except.ok (acc.reverse ++ ps) := by
  induction ps with
  | nil =>
    intro acc _ _
    simp [pagesUnpackGo]
  | cons p r ih =>
    intro acc hnul hval
    have hstep : pagesUnpackGo ((p ++ [0]) ++ (r.map (fun p => p ++ [0])).flatten)
        none acc = pagesUnpackGo ((r.map (fun p => p ++ [0])).flatten) none
          (p :: acc) := by
      cases p with
      | nil => simp [pagesUnpackGo]
      | cons b p2 =>
        have hb0 : b ≠ 0 :=
          ne_zero_of_contains_false (hnul (b :: p2) (by simp)) b (by simp)
        have hval2 : utf8Valid (b :: p2) = true := hval (b :: p2) (by simp)
        have hns : ∀ x ∈ p2, x ≠ 0 := fun x hx =>
          ne_zero_of_contains_false (hnul (b :: p2) (by simp)) x (by simp [hx])
        have hsplit : (b :: p2 ++ [0]) ++ (r.map (fun p => p ++ [0])).flatten =
            b :: (p2 ++ 0 :: (r.map (fun p => p ++ [0])).flatten) := by simp
        rw [hsplit, pagesUnpackGo, if_neg hb0,
          pagesUnpackGo_scan p2 [b] _ acc hns]
        simp [hval2]
    simp only [List.map_cons, List.flatten_cons, List.append_assoc] at hstep ⊢
    rw [hstep, ih (p :: acc) (fun x hx => hnul x (by simp [hx]))
      (fun x hx => hval x (by simp [hx]))]
    simp

/-- Pages payload decode entry: flattened NUL-terminated names decode to
the name list. -/
theorem pagesUnpack_pack (ps : List (List Nat))
    (hnul : ∀ p ∈ ps, p.contains 0 = false)
    (hval : ∀ p ∈ ps, utf8Valid p = true) :
    pagesUnpack ((ps.map (fun p => p ++ [0])).flatten) = Except.ok ps := by
  have h := pagesUnpackGo_pack ps [] hnul hval
  simpa [pagesUnpack] using h

/-- A successful strict pages payload is the flattened NUL-terminated
name list, and every name was NUL-free. -/
theorem pagesPayloadGo_shape (ps : List (List Nat)) :
    ∀ id len0 out, pagesPayloadGo true id len0 ps = Except.ok out →
    out = (ps.map (fun p => p ++ [0])).flatten ∧
      ∀ p ∈ ps, p.contains 0 = false := by
  induction ps with
  | nil =>
    intro id len0 out h
    simp only [pagesPayloadGo] at h
    injection h with h2
    subst h2
    simp
  | cons f r ih =>
    intro id len0 out h
    rw [pagesPayloadGo] at h
    split at h
    · exact absurd h (by simp)
    · revert h
      cases hns : cStringChk f with
      | error e => intro h; exact absurd h (by simp)
      | ok cs =>
        cases hrec : pagesPayloadGo true (id + 1)
            (if id = 0 then f.length else len0) r with
        | error e => intro h; exact absurd h (by simp)
        | ok rest =>
          intro h
          simp only [Except.ok.injEq] at h
          obtain ⟨hrest, hrnul⟩ := ih (id + 1) _ rest hrec
          have hcs : cs = f ∧ f.contains 0 = false := by
            revert hns
            unfold cStringChk
            cases hc : f.contains 0
            · intro hns
              injection hns with hx
              exact ⟨hx.symm, rfl⟩
            · intro hns
              exact absurd hns (by simp)
          obtain ⟨hcsf, hfnul⟩ := hcs
          subst hcsf
          subst hrest
          subst h
          constructor
          · simp
          · intro p hp
            rcases List.mem_cons.mp hp with rfl | hp2
            · exact hfnul
            · exact hrnul p hp2

/-- The block loop accepts an empty stream at any fuel. -/
theorem binLoadGo_nil (fuel : Nat) (st : BinBuilder) :
    binLoadGo fuel [] st = Except.ok st := by
  cases fuel <;> rfl

/-- The block loop's result does not depend on the fuel, as long as the
fuel covers the input length. -/
theorem binLoadGo_fuelIrrel : ∀ f1 f2 bs st, bs.length ≤ f1 →
    bs.length ≤ f2 → binLoadGo f1 bs st = binLoadGo f2 bs st := by
  intro f1
  induction f1 with
  | zero =>
    intro f2 bs st h1 h2
    have hb : bs = [] := List.eq_nil_of_length_eq_zero (Nat.le_zero.mp h1)
    rw [hb, binLoadGo_nil, binLoadGo_nil]
  | succ g ih =>
    intro f2 bs st h1 h2
    cases bs with
    | nil => rw [binLoadGo_nil, binLoadGo_nil]
    | cons b0 r0 =>
      obtain ⟨g2, rfl⟩ : ∃ g2, f2 = g2 + 1 := by
        cases f2
        · simp at h2
        · exact ⟨_, rfl⟩
      rcases r0 with _ | ⟨l0, _ | ⟨l1, _ | ⟨l2, _ | ⟨l3, r⟩⟩⟩⟩
      · rfl
      · rfl
      · rfl
      · rfl
      · rw [binLoadGo, binLoadGo]
        by_cases hle : rdU32 l0 l1 l2 l3 ≤ r.length
        · rw [if_pos hle, if_pos hle]
          cases hd : blockDispatch b0 (r.take (rdU32 l0 l1 l2 l3)) st with
          | error e => rfl
          | ok st2 =>
            apply ih
            · have := List.length_drop (rdU32 l0 l1 l2 l3) r
              simp only [List.length_cons] at h1
              omega
            · have := List.length_drop (rdU32 l0 l1 l2 l3) r
              simp only [List.length_cons] at h2
              omega
        · rw [if_neg hle, if_neg hle]

/-- Loading a well-formed block followed by anything dispatches the block
then continues on the remainder. -/
theorem binLoad_append_block (id : Nat) (payload rest : List Nat)
    (st : BinBuilder) (hlen : payload.length < 4294967296) :
    binLoad (blockBytes id payload ++ rest) st =
      match blockDispatch id payload st with
      | .error e => .error e
      | .ok st2 => binLoad rest st2 := by
  have hshape : blockBytes id payload ++ rest =
      id :: (payload.length % 256) :: (payload.length / 256 % 256) ::
      (payload.length / 65536 % 256) :: (payload.length / 16777216 % 256) ::
      (payload ++ rest) := by
    simp [blockBytes, u32le]
  have hfuel : binLoad (blockBytes id payload ++ rest) st =
      binLoadGo ((payload ++ rest).length + 4 + 1)
        (blockBytes id payload ++ rest) st := by
    apply binLoadGo_fuelIrrel
    · exact le_refl _
    · rw [hshape]
      simp
  rw [hfuel, hshape, binLoadGo]
  rw [rdU32_u32le payload.length hlen]
  rw [if_pos (by simp)]
  rw [List.take_left, List.drop_left]
  cases hd : blockDispatch id payload st with
  | error e => simp only []
  | ok st2 =>
    simp only []
    apply binLoadGo_fuelIrrel
    · simp only [List.length_append]
      omega
    · exact le_refl _

/-- A short non-empty remainder (fewer than 5 bytes: no room for a block
header) makes the block loop fail with underflow. -/
theorem binLoad_short (t : List Nat) (st : BinBuilder) (h0 : 0 < t.length)
    (h5 : t.length < 5) : binLoad t st = Except.error errUnderflow := by
  rcases t with _ | ⟨a, _ | ⟨b, _ | ⟨c, _ | ⟨d, _ | ⟨e, r⟩⟩⟩⟩⟩
  · simp at h0
  · rfl
  · rfl
  · rfl
  · rfl
  · simp at h5
    omega

/-- A valid version-3 magic prefix is consumed, handing the remainder to
the block loop on a fresh builder. -/
theorem binFromBytes_magic (rest : List Nat) :
    binFromBytes (magicBytes 3 ++ rest) =
      match binLoad rest binBuilderNew with
      | .error e => .error e
      | .ok st => binBuild st := by
  show binFromBytes (66 :: 77 :: 70 :: 3 :: rest) = _
  rw [binFromBytes, if_neg (by decide), if_neg (by decide)]

/-- Inversion of the strict binary export: a successful to_vec passed the
unicode/charset check, packed the info and pages payloads successfully,
and emitted exactly the magic plus the four or five blocks. -/
theorem binToVec_shape (f : Font) (bs : List Nat)
    (h : binToVec f = Except.ok bs) :
    ∃ infoP pagesP,
      infoPackV2 f.info = Except.ok infoP ∧
      pagesPayload f.pages = Except.ok pagesP ∧
      ¬(f.info.unicode = true ∧ f.info.charset ≠ Charset.null) ∧
      bs = magicBytes 3 ++ blockBytes infoBlockId infoP ++
        blockBytes commonBlockId (commonPackV3 f.common) ++
        blockBytes pagesBlockId pagesP ++
        blockBytes charsBlockId ((f.chars.map charPackV1).flatten) ++
        (if f.kernings = [] then []
         else blockBytes kerningPairsBlockId
           ((f.kernings.map kerningPackV1).flatten)) := by
  revert h
  unfold binToVec
  split
  · intro h
    exact absurd h (by simp)
  · cases hip : infoPackV2 f.info with
    | error e => intro h; exact absurd h (by simp)
    | ok infoP =>
      cases hpp : pagesPayload f.pages with
      | error e => intro h; exact absurd h (by simp)
      | ok pagesP =>
        intro h
        injection h with h2
        exact ⟨infoP, pagesP, rfl, rfl, by assumption, h2.symm⟩

/-- Inversion of the info packing: success means the face was NUL-free
and the payload has the fixed-then-face layout. -/
theorem infoPackV2_inv (i : Info) (p : List Nat)
    (h : infoPackV2 i = Except.ok p) :
    i.face.contains 0 = false ∧
    p = i16le i.size ++ infoBits i :: charsetToU8 i.charset ::
      u16le i.stretchH ++ i.aa :: i.padding.up :: i.padding.right ::
      i.padding.down :: i.padding.left :: i.spacing.horizontal ::
      i.spacing.vertical :: i.outline :: (i.face ++ [0]) := by
  revert h
  unfold infoPackV2 cStringChk
  cases hc : i.face.contains 0
  · intro h
    injection h with h2
    exact ⟨rfl, h2.symm⟩
  · intro h
    exact absurd h (by simp)

/-- Info-block dispatch on a builder with no info yet. -/
theorem blockDispatch_info (st : BinBuilder) (hnone : st.info = none)
    (p : List Nat) (i2 : Info) (hok : infoUnpackV2Tight p = Except.ok i2) :
    blockDispatch infoBlockId p st = Except.ok { st with info := some i2 } := by
  rw [blockDispatch, if_pos rfl]
  rw [hnone]
  simp only [Option.isSome_none, Bool.false_eq_true, if_false, hok]

/-- Common-block dispatch on a builder with no common yet. -/
theorem blockDispatch_common (st : BinBuilder) (hnone : st.common = none)
    (p : List Nat) (c2 : Common) (hok : commonUnpackV3Tight p = Except.ok c2) :
    blockDispatch commonBlockId p st =
      Except.ok { st with common := some c2 } := by
  rw [blockDispatch, if_neg (by decide), if_pos rfl]
  rw [hnone]
  simp only [Option.isSome_none, Bool.false_eq_true, if_false, hok]

/-- Pages-block dispatch appends the decoded page names. -/
theorem blockDispatch_pages (st : BinBuilder) (p : List Nat)
    (ps : List (List Nat)) (hok : pagesUnpack p = Except.ok ps) :
    blockDispatch pagesBlockId p st =
      Except.ok { st with pages := st.pages ++ ps } := by
  rw [blockDispatch, if_neg (by decide), if_neg (by decide), if_pos rfl, hok]

/-- Chars-block dispatch appends the decoded chars. -/
theorem blockDispatch_chars (st : BinBuilder) (p : List Nat)
    (cs : List Char) (hok : charsUnpack p = Except.ok cs) :
    blockDispatch charsBlockId p st =
      Except.ok { st with chars := st.chars ++ cs } := by
  rw [blockDispatch, if_neg (by decide), if_neg (by decide),
    if_neg (by decide), if_pos rfl, hok]

/-- Kernings-block dispatch appends the decoded kerning pairs. -/
theorem blockDispatch_kernings (st : BinBuilder) (p : List Nat)
    (ks : List Kerning) (hok : kerningsUnpack p = Except.ok ks) :
    blockDispatch kerningPairsBlockId p st =
      Except.ok { st with kernings := st.kernings ++ ks } := by
  rw [blockDispatch, if_neg (by decide), if_neg (by decide),
    if_neg (by decide), if_neg (by decide), if_pos rfl, hok]

/-- A successful info payload is 15 bytes plus the face. -/
theorem infoPackV2_length (i : Info) (p : List Nat)
    (h : infoPackV2 i = Except.ok p) : p.length = 15 + i.face.length := by
  obtain ⟨-, hp⟩ := infoPackV2_inv i p h
  subst hp
  simp only [i16le, u16le, List.cons_append, List.nil_append,
    List.length_cons, List.length_append, List.length_nil]
  omega

/-- The common payload is 15 bytes. -/
theorem commonPackV3_length (c : Common) : (commonPackV3 c).length = 15 := by
  simp [commonPackV3, u16le]

/-- Each char record is 20 bytes. -/
theorem charPackV1_length (c : Char) : (charPackV1 c).length = 20 := by
  simp [charPackV1, u32le, u16le, i16le]

/-- The chars payload is 20 bytes per char. -/
theorem charsPayload_length (cs : List Char) :
    ((cs.map charPackV1).flatten).length = 20 * cs.length := by
  induction cs with
  | nil => rfl
  | cons c r ih =>
    simp only [List.map_cons, List.flatten_cons, List.length_append, ih,
      charPackV1_length, List.length_cons]
    ring

/-- Each kerning record is 10 bytes. -/
theorem kerningPackV1_length (k : Kerning) :
    (kerningPackV1 k).length = 10 := by
  simp [kerningPackV1, u32le, u16le, i16le]

/-- The kernings payload is 10 bytes per pair. -/
theorem kerningsPayload_length (ks : List Kerning) :
    ((ks.map kerningPackV1).flatten).length = 10 * ks.length := by
  induction ks with
  | nil => rfl
  | cons k r ih =>
    simp only [List.map_cons, List.flatten_cons, List.length_append, ih,
      kerningPackV1_length, List.length_cons]
    ring

/-- The pages payload length is the sum of the NUL-terminated name
lengths. -/
theorem pagesFlatten_length (ps : List (List Nat)) :
    ((ps.map (fun p => p ++ [0])).flatten).length =
      (ps.map (fun p => p.length + 1)).sum := by
  induction ps with
  | nil => rfl
  | cons p r ih =>
    simp only [List.map_cons, List.flatten_cons, List.length_append,
      List.sum_cons, ih, List.length_cons, List.length_nil]

/-- Loading a block whose dispatch succeeds continues on the remainder
with the updated builder. -/
theorem binLoad_append_block_ok (id : Nat) (payload rest : List Nat)
    (st st2 : BinBuilder) (hlen : payload.length < 4294967296)
    (hd : blockDispatch id payload st = Except.ok st2) :
    binLoad (blockBytes id payload ++ rest) st = binLoad rest st2 := by
  rw [binLoad_append_block id payload rest st hlen, hd]

/-- Decomposition of a decode that starts on a successfully encoded valid
font: the magic and the four or five emitted blocks are consumed, leaving
the loader on the trailing bytes with the fully populated builder (whose
info carries the lossy charset byte coercion). -/
theorem binLoad_of_encoded (f : Font) (bs t : List Nat)
    (henc : binToVec f = Except.ok bs) (hval : fontValid f = true)
    (hlen : binLenOk f = true) :
    binFromBytes (bs ++ t) =
      match binLoad t (binLoadedBuilder f) with
      | .error e => .error e
      | .ok st => binBuild st := by
  obtain ⟨infoP, pagesP, hip, hpp, hchk, hbs⟩ := binToVec_shape f bs henc
  subst hbs
  simp only [fontValid, Bool.and_eq_true, beq_iff_eq, List.all_eq_true,
    decide_eq_true_eq] at hval
  obtain ⟨⟨⟨⟨⟨hiv, hcv⟩, hpu⟩, hcvv⟩, hkv⟩, hpc⟩ := hval
  obtain ⟨hinul, hpshape⟩ := infoPackV2_inv f.info infoP hip
  have hinfo : infoUnpackV2Tight infoP = Except.ok (infoCoerced f.info) := by
    rw [hpshape, infoCoerced]
    exact infoUnpack_pack f.info hiv hinul
  have hcommon : commonUnpackV3Tight (commonPackV3 f.common) =
      Except.ok f.common := commonUnpack_pack f.common hcv
  rw [pagesPayload] at hpp
  obtain ⟨hpsh, hpnul⟩ := pagesPayloadGo_shape f.pages 0 0 pagesP hpp
  have hpages : pagesUnpack pagesP = Except.ok f.pages := by
    rw [hpsh]
    exact pagesUnpack_pack f.pages hpnul hpu
  have hchars := charsUnpack_pack f.chars hcvv
  have hkern := kerningsUnpack_pack f.kernings hkv
  simp only [binLenOk, Bool.and_eq_true, decide_eq_true_eq] at hlen
  obtain ⟨⟨⟨hl1, hl2⟩, hl3⟩, hl4⟩ := hlen
  have hilen : infoP.length < 4294967296 := by
    rw [infoPackV2_length f.info infoP hip]
    exact hl1
  have hplen : pagesP.length < 4294967296 := by
    rw [hpsh, pagesFlatten_length]
    exact hl2
  have hclen : ((f.chars.map charPackV1).flatten).length < 4294967296 := by
    rw [charsPayload_length]
    exact hl3
  have hklen : ((f.kernings.map kerningPackV1).flatten).length <
      4294967296 := by
    rw [kerningsPayload_length]
    exact hl4
  simp only [List.append_assoc]
  rw [binFromBytes_magic]
  rw [binLoad_append_block_ok _ _ _ _ _ hilen
    (blockDispatch_info binBuilderNew rfl infoP _ hinfo)]
  rw [binLoad_append_block_ok _ _ _ _ _ (by rw [commonPackV3_length]; omega)
    (blockDispatch_common _ rfl _ _ hcommon)]
  rw [binLoad_append_block_ok _ _ _ _ _ hplen
    (blockDispatch_pages _ _ _ hpages)]
  rw [binLoad_append_block_ok _ _ _ _ _ hclen
    (blockDispatch_chars _ _ _ hchars)]
  by_cases hk : f.kernings = []
  · rw [if_pos hk, List.nil_append]
    simp only [binLoadedBuilder, infoCoerced, hk, binBuilderNew,
      List.nil_append]
  · rw [if_neg hk]
    rw [binLoad_append_block_ok _ _ _ _ _ hklen
      (blockDispatch_kernings _ _ _ hkern)]
    simp only [binLoadedBuilder, infoCoerced, binBuilderNew,
      List.nil_append]

/-- C5 (amended): the block loop never stops before end of input, so
top-level trailing bytes after the emitted blocks of a valid font are
themselves parsed as blocks; a trailing fragment too short to hold a
5-byte block header fails with an underflow error rather than being
ignored. -/
theorem c5_trailing_bytes (f : Font) (bs t : List Nat)
    (henc : binToVec f = Except.ok bs) (hval : fontValid f = true)
    (hlen : binLenOk f = true) (ht0 : 0 < t.length) (ht5 : t.length < 5) :
    binFromBytes (bs ++ t) = Except.error errUnderflow := by
  rw [binLoad_of_encoded f bs t henc hval hlen]
  rw [binLoad_short t _ ht0 ht5]

/-- C5 witness: the default font's encoding with one trailing byte. -/
theorem c5_witness : binFromBytes (c5Base ++ [7]) =
    Except.error errUnderflow :=
  c5_trailing_bytes fontDefault c5Base [7] (by decide) (by decide)
    (by decide) (by decide) (by decide)

/-- A block header is 5 bytes. -/
theorem blockBytes_length (id : Nat) (p : List Nat) :
    (blockBytes id p).length = 5 + p.length := by
  simp [blockBytes, u32le]
  omega

/-- The block-presence scan finds nothing in an empty stream. -/
theorem hasBlockGo_nil (fuel bid : Nat) : hasBlockGo fuel bid [] = false := by
  cases fuel <;> rfl

/-- The block-presence scan does not depend on the fuel, as long as the
fuel covers the input length. -/
theorem hasBlockGo_fuelIrrel : ∀ f1 f2 bid bs, bs.length ≤ f1 →
    bs.length ≤ f2 → hasBlockGo f1 bid bs = hasBlockGo f2 bid bs := by
  intro f1
  induction f1 with
  | zero =>
    intro f2 bid bs h1 h2
    have hb : bs = [] := List.eq_nil_of_length_eq_zero (Nat.le_zero.mp h1)
    rw [hb, hasBlockGo_nil, hasBlockGo_nil]
  | succ g ih =>
    intro f2 bid bs h1 h2
    cases bs with
    | nil => rw [hasBlockGo_nil, hasBlockGo_nil]
    | cons b0 r0 =>
      obtain ⟨g2, rfl⟩ : ∃ g2, f2 = g2 + 1 := by
        cases f2
        · simp at h2
        · exact ⟨_, rfl⟩
      rcases r0 with _ | ⟨l0, _ | ⟨l1, _ | ⟨l2, _ | ⟨l3, r⟩⟩⟩⟩
      · rfl
      · rfl
      · rfl
      · rfl
      · rw [hasBlockGo, hasBlockGo]
        by_cases hid : b0 = bid
        · rw [if_pos hid, if_pos hid]
        · rw [if_neg hid, if_neg hid]
          apply ih
          · have := List.length_drop (rdU32 l0 l1 l2 l3) r
            simp only [List.length_cons] at h1
            omega
          · have := List.length_drop (rdU32 l0 l1 l2 l3) r
            simp only [List.length_cons] at h2
            omega

/-- The block-presence scan over a well-formed block followed by anything
checks the block's id then continues on the remainder. -/
theorem hasBlock_append_block (bid id : Nat) (payload rest : List Nat)
    (hlen : payload.length < 4294967296) :
    hasBlock bid (blockBytes id payload ++ rest) =
      if id = bid then true else hasBlock bid rest := by
  have hshape : blockBytes id payload ++ rest =
      id :: (payload.length % 256) :: (payload.length / 256 % 256) ::
      (payload.length / 65536 % 256) :: (payload.length / 16777216 % 256) ::
      (payload ++ rest) := by
    simp [blockBytes, u32le]
  have hfuel : hasBlock bid (blockBytes id payload ++ rest) =
      hasBlockGo ((payload ++ rest).length + 4 + 1) bid
        (blockBytes id payload ++ rest) := by
    apply hasBlockGo_fuelIrrel
    · exact le_refl _
    · rw [hshape]
      simp
  rw [hfuel, hshape, hasBlockGo]
  rw [rdU32_u32le payload.length hlen, List.drop_left]
  by_cases hid : id = bid
  · rw [if_pos hid, if_pos hid]
  · rw [if_neg hid, if_neg hid]
    apply hasBlockGo_fuelIrrel
    · simp only [List.length_append]
      omega
    · exact le_refl _

/-- A successful dispatch of any block other than the kernings block
leaves the accumulated kernings unchanged. -/
theorem blockDispatch_preserves_kernings (id : Nat) (p : List Nat)
    (st st2 : BinBuilder) (hid : id ≠ kerningPairsBlockId)
    (hd : blockDispatch id p st = Except.ok st2) :
    st2.kernings = st.kernings := by
  rw [blockDispatch] at hd
  by_cases h1 : id = infoBlockId
  · rw [if_pos h1] at hd
    by_cases hs : st.info.isSome
    · rw [if_pos hs] at hd
      exact absurd hd (by simp)
    · rw [if_neg hs] at hd
      revert hd
      cases infoUnpackV2Tight p with
      | error e => intro hd; exact absurd hd (by simp)
      | ok i =>
        intro hd
        injection hd with h2
        rw [← h2]
  · rw [if_neg h1] at hd
    by_cases h2 : id = commonBlockId
    · rw [if_pos h2] at hd
      by_cases hs : st.common.isSome
      · rw [if_pos hs] at hd
        exact absurd hd (by simp)
      · rw [if_neg hs] at hd
        revert hd
        cases commonUnpackV3Tight p with
        | error e => intro hd; exact absurd hd (by simp)
        | ok c =>
          intro hd
          injection hd with h3
          rw [← h3]
    · rw [if_neg h2] at hd
      by_cases h3 : id = pagesBlockId
      · rw [if_pos h3] at hd
        revert hd
        cases pagesUnpack p with
        | error e => intro hd; exact absurd hd (by simp)
        | ok ps =>
          intro hd
          injection hd with h4
          rw [← h4]
      · rw [if_neg h3] at hd
        by_cases h4 : id = charsBlockId
        · rw [if_pos h4] at hd
          revert hd
          cases charsUnpack p with
          | error e => intro hd; exact absurd hd (by simp)
          | ok cs =>
            intro hd
            injection hd with h5
            rw [← h5]
        · rw [if_neg h4] at hd
          rw [if_neg hid] at hd
          exact absurd hd (by simp)

/-- A successful run of the block loop over a stream with no kernings
block leaves the accumulated kernings unchanged. -/
theorem binLoadGo_no_kern : ∀ fuel bs st st2,
    hasBlockGo fuel kerningPairsBlockId bs = false →
    binLoadGo fuel bs st = Except.ok st2 → st2.kernings = st.kernings := by
  intro fuel
  induction fuel with
  | zero =>
    intro bs st st2 hh hl
    cases bs with
    | nil =>
      injection hl with h
      rw [← h]
    | cons b r =>
      rw [show binLoadGo 0 (b :: r) st =
        Except.error (Err.parse none (bsOf "internal") (bsOf "fuel"))
        from rfl] at hl
      exact absurd hl (by simp)
  | succ g ih =>
    intro bs st st2 hh hl
    rcases bs with _ | ⟨b0, _ | ⟨l0, _ | ⟨l1, _ | ⟨l2, _ | ⟨l3, r⟩⟩⟩⟩⟩
    · rw [binLoadGo_nil] at hl
      injection hl with h
      rw [← h]
    · rw [show binLoadGo (g + 1) [b0] st = Except.error errUnderflow
        from rfl] at hl
      exact absurd hl (by simp)
    · rw [show binLoadGo (g + 1) [b0, l0] st = Except.error errUnderflow
        from rfl] at hl
      exact absurd hl (by simp)
    · rw [show binLoadGo (g + 1) [b0, l0, l1] st = Except.error errUnderflow
        from rfl] at hl
      exact absurd hl (by simp)
    · rw [show binLoadGo (g + 1) [b0, l0, l1, l2] st =
        Except.error errUnderflow from rfl] at hl
      exact absurd hl (by simp)
    · rw [binLoadGo] at hl
      rw [hasBlockGo] at hh
      by_cases hid : b0 = kerningPairsBlockId
      · rw [if_pos hid] at hh
        exact absurd hh (by simp)
      · rw [if_neg hid] at hh
        revert hl
        by_cases hle : rdU32 l0 l1 l2 l3 ≤ r.length
        · rw [if_pos hle]
          cases hd : blockDispatch b0 (r.take (rdU32 l0 l1 l2 l3)) st with
          | error e => intro hl; exact absurd hl (by simp)
          | ok stM =>
            intro hl
            rw [ih (r.drop (rdU32 l0 l1 l2 l3)) stM st2 hh hl,
              blockDispatch_preserves_kernings b0 _ st stM hid hd]
        · rw [if_neg hle]
          intro hl
          exact absurd hl (by simp)

/-- Dropping a version-3 magic prefix. -/
theorem magic_drop (X : List Nat) : (magicBytes 3 ++ X).drop 4 = X := rfl

/-- C4: binary encoding emits a kernings block iff the kerning list is
non-empty (visible both to the block-presence scan after the magic and in
the emitted byte length), a decode over a stream with no kernings block
leaves the builder's kernings untouched, and the concrete one-page font
with no kernings encodes without a kernings block and decodes back to
itself. -/
theorem c4_kernings_block (f : Font) (bs : List Nat)
    (henc : binToVec f = Except.ok bs) (hlen : binLenOk f = true) :
    (hasBlock kerningPairsBlockId (bs.drop 4) = true ↔ f.kernings ≠ []) ∧
    (bs.length = binCoreLen f +
      (if f.kernings = [] then 0 else 5 + 10 * f.kernings.length)) ∧
    (∀ bs2 st st2, hasBlock kerningPairsBlockId bs2 = false →
      binLoad bs2 st = Except.ok st2 → st2.kernings = st.kernings) ∧
    binToVec c4Font = Except.ok c4Bytes ∧
    c4Bytes.length = binCoreLen c4Font ∧
    hasBlock kerningPairsBlockId (c4Bytes.drop 4) = false ∧
    binFromBytes c4Bytes = Except.ok c4Font := by
  obtain ⟨infoP, pagesP, hip, hpp, hchk, hbs⟩ := binToVec_shape f bs henc
  subst hbs
  simp only [binLenOk, Bool.and_eq_true, decide_eq_true_eq] at hlen
  obtain ⟨⟨⟨hl1, hl2⟩, hl3⟩, hl4⟩ := hlen
  rw [pagesPayload] at hpp
  obtain ⟨hpsh, hpnul⟩ := pagesPayloadGo_shape f.pages 0 0 pagesP hpp
  have hilen : infoP.length < 4294967296 := by
    rw [infoPackV2_length f.info infoP hip]
    exact hl1
  have hplen : pagesP.length < 4294967296 := by
    rw [hpsh, pagesFlatten_length]
    exact hl2
  have hclen : ((f.chars.map charPackV1).flatten).length < 4294967296 := by
    rw [charsPayload_length]
    exact hl3
  have hklen : ((f.kernings.map kerningPackV1).flatten).length <
      4294967296 := by
    rw [kerningsPayload_length]
    exact hl4
  refine ⟨?_, ?_, ?_, by decide, by decide, by decide, by decide⟩
  · simp only [List.append_assoc]
    rw [magic_drop]
    rw [hasBlock_append_block _ _ _ _ hilen, if_neg (by decide)]
    rw [hasBlock_append_block _ _ _ _ (by rw [commonPackV3_length]; omega),
      if_neg (by decide)]
    rw [hasBlock_append_block _ _ _ _ hplen, if_neg (by decide)]
    rw [hasBlock_append_block _ _ _ _ hclen, if_neg (by decide)]
    by_cases hk : f.kernings = []
    · simp only [if_pos hk]
      simp [hasBlock, hasBlockGo_nil, hk]
    · simp only [if_neg hk]
      rw [show blockBytes kerningPairsBlockId
          ((f.kernings.map kerningPackV1).flatten) =
          blockBytes kerningPairsBlockId
          ((f.kernings.map kerningPackV1).flatten) ++ [] from
          (List.append_nil _).symm]
      rw [hasBlock_append_block _ _ _ _ hklen, if_pos rfl]
      simp [hk]
  · by_cases hk : f.kernings = []
    · simp only [if_pos hk]
      simp only [List.length_append, blockBytes_length, magicBytes,
        List.length_cons, List.length_nil, binCoreLen]
      rw [infoPackV2_length f.info infoP hip, hpsh, pagesFlatten_length,
        charsPayload_length, commonPackV3_length]
    · simp only [if_neg hk]
      simp only [List.length_append, blockBytes_length, magicBytes,
        List.length_cons, List.length_nil, binCoreLen]
      rw [infoPackV2_length f.info infoP hip, hpsh, pagesFlatten_length,
        charsPayload_length, kerningsPayload_length, commonPackV3_length]
  · intro bs2 st st2 hh hl
    rw [hasBlock] at hh
    rw [binLoad] at hl
    exact binLoadGo_no_kern bs2.length bs2 st st2 hh hl

/-- C4 witness: the conjunction instantiated at the concrete one-page
font and its emitted stream. -/
theorem c4_witness :
    (hasBlock kerningPairsBlockId (c4Bytes.drop 4) = true ↔
      c4Font.kernings ≠ []) ∧
    (c4Bytes.length = binCoreLen c4Font +
      (if c4Font.kernings = [] then 0
       else 5 + 10 * c4Font.kernings.length)) ∧
    (∀ bs2 st st2, hasBlock kerningPairsBlockId bs2 = false →
      binLoad bs2 st = Except.ok st2 → st2.kernings = st.kernings) ∧
    binToVec c4Font = Except.ok c4Bytes ∧
    c4Bytes.length = binCoreLen c4Font ∧
    hasBlock kerningPairsBlockId (c4Bytes.drop 4) = false ∧
    binFromBytes c4Bytes = Except.ok c4Font :=
  c4_kernings_block c4Font c4Bytes (by decide) (by decide)

/-- The unquoted-value scanner never grows the remaining input. -/
theorem valueTailWn_le : ∀ bs t rest, valueTailWn bs = Except.ok (t, rest) →
    rest.length ≤ bs.length := by
  intro bs
  induction bs with
  | nil =>
    intro t rest h
    rw [valueTailWn] at h
    injection h with h2
    cases h2
    exact Nat.le_refl _
  | cons b r ih =>
    intro t rest h
    rw [valueTailWn] at h
    split at h
    · split at h
      · injection h with h2
        cases h2
        exact Nat.le_succ _
      · exact absurd h (by simp)
    · split at h
      · injection h with h2
        cases h2
        exact Nat.le_refl _
      · split at h
        · injection h with h2
          cases h2
          exact Nat.le_succ _
        · split at h
          · exact absurd h (by simp)
          · rename_i t2 rest2 heq
            injection h with h2
            cases h2
            exact Nat.le_succ_of_le (ih _ _ heq)

/-- The quoted-value scanner strictly consumes input. -/
theorem valueTailQt_lt : ∀ bs t rest, valueTailQt bs = Except.ok (t, rest) →
    rest.length < bs.length := by
  intro bs
  induction bs with
  | nil =>
    intro t rest h
    exact absurd h (by simp [valueTailQt])
  | cons b r ih =>
    intro t rest h
    rw [valueTailQt] at h
    split at h
    · exact absurd h (by simp)
    · split at h
      · injection h with h2
        cases h2
        exact Nat.lt_succ_self _
      · split at h
        · exact absurd h (by simp)
        · rename_i t2 rest2 heq
          injection h with h2
          cases h2
          exact Nat.lt_succ_of_lt (ih _ _ heq)

/-- The equals-sign eater strictly consumes input. -/
theorem eatEq_lt : ∀ bs rest, eatEq bs = Except.ok rest →
    rest.length < bs.length := by
  intro bs
  induction bs with
  | nil =>
    intro rest h
    exact absurd h (by simp [eatEq])
  | cons b r ih =>
    intro rest h
    rw [eatEq] at h
    split at h
    · injection h with h2
      cases h2
      exact Nat.lt_succ_self _
    · split at h
      · exact Nat.lt_succ_of_lt (ih _ h)
      · exact absurd h (by simp)

/-- The key scanner strictly consumes input. -/
theorem keyTail_lt : ∀ bs t rest, keyTail bs = Except.ok (t, rest) →
    rest.length < bs.length := by
  intro bs
  induction bs with
  | nil =>
    intro t rest h
    exact absurd h (by simp [keyTail])
  | cons b r ih =>
    intro t rest h
    rw [keyTail] at h
    split at h
    · injection h with h2
      cases h2
      exact Nat.lt_succ_self _
    · split at h
      · exact absurd h (by simp)
      · split at h
        · split at h
          · exact absurd h (by simp)
          · rename_i rest2 heq
            injection h with h2
            cases h2
            exact Nat.lt_succ_of_lt (eatEq_lt _ _ heq)
        · split at h
          · exact absurd h (by simp)
          · rename_i t2 rest2 heq
            injection h with h2
            cases h2
            exact Nat.lt_succ_of_lt (ih _ _ heq)

/-- Whitespace skipping never grows the input. -/
theorem skipWs_le : ∀ bs, (skipWs bs).length ≤ bs.length := by
  intro bs
  induction bs with
  | nil => exact Nat.le_refl _
  | cons b r ih =>
    rw [skipWs]
    split
    · exact Nat.le_succ_of_le ih
    · exact Nat.le_refl _

/-- A parsed attribute strictly consumes input. -/
theorem keyValue_some_lt : ∀ bs k v rest,
    keyValue bs = Except.ok (some (k, v), rest) → rest.length < bs.length := by
  intro bs
  induction bs with
  | nil =>
    intro k v rest h
    exact absurd h (by simp [keyValue])
  | cons b r ih =>
    intro k v rest h
    rw [keyValue] at h
    split at h
    · exact Nat.lt_succ_of_lt (ih _ _ _ h)
    · split at h
      · split at h
        · exact absurd h (by simp)
        · exact absurd h (by simp)
      · split at h
        · exact absurd h (by simp)
        · split at h
          · exact absurd h (by simp)
          · rename_i kt r1 hkt
            split at h
            · exact absurd h (by simp)
            · rename_i c r2 hsw
              have hr1 : r1.length < r.length := keyTail_lt _ _ _ hkt
              have hr2 : r2.length < r1.length := by
                have h5 := skipWs_le r1
                rw [hsw] at h5
                simp only [List.length_cons] at h5
                omega
              split at h
              · exact absurd h (by simp)
              · split at h
                · split at h
                  · exact absurd h (by simp)
                  · rename_i vt rest2 hvt
                    injection h with h2
                    cases h2
                    have h6 := valueTailQt_lt _ _ _ hvt
                    simp only [List.length_cons]
                    omega
                · split at h
                  · exact absurd h (by simp)
                  · rename_i vt rest2 hvt
                    injection h with h2
                    cases h2
                    have h6 := valueTailWn_le _ _ _ hvt
                    simp only [List.length_cons]
                    omega

/-- An end-of-attributes result never grows the input. -/
theorem keyValue_none_le : ∀ bs rest,
    keyValue bs = Except.ok (none, rest) → rest.length ≤ bs.length := by
  intro bs
  induction bs with
  | nil =>
    intro rest h
    rw [keyValue] at h
    injection h with h2
    cases h2
    exact Nat.le_refl _
  | cons b r ih =>
    intro rest h
    rw [keyValue] at h
    split at h
    · exact Nat.le_succ_of_le (ih _ h)
    · split at h
      · split at h
        · injection h with h2
          cases h2
          exact Nat.le_succ _
        · exact absurd h (by simp)
      · split at h
        · injection h with h2
          cases h2
          exact Nat.le_refl _
        · split at h
          · exact absurd h (by simp)
          · rename_i kt r1 hkt
            split at h
            · exact absurd h (by simp)
            · rename_i c r2 hsw
              split at h
              · exact absurd h (by simp)
              · split at h
                · split at h
                  · exact absurd h (by simp)
                  · exact absurd h (by simp)
                · split at h
                  · exact absurd h (by simp)
                  · exact absurd h (by simp)

/-- A successful attribute loop never grows the remaining input. -/
theorem loadBlockGo_le {α : Type} (fields : List (Field α)) :
    ∀ fuel bs line acc mask acc2 rest,
    loadBlockGo fields fuel bs line acc mask = Except.ok (acc2, rest) →
    rest.length ≤ bs.length := by
  intro fuel
  induction fuel with
  | zero =>
    intro bs line acc mask acc2 rest h
    exact absurd h (by simp [loadBlockGo])
  | succ g ih =>
    intro bs line acc mask acc2 rest h
    rw [loadBlockGo] at h
    split at h
    · exact absurd h (by simp)
    · rename_i rest2 hkv
      injection h with h2
      cases h2
      exact keyValue_none_le _ _ hkv
    · rename_i k v rest2 hkv
      split at h
      · exact absurd h (by simp)
      · rename_i a2 m2 happ
        have h5 := ih _ _ _ _ _ _ h
        have h6 := keyValue_some_lt _ _ _ _ hkv
        omega

/-- The attribute loop's result does not depend on the fuel, as long as
the fuel strictly covers the input length. -/
theorem loadBlockGo_fuelIrrel {α : Type} (fields : List (Field α)) :
    ∀ f1 f2 bs line acc mask, bs.length < f1 → bs.length < f2 →
    loadBlockGo fields f1 bs line acc mask =
      loadBlockGo fields f2 bs line acc mask := by
  intro f1
  induction f1 with
  | zero =>
    intro f2 bs line acc mask h1 h2
    exact absurd h1 (Nat.not_lt_zero _)
  | succ g ih =>
    intro f2 bs line acc mask h1 h2
    obtain ⟨g2, rfl⟩ : ∃ g2, f2 = g2 + 1 := by
      cases f2
      · exact absurd h2 (Nat.not_lt_zero _)
      · exact ⟨_, rfl⟩
    rw [loadBlockGo, loadBlockGo]
    split
    · rfl
    · rfl
    · rename_i k v r2 hkv
      split
      · rfl
      · rename_i a2 m2 happ
        have h6 := keyValue_some_lt _ _ _ _ hkv
        exact ih _ _ _ _ _ (by omega) (by omega)

/-- One successfully applied attribute advances the attribute loop. -/
theorem loadBlockRun_step {α : Type} (fields : List (Field α)) (bs : List Nat)
    (line : Nat) (acc : α) (mask : Nat) (k v rest : List Nat) (acc2 : α)
    (mask2 : Nat) (hkv : keyValue bs = Except.ok (some (k, v), rest))
    (happ : applyField fields (some line) k v acc mask =
      Except.ok (acc2, mask2)) :
    loadBlockRun fields bs line acc mask =
      loadBlockRun fields rest line acc2 mask2 := by
  have h1 : loadBlockRun fields bs line acc mask =
      match applyField fields (some line) k v acc mask with
      | .error e => .error e
      | .ok (a2, m2) => loadBlockGo fields bs.length rest line a2 m2 := by
    rw [loadBlockRun, loadBlockGo, hkv]
  rw [h1, happ]
  exact loadBlockGo_fuelIrrel fields bs.length (rest.length + 1) rest line acc2
    mask2 (keyValue_some_lt _ _ _ _ hkv) (Nat.lt_succ_self _)

/-- End of the attribute list ends the attribute loop. -/
theorem loadBlockRun_end {α : Type} (fields : List (Field α)) (bs : List Nat)
    (line : Nat) (acc : α) (mask : Nat) (rest : List Nat)
    (hkv : keyValue bs = Except.ok (none, rest)) :
    loadBlockRun fields bs line acc mask = Except.ok (acc, rest) := by
  rw [loadBlockRun, loadBlockGo, hkv]

/-- A failed attribute application fails the attribute loop. -/
theorem loadBlockRun_applyField_err {α : Type} (fields : List (Field α))
    (bs : List Nat) (line : Nat) (acc : α) (mask : Nat) (k v rest : List Nat)
    (e : Err) (hkv : keyValue bs = Except.ok (some (k, v), rest))
    (happ : applyField fields (some line) k v acc mask = Except.error e) :
    loadBlockRun fields bs line acc mask = Except.error e := by
  have h1 : loadBlockRun fields bs line acc mask =
      match applyField fields (some line) k v acc mask with
      | .error e2 => .error e2
      | .ok (a2, m2) => loadBlockGo fields bs.length rest line a2 m2 := by
    rw [loadBlockRun, loadBlockGo, hkv]
  rw [h1, happ]

/-- A leading space is skipped by the attribute scanner. -/
theorem keyValue_sp (r : List Nat) : keyValue (32 :: r) = keyValue r := rfl

/-- Leading spaces are skipped by the attribute scanner. -/
theorem keyValue_skipRep : ∀ e r,
    keyValue (List.replicate e 32 ++ r) = keyValue r := by
  intro e
  induction e with
  | zero => intro r; rfl
  | succ e2 ih =>
    intro r
    rw [List.replicate_succ, List.cons_append, keyValue_sp, ih]

/-- Leading spaces are skipped by the attribute loop. -/
theorem loadBlockRun_skipRep {α : Type} (fields : List (Field α)) (e : Nat)
    (rest : List Nat) (line : Nat) (acc : α) (mask : Nat) :
    loadBlockRun fields (List.replicate e 32 ++ rest) line acc mask =
      loadBlockRun fields rest line acc mask := by
  rw [loadBlockRun, loadBlockRun, loadBlockGo, loadBlockGo, keyValue_skipRep]
  split
  · rfl
  · rfl
  · rename_i k v r2 hkv
    split
    · rfl
    · rename_i a2 m2 happ
      have h6 := keyValue_some_lt _ _ _ _ hkv
      apply loadBlockGo_fuelIrrel
      · simp only [List.length_append, List.length_replicate]
        omega
      · omega

/-- A single leading space is skipped by the attribute loop. -/
theorem loadBlockRun_skipSp {α : Type} (fields : List (Field α))
    (rest : List Nat) (line : Nat) (acc : α) (mask : Nat) :
    loadBlockRun fields (32 :: rest) line acc mask =
      loadBlockRun fields rest line acc mask :=
  loadBlockRun_skipRep fields 1 rest line acc mask

/-- The unquoted scanner reads a token up to its first trailing space. -/
theorem valueTailWn_word : ∀ (w : List Nat),
    (∀ b ∈ w, b ≠ 13 ∧ b ≠ 10 ∧ b ≠ 32 ∧ b ≠ 9) → ∀ e rest,
    valueTailWn (w ++ (List.replicate (e + 1) 32 ++ rest)) =
      Except.ok (w, List.replicate e 32 ++ rest) := by
  intro w
  induction w with
  | nil =>
    intro hw e rest
    rw [List.nil_append, List.replicate_succ, List.cons_append]
    rfl
  | cons b w2 ih =>
    intro hw e rest
    obtain ⟨hb13, hb10, hb32, hb9⟩ := hw b (by simp)
    rw [List.cons_append, valueTailWn.eq_def]
    split
    · rename_i hx
      exact absurd hx (by simp)
    · rename_i b2 r2 hx
      injection hx with hx1 hx2
      subst hx1
      subst hx2
      try simp only [List.append_eq]
      rw [if_neg hb13, if_neg hb10, if_neg (by simp [hb32, hb9]),
        ih (fun x hx => hw x (by simp [hx])) e rest]

/-- The unquoted scanner reads a token up to a CRLF, keeping the LF. -/
theorem valueTailWn_word_crlf : ∀ (w : List Nat),
    (∀ b ∈ w, b ≠ 13 ∧ b ≠ 10 ∧ b ≠ 32 ∧ b ≠ 9) → ∀ rest,
    valueTailWn (w ++ 13 :: 10 :: rest) = Except.ok (w, 10 :: rest) := by
  intro w
  induction w with
  | nil => intro hw rest; rfl
  | cons b w2 ih =>
    intro hw rest
    obtain ⟨hb13, hb10, hb32, hb9⟩ := hw b (by simp)
    rw [List.cons_append, valueTailWn.eq_def]
    split
    · rename_i hx
      exact absurd hx (by simp)
    · rename_i b2 r2 hx
      injection hx with hx1 hx2
      subst hx1
      subst hx2
      try simp only [List.append_eq]
      rw [if_neg hb13, if_neg hb10, if_neg (by simp [hb32, hb9]),
        ih (fun x hx => hw x (by simp [hx])) rest]

/-- The unquoted scanner reads a token up to end of input. -/
theorem valueTailWn_word_eof : ∀ (w : List Nat),
    (∀ b ∈ w, b ≠ 13 ∧ b ≠ 10 ∧ b ≠ 32 ∧ b ≠ 9) →
    valueTailWn w = Except.ok (w, []) := by
  intro w
  induction w with
  | nil => intro hw; rfl
  | cons b w2 ih =>
    intro hw
    obtain ⟨hb13, hb10, hb32, hb9⟩ := hw b (by simp)
    rw [valueTailWn.eq_def]
    split
    · rename_i hx
      exact absurd hx (by simp)
    · rename_i b2 r2 hx
      injection hx with hx1 hx2
      subst hx1
      subst hx2
      rw [if_neg hb13, if_neg hb10, if_neg (by simp [hb32, hb9]),
        ih (fun x hx => hw x (by simp [hx]))]

/-- The quoted scanner reads a value up to its closing quote. -/
theorem valueTailQt_word : ∀ (v : List Nat),
    (∀ b ∈ v, b ≠ 13 ∧ b ≠ 10 ∧ b ≠ 34) → ∀ tail,
    valueTailQt (v ++ 34 :: tail) = Except.ok (v, tail) := by
  intro v
  induction v with
  | nil => intro hv tail; rfl
  | cons b v2 ih =>
    intro hv tail
    obtain ⟨hb13, hb10, hb34⟩ := hv b (by simp)
    rw [List.cons_append, valueTailQt.eq_def]
    split
    · rename_i hx
      exact absurd hx (by simp)
    · rename_i b2 r2 hx
      injection hx with hx1 hx2
      subst hx1
      subst hx2
      try simp only [List.append_eq]
      rw [if_neg (by simp [hb13, hb10]), if_neg hb34,
        ih (fun x hx => hv x (by simp [hx])) tail]

/-- The key scanner reads a key up to its equals sign. -/
theorem keyTail_word : ∀ (k2 : List Nat),
    (∀ b ∈ k2, b ≠ 61 ∧ b ≠ 13 ∧ b ≠ 10 ∧ b ≠ 32 ∧ b ≠ 9) → ∀ rest,
    keyTail (k2 ++ 61 :: rest) = Except.ok (k2, rest) := by
  intro k2
  induction k2 with
  | nil => intro hk rest; rfl
  | cons b k3 ih =>
    intro hk rest
    obtain ⟨hb61, hb13, hb10, hb32, hb9⟩ := hk b (by simp)
    rw [List.cons_append, keyTail.eq_def]
    split
    · rename_i hx
      exact absurd hx (by simp)
    · rename_i b2 r2 hx
      injection hx with hx1 hx2
      subst hx1
      subst hx2
      try simp only [List.append_eq]
      rw [if_neg hb61, if_neg (by simp [hb13, hb10]),
        if_neg (by simp [hb32, hb9]),
        ih (fun x hx => hk x (by simp [hx])) rest]

/-- Whitespace skipping stops at a non-whitespace head. -/
theorem skipWs_cons_no (b : Nat) (r : List Nat) (h : ¬(b = 32 ∨ b = 9)) :
    skipWs (b :: r) = b :: r := by
  rw [skipWs.eq_def]
  split
  · rename_i hx
    exact absurd hx (by simp)
  · rename_i b2 r2 hx
    injection hx with hx1 hx2
    subst hx1
    subst hx2
    rw [if_neg h]

/-- A CRLF ends the attribute list, keeping the LF. -/
theorem keyValue_crlf (rest : List Nat) :
    keyValue (13 :: 10 :: rest) = Except.ok (none, 10 :: rest) := rfl

/-- An LF ends the attribute list unconsumed. -/
theorem keyValue_lf (rest : List Nat) :
    keyValue (10 :: rest) = Except.ok (none, 10 :: rest) := rfl

/-- The attribute scanner on a key, equals sign and value start: the key
is read, then the value is read quoted or unquoted by the value start
byte. -/
theorem keyValue_attr_shape (k0 v0 : Nat) (k2 v2tail : List Nat)
    (hk0a : ¬(k0 = 32 ∨ k0 = 9)) (hk0b : k0 ≠ 13) (hk0c : k0 ≠ 10)
    (hk2 : ∀ b ∈ k2, b ≠ 61 ∧ b ≠ 13 ∧ b ≠ 10 ∧ b ≠ 32 ∧ b ≠ 9)
    (hv0a : ¬(v0 = 32 ∨ v0 = 9)) (hv0b : ¬(v0 = 13 ∨ v0 = 10)) :
    keyValue ((k0 :: k2) ++ 61 :: v0 :: v2tail) =
      if v0 = 34 then
        match valueTailQt v2tail with
        | .error e2 => .error e2
        | .ok (vx, restx) => .ok (some (k0 :: k2, vx), restx)
      else
        match valueTailWn v2tail with
        | .error e2 => .error e2
        | .ok (vtx, restx) => .ok (some (k0 :: k2, v0 :: vtx), restx) := by
  rw [List.cons_append, keyValue.eq_def]
  split
  · rename_i hx
    exact absurd hx (by simp)
  · rename_i b2 r2 hx
    injection hx with hx1 hx2
    subst hx1
    subst hx2
    try simp only [List.append_eq]
    rw [if_neg hk0a, if_neg hk0b, if_neg hk0c,
      keyTail_word k2 hk2 (v0 :: v2tail)]
    split
    · rename_i e2 hx2b
      exact absurd hx2b (by simp)
    · rename_i kt r1 hx2b
      injection hx2b with hx3
      injection hx3 with hx4 hx5
      subst hx4
      subst hx5
      rw [skipWs_cons_no v0 v2tail hv0a]
      split
      · rename_i hx6
        exact absurd hx6 (by simp)
      · rename_i c r3 hx6
        injection hx6 with hx7 hx8
        subst hx7
        subst hx8
        rw [if_neg hv0b]

/-- An unquoted attribute followed by at least one space. -/
theorem keyValue_attr_wn (k0 v0 : Nat) (k2 v2 : List Nat) (e : Nat)
    (rest : List Nat)
    (hk0 : k0 ≠ 13 ∧ k0 ≠ 10 ∧ k0 ≠ 32 ∧ k0 ≠ 9)
    (hk2 : ∀ b ∈ k2, b ≠ 61 ∧ b ≠ 13 ∧ b ≠ 10 ∧ b ≠ 32 ∧ b ≠ 9)
    (hv0 : v0 ≠ 13 ∧ v0 ≠ 10 ∧ v0 ≠ 32 ∧ v0 ≠ 9 ∧ v0 ≠ 34)
    (hv2 : ∀ b ∈ v2, b ≠ 13 ∧ b ≠ 10 ∧ b ≠ 32 ∧ b ≠ 9) :
    keyValue ((k0 :: k2) ++ 61 :: v0 ::
        (v2 ++ (List.replicate (e + 1) 32 ++ rest))) =
      Except.ok (some (k0 :: k2, v0 :: v2), List.replicate e 32 ++ rest) := by
  obtain ⟨hka, hkb, hkc, hkd⟩ := hk0
  obtain ⟨hva, hvb, hvc, hvd, hve⟩ := hv0
  rw [keyValue_attr_shape k0 v0 k2 _ (by simp [hkc, hkd]) hka hkb hk2
      (by simp [hvc, hvd]) (by simp [hva, hvb]),
    if_neg hve, valueTailWn_word v2 hv2 e rest]

/-- An unquoted attribute followed by a single space. -/
theorem keyValue_attr_wn_sp (k0 v0 : Nat) (k2 v2 : List Nat)
    (rest : List Nat)
    (hk0 : k0 ≠ 13 ∧ k0 ≠ 10 ∧ k0 ≠ 32 ∧ k0 ≠ 9)
    (hk2 : ∀ b ∈ k2, b ≠ 61 ∧ b ≠ 13 ∧ b ≠ 10 ∧ b ≠ 32 ∧ b ≠ 9)
    (hv0 : v0 ≠ 13 ∧ v0 ≠ 10 ∧ v0 ≠ 32 ∧ v0 ≠ 9 ∧ v0 ≠ 34)
    (hv2 : ∀ b ∈ v2, b ≠ 13 ∧ b ≠ 10 ∧ b ≠ 32 ∧ b ≠ 9) :
    keyValue ((k0 :: k2) ++ 61 :: v0 :: (v2 ++ 32 :: rest)) =
      Except.ok (some (k0 :: k2, v0 :: v2), rest) :=
  keyValue_attr_wn k0 v0 k2 v2 0 rest hk0 hk2 hv0 hv2

/-- An unquoted attribute directly followed by the line's CRLF. -/
theorem keyValue_attr_wn_crlf (k0 v0 : Nat) (k2 v2 : List Nat)
    (rest : List Nat)
    (hk0 : k0 ≠ 13 ∧ k0 ≠ 10 ∧ k0 ≠ 32 ∧ k0 ≠ 9)
    (hk2 : ∀ b ∈ k2, b ≠ 61 ∧ b ≠ 13 ∧ b ≠ 10 ∧ b ≠ 32 ∧ b ≠ 9)
    (hv0 : v0 ≠ 13 ∧ v0 ≠ 10 ∧ v0 ≠ 32 ∧ v0 ≠ 9 ∧ v0 ≠ 34)
    (hv2 : ∀ b ∈ v2, b ≠ 13 ∧ b ≠ 10 ∧ b ≠ 32 ∧ b ≠ 9) :
    keyValue ((k0 :: k2) ++ 61 :: v0 :: (v2 ++ 13 :: 10 :: rest)) =
      Except.ok (some (k0 :: k2, v0 :: v2), 10 :: rest) := by
  obtain ⟨hka, hkb, hkc, hkd⟩ := hk0
  obtain ⟨hva, hvb, hvc, hvd, hve⟩ := hv0
  rw [keyValue_attr_shape k0 v0 k2 _ (by simp [hkc, hkd]) hka hkb hk2
      (by simp [hvc, hvd]) (by simp [hva, hvb]),
    if_neg hve, valueTailWn_word_crlf v2 hv2 rest]

/-- An unquoted attribute, its trailing padding and the line's CRLF: the
attribute is read, and the next scan ends the attribute list just after
the CR. -/
theorem keyValue_attr_wn_end (k0 v0 : Nat) (k2 v2 : List Nat) (e : Nat)
    (rest : List Nat)
    (hk0 : k0 ≠ 13 ∧ k0 ≠ 10 ∧ k0 ≠ 32 ∧ k0 ≠ 9)
    (hk2 : ∀ b ∈ k2, b ≠ 61 ∧ b ≠ 13 ∧ b ≠ 10 ∧ b ≠ 32 ∧ b ≠ 9)
    (hv0 : v0 ≠ 13 ∧ v0 ≠ 10 ∧ v0 ≠ 32 ∧ v0 ≠ 9 ∧ v0 ≠ 34)
    (hv2 : ∀ b ∈ v2, b ≠ 13 ∧ b ≠ 10 ∧ b ≠ 32 ∧ b ≠ 9) :
    ∃ r2, keyValue ((k0 :: k2) ++ 61 :: v0 ::
        (v2 ++ (List.replicate e 32 ++ 13 :: 10 :: rest))) =
      Except.ok (some (k0 :: k2, v0 :: v2), r2) ∧
      keyValue r2 = Except.ok (none, 10 :: rest) := by
  cases e with
  | zero =>
    refine ⟨10 :: rest, ?_, keyValue_lf rest⟩
    have hmain := keyValue_attr_wn_crlf k0 v0 k2 v2 rest hk0 hk2 hv0 hv2
    exact hmain
  | succ e2 =>
    refine ⟨List.replicate e2 32 ++ 13 :: 10 :: rest, ?_, ?_⟩
    · exact keyValue_attr_wn k0 v0 k2 v2 e2 (13 :: 10 :: rest) hk0 hk2 hv0 hv2
    · rw [keyValue_skipRep, keyValue_crlf]

/-- An unquoted attribute, its trailing padding and a single separator
space: the attribute is read, and the padding is skipped by the
attribute loop. -/
theorem keyValue_attr_wn_pad (k0 v0 : Nat) (k2 v2 : List Nat) (e : Nat)
    (rest : List Nat)
    (hk0 : k0 ≠ 13 ∧ k0 ≠ 10 ∧ k0 ≠ 32 ∧ k0 ≠ 9)
    (hk2 : ∀ b ∈ k2, b ≠ 61 ∧ b ≠ 13 ∧ b ≠ 10 ∧ b ≠ 32 ∧ b ≠ 9)
    (hv0 : v0 ≠ 13 ∧ v0 ≠ 10 ∧ v0 ≠ 32 ∧ v0 ≠ 9 ∧ v0 ≠ 34)
    (hv2 : ∀ b ∈ v2, b ≠ 13 ∧ b ≠ 10 ∧ b ≠ 32 ∧ b ≠ 9) :
    ∃ r2, keyValue ((k0 :: k2) ++ 61 :: v0 ::
        (v2 ++ (List.replicate e 32 ++ 32 :: rest))) =
      Except.ok (some (k0 :: k2, v0 :: v2), r2) ∧
      ∀ (α : Type) (fields : List (Field α)) (line : Nat) (acc : α)
        (mask : Nat), loadBlockRun fields r2 line acc mask =
          loadBlockRun fields rest line acc mask := by
  cases e with
  | zero =>
    refine ⟨rest, ?_, fun α fields line acc mask => rfl⟩
    have hmain := keyValue_attr_wn k0 v0 k2 v2 0 rest hk0 hk2 hv0 hv2
    exact hmain
  | succ e2 =>
    refine ⟨List.replicate e2 32 ++ 32 :: rest, ?_, ?_⟩
    · exact keyValue_attr_wn k0 v0 k2 v2 e2 (32 :: rest) hk0 hk2 hv0 hv2
    · intro α fields line acc mask
      rw [loadBlockRun_skipRep, loadBlockRun_skipSp]

/-- An unquoted attribute at end of input. -/
theorem keyValue_attr_wn_eof (k0 v0 : Nat) (k2 v2 : List Nat)
    (hk0 : k0 ≠ 13 ∧ k0 ≠ 10 ∧ k0 ≠ 32 ∧ k0 ≠ 9)
    (hk2 : ∀ b ∈ k2, b ≠ 61 ∧ b ≠ 13 ∧ b ≠ 10 ∧ b ≠ 32 ∧ b ≠ 9)
    (hv0 : v0 ≠ 13 ∧ v0 ≠ 10 ∧ v0 ≠ 32 ∧ v0 ≠ 9 ∧ v0 ≠ 34)
    (hv2 : ∀ b ∈ v2, b ≠ 13 ∧ b ≠ 10 ∧ b ≠ 32 ∧ b ≠ 9) :
    keyValue ((k0 :: k2) ++ 61 :: (v0 :: v2)) =
      Except.ok (some (k0 :: k2, v0 :: v2), []) := by
  obtain ⟨hka, hkb, hkc, hkd⟩ := hk0
  obtain ⟨hva, hvb, hvc, hvd, hve⟩ := hv0
  rw [keyValue_attr_shape k0 v0 k2 _ (by simp [hkc, hkd]) hka hkb hk2
      (by simp [hvc, hvd]) (by simp [hva, hvb]),
    if_neg hve, valueTailWn_word_eof v2 hv2]

/-- A quoted attribute: the closing quote is consumed, the following
bytes are untouched. -/
theorem keyValue_attr_qt (k0 : Nat) (k2 v tail : List Nat)
    (hk0 : k0 ≠ 13 ∧ k0 ≠ 10 ∧ k0 ≠ 32 ∧ k0 ≠ 9)
    (hk2 : ∀ b ∈ k2, b ≠ 61 ∧ b ≠ 13 ∧ b ≠ 10 ∧ b ≠ 32 ∧ b ≠ 9)
    (hv : ∀ b ∈ v, b ≠ 13 ∧ b ≠ 10 ∧ b ≠ 34) :
    keyValue ((k0 :: k2) ++ 61 :: 34 :: (v ++ 34 :: tail)) =
      Except.ok (some (k0 :: k2, v), tail) := by
  obtain ⟨hka, hkb, hkc, hkd⟩ := hk0
  rw [keyValue_attr_shape k0 34 k2 _ (by simp [hkc, hkd]) hka hkb hk2
      (by simp) (by simp),
    if_pos rfl, valueTailQt_word v hv tail]

/-- A recognized, not-yet-seen key assigns its field and sets its bit. -/
theorem applyField_hit {α : Type} (fields : List (Field α)) (line : Option Nat)
    (k v : List Nat) (acc : α) (mask : Nat) (fd : Field α) (a2 : α)
    (hfind : fields.find? (fun f2 => f2.key == k) = some fd)
    (hbit : mask.testBit fd.bit = false)
    (hset : fd.set acc v = some a2) :
    applyField fields line k v acc mask =
      Except.ok (a2, mask ||| 2 ^ fd.bit) := by
  have h1 : applyField fields line k v acc mask =
      if mask.testBit fd.bit then Except.error (.duplicateKey line k)
      else match fd.set acc v with
        | some a3 => Except.ok (a3, mask ||| 2 ^ fd.bit)
        | none => Except.error (.parse line k (bsOf "invalid")) := by
    rw [applyField, hfind]
  rw [h1, hbit, if_neg (by simp), hset]

/-- A recognized key whose duplicate bit is already set fails with
DuplicateKey. -/
theorem applyField_dup {α : Type} (fields : List (Field α)) (line : Option Nat)
    (k v : List Nat) (acc : α) (mask : Nat) (fd : Field α)
    (hfind : fields.find? (fun f2 => f2.key == k) = some fd)
    (hbit : mask.testBit fd.bit = true) :
    applyField fields line k v acc mask =
      Except.error (.duplicateKey line k) := by
  have h1 : applyField fields line k v acc mask =
      if mask.testBit fd.bit then Except.error (.duplicateKey line k)
      else match fd.set acc v with
        | some a3 => Except.ok (a3, mask ||| 2 ^ fd.bit)
        | none => Except.error (.parse line k (bsOf "invalid")) := by
    rw [applyField, hfind]
  rw [h1, hbit, if_pos rfl]

/-- One face attribute of the info table. -/
theorem stepInfoFace (bs rest : List Nat) (line : Nat) (acc : Info)
    (mask : Nat) (v : List Nat) (w : List Nat)
    (hkv : keyValue bs = Except.ok (some (bsOf "face", v), rest))
    (hbit : mask.testBit 0 = false) (hp : pString v = some w) :
    loadBlockRun infoFields bs line acc mask =
      loadBlockRun infoFields rest line { acc with face := w }
        (mask ||| 2 ^ 0) := by
  refine loadBlockRun_step infoFields bs line acc mask _ _ rest _ _ hkv
    (applyField_hit infoFields (some line) (bsOf "face") v acc mask _ _ rfl
      hbit ?_)
  show (pString v).map (fun y => { acc with face := y }) =
    some { acc with face := w }
  rw [hp]
  rfl

/-- One size attribute of the info table. -/
theorem stepInfoSize (bs rest : List Nat) (line : Nat) (acc : Info)
    (mask : Nat) (v : List Nat) (w : Int)
    (hkv : keyValue bs = Except.ok (some (bsOf "size", v), rest))
    (hbit : mask.testBit 1 = false) (hp : parseI16Bytes v = some w) :
    loadBlockRun infoFields bs line acc mask =
      loadBlockRun infoFields rest line { acc with size := w }
        (mask ||| 2 ^ 1) := by
  refine loadBlockRun_step infoFields bs line acc mask _ _ rest _ _ hkv
    (applyField_hit infoFields (some line) (bsOf "size") v acc mask _ _ rfl
      hbit ?_)
  show (parseI16Bytes v).map (fun y => { acc with size := y }) =
    some { acc with size := w }
  rw [hp]
  rfl

/-- One bold attribute of the info table. -/
theorem stepInfoBold (bs rest : List Nat) (line : Nat) (acc : Info)
    (mask : Nat) (v : List Nat) (w : Bool)
    (hkv : keyValue bs = Except.ok (some (bsOf "bold", v), rest))
    (hbit : mask.testBit 2 = false) (hp : parseBoolBytes v = some w) :
    loadBlockRun infoFields bs line acc mask =
      loadBlockRun infoFields rest line { acc with bold := w }
        (mask ||| 2 ^ 2) := by
  refine loadBlockRun_step infoFields bs line acc mask _ _ rest _ _ hkv
    (applyField_hit infoFields (some line) (bsOf "bold") v acc mask _ _ rfl
      hbit ?_)
  show (parseBoolBytes v).map (fun y => { acc with bold := y }) =
    some { acc with bold := w }
  rw [hp]
  rfl

/-- One italic attribute of the info table. -/
theorem stepInfoItalic (bs rest : List Nat) (line : Nat) (acc : Info)
    (mask : Nat) (v : List Nat) (w : Bool)
    (hkv : keyValue bs = Except.ok (some (bsOf "italic", v), rest))
    (hbit : mask.testBit 3 = false) (hp : parseBoolBytes v = some w) :
    loadBlockRun infoFields bs line acc mask =
      loadBlockRun infoFields rest line { acc with italic := w }
        (mask ||| 2 ^ 3) := by
  refine loadBlockRun_step infoFields bs line acc mask _ _ rest _ _ hkv
    (applyField_hit infoFields (some line) (bsOf "italic") v acc mask _ _ rfl
      hbit ?_)
  show (parseBoolBytes v).map (fun y => { acc with italic := y }) =
    some { acc with italic := w }
  rw [hp]
  rfl

/-- One charset attribute of the info table. -/
theorem stepInfoCharset (bs rest : List Nat) (line : Nat) (acc : Info)
    (mask : Nat) (v : List Nat) (w : Charset)
    (hkv : keyValue bs = Except.ok (some (bsOf "charset", v), rest))
    (hbit : mask.testBit 4 = false) (hp : pCharset v = some w) :
    loadBlockRun infoFields bs line acc mask =
      loadBlockRun infoFields rest line { acc with charset := w }
        (mask ||| 2 ^ 4) := by
  refine loadBlockRun_step infoFields bs line acc mask _ _ rest _ _ hkv
    (applyField_hit infoFields (some line) (bsOf "charset") v acc mask _ _ rfl
      hbit ?_)
  show (pCharset v).map (fun y => { acc with charset := y }) =
    some { acc with charset := w }
  rw [hp]
  rfl

/-- One unicode attribute of the info table. -/
theorem stepInfoUnicode (bs rest : List Nat) (line : Nat) (acc : Info)
    (mask : Nat) (v : List Nat) (w : Bool)
    (hkv : keyValue bs = Except.ok (some (bsOf "unicode", v), rest))
    (hbit : mask.testBit 5 = false) (hp : parseBoolBytes v = some w) :
    loadBlockRun infoFields bs line acc mask =
      loadBlockRun infoFields rest line { acc with unicode := w }
        (mask ||| 2 ^ 5) := by
  refine loadBlockRun_step infoFields bs line acc mask _ _ rest _ _ hkv
    (applyField_hit infoFields (some line) (bsOf "unicode") v acc mask _ _ rfl
      hbit ?_)
  show (parseBoolBytes v).map (fun y => { acc with unicode := y }) =
    some { acc with unicode := w }
  rw [hp]
  rfl

/-- One stretchH attribute of the info table. -/
theorem stepInfoStretchH (bs rest : List Nat) (line : Nat) (acc : Info)
    (mask : Nat) (v : List Nat) (w : Nat)
    (hkv : keyValue bs = Except.ok (some (bsOf "stretchH", v), rest))
    (hbit : mask.testBit 6 = false) (hp : pU16 v = some w) :
    loadBlockRun infoFields bs line acc mask =
      loadBlockRun infoFields rest line { acc with stretchH := w }
        (mask ||| 2 ^ 6) := by
  refine loadBlockRun_step infoFields bs line acc mask _ _ rest _ _ hkv
    (applyField_hit infoFields (some line) (bsOf "stretchH") v acc mask _ _ rfl
      hbit ?_)
  show (pU16 v).map (fun y => { acc with stretchH := y }) =
    some { acc with stretchH := w }
  rw [hp]
  rfl

/-- One smooth attribute of the info table. -/
theorem stepInfoSmooth (bs rest : List Nat) (line : Nat) (acc : Info)
    (mask : Nat) (v : List Nat) (w : Bool)
    (hkv : keyValue bs = Except.ok (some (bsOf "smooth", v), rest))
    (hbit : mask.testBit 7 = false) (hp : parseBoolBytes v = some w) :
    loadBlockRun infoFields bs line acc mask =
      loadBlockRun infoFields rest line { acc with smooth := w }
        (mask ||| 2 ^ 7) := by
  refine loadBlockRun_step infoFields bs line acc mask _ _ rest _ _ hkv
    (applyField_hit infoFields (some line) (bsOf "smooth") v acc mask _ _ rfl
      hbit ?_)
  show (parseBoolBytes v).map (fun y => { acc with smooth := y }) =
    some { acc with smooth := w }
  rw [hp]
  rfl

/-- One aa attribute of the info table. -/
theorem stepInfoAa (bs rest : List Nat) (line : Nat) (acc : Info)
    (mask : Nat) (v : List Nat) (w : Nat)
    (hkv : keyValue bs = Except.ok (some (bsOf "aa", v), rest))
    (hbit : mask.testBit 8 = false) (hp : pU8 v = some w) :
    loadBlockRun infoFields bs line acc mask =
      loadBlockRun infoFields rest line { acc with aa := w }
        (mask ||| 2 ^ 8) := by
  refine loadBlockRun_step infoFields bs line acc mask _ _ rest _ _ hkv
    (applyField_hit infoFields (some line) (bsOf "aa") v acc mask _ _ rfl
      hbit ?_)
  show (pU8 v).map (fun y => { acc with aa := y }) =
    some { acc with aa := w }
  rw [hp]
  rfl

/-- One padding attribute of the info table. -/
theorem stepInfoPadding (bs rest : List Nat) (line : Nat) (acc : Info)
    (mask : Nat) (v : List Nat) (w : Padding)
    (hkv : keyValue bs = Except.ok (some (bsOf "padding", v), rest))
    (hbit : mask.testBit 9 = false) (hp : pPadding v = some w) :
    loadBlockRun infoFields bs line acc mask =
      loadBlockRun infoFields rest line { acc with padding := w }
        (mask ||| 2 ^ 9) := by
  refine loadBlockRun_step infoFields bs line acc mask _ _ rest _ _ hkv
    (applyField_hit infoFields (some line) (bsOf "padding") v acc mask _ _ rfl
      hbit ?_)
  show (pPadding v).map (fun y => { acc with padding := y }) =
    some { acc with padding := w }
  rw [hp]
  rfl

/-- One spacing attribute of the info table. -/
theorem stepInfoSpacing (bs rest : List Nat) (line : Nat) (acc : Info)
    (mask : Nat) (v : List Nat) (w : Spacing)
    (hkv : keyValue bs = Except.ok (some (bsOf "spacing", v), rest))
    (hbit : mask.testBit 10 = false) (hp : pSpacing v = some w) :
    loadBlockRun infoFields bs line acc mask =
      loadBlockRun infoFields rest line { acc with spacing := w }
        (mask ||| 2 ^ 10) := by
  refine loadBlockRun_step infoFields bs line acc mask _ _ rest _ _ hkv
    (applyField_hit infoFields (some line) (bsOf "spacing") v acc mask _ _ rfl
      hbit ?_)
  show (pSpacing v).map (fun y => { acc with spacing := y }) =
    some { acc with spacing := w }
  rw [hp]
  rfl

/-- One outline attribute of the info table. -/
theorem stepInfoOutline (bs rest : List Nat) (line : Nat) (acc : Info)
    (mask : Nat) (v : List Nat) (w : Nat)
    (hkv : keyValue bs = Except.ok (some (bsOf "outline", v), rest))
    (hbit : mask.testBit 11 = false) (hp : pU8 v = some w) :
    loadBlockRun infoFields bs line acc mask =
      loadBlockRun infoFields rest line { acc with outline := w }
        (mask ||| 2 ^ 11) := by
  refine loadBlockRun_step infoFields bs line acc mask _ _ rest _ _ hkv
    (applyField_hit infoFields (some line) (bsOf "outline") v acc mask _ _ rfl
      hbit ?_)
  show (pU8 v).map (fun y => { acc with outline := y }) =
    some { acc with outline := w }
  rw [hp]
  rfl

/-- One lineHeight attribute of the common table. -/
theorem stepCommonLineHeight (bs rest : List Nat) (line : Nat) (acc : Common)
    (mask : Nat) (v : List Nat) (w : Nat)
    (hkv : keyValue bs = Except.ok (some (bsOf "lineHeight", v), rest))
    (hbit : mask.testBit 0 = false) (hp : pU16 v = some w) :
    loadBlockRun commonFields bs line acc mask =
      loadBlockRun commonFields rest line { acc with lineHeight := w }
        (mask ||| 2 ^ 0) := by
  refine loadBlockRun_step commonFields bs line acc mask _ _ rest _ _ hkv
    (applyField_hit commonFields (some line) (bsOf "lineHeight") v acc mask _ _ rfl
      hbit ?_)
  show (pU16 v).map (fun y => { acc with lineHeight := y }) =
    some { acc with lineHeight := w }
  rw [hp]
  rfl

/-- One base attribute of the common table. -/
theorem stepCommonBase (bs rest : List Nat) (line : Nat) (acc : Common)
    (mask : Nat) (v : List Nat) (w : Nat)
    (hkv : keyValue bs = Except.ok (some (bsOf "base", v), rest))
    (hbit : mask.testBit 1 = false) (hp : pU16 v = some w) :
    loadBlockRun commonFields bs line acc mask =
      loadBlockRun commonFields rest line { acc with base := w }
        (mask ||| 2 ^ 1) := by
  refine loadBlockRun_step commonFields bs line acc mask _ _ rest _ _ hkv
    (applyField_hit commonFields (some line) (bsOf "base") v acc mask _ _ rfl
      hbit ?_)
  show (pU16 v).map (fun y => { acc with base := y }) =
    some { acc with base := w }
  rw [hp]
  rfl

/-- One scaleW attribute of the common table. -/
theorem stepCommonScaleW (bs rest : List Nat) (line : Nat) (acc : Common)
    (mask : Nat) (v : List Nat) (w : Nat)
    (hkv : keyValue bs = Except.ok (some (bsOf "scaleW", v), rest))
    (hbit : mask.testBit 2 = false) (hp : pU16 v = some w) :
    loadBlockRun commonFields bs line acc mask =
      loadBlockRun commonFields rest line { acc with scaleW := w }
        (mask ||| 2 ^ 2) := by
  refine loadBlockRun_step commonFields bs line acc mask _ _ rest _ _ hkv
    (applyField_hit commonFields (some line) (bsOf "scaleW") v acc mask _ _ rfl
      hbit ?_)
  show (pU16 v).map (fun y => { acc with scaleW := y }) =
    some { acc with scaleW := w }
  rw [hp]
  rfl

/-- One scaleH attribute of the common table. -/
theorem stepCommonScaleH (bs rest : List Nat) (line : Nat) (acc : Common)
    (mask : Nat) (v : List Nat) (w : Nat)
    (hkv : keyValue bs = Except.ok (some (bsOf "scaleH", v), rest))
    (hbit : mask.testBit 3 = false) (hp : pU16 v = some w) :
    loadBlockRun commonFields bs line acc mask =
      loadBlockRun commonFields rest line { acc with scaleH := w }
        (mask ||| 2 ^ 3) := by
  refine loadBlockRun_step commonFields bs line acc mask _ _ rest _ _ hkv
    (applyField_hit commonFields (some line) (bsOf "scaleH") v acc mask _ _ rfl
      hbit ?_)
  show (pU16 v).map (fun y => { acc with scaleH := y }) =
    some { acc with scaleH := w }
  rw [hp]
  rfl

/-- One pages attribute of the common table. -/
theorem stepCommonPages (bs rest : List Nat) (line : Nat) (acc : Common)
    (mask : Nat) (v : List Nat) (w : Nat)
    (hkv : keyValue bs = Except.ok (some (bsOf "pages", v), rest))
    (hbit : mask.testBit 4 = false) (hp : pU16 v = some w) :
    loadBlockRun commonFields bs line acc mask =
      loadBlockRun commonFields rest line { acc with pages := w }
        (mask ||| 2 ^ 4) := by
  refine loadBlockRun_step commonFields bs line acc mask _ _ rest _ _ hkv
    (applyField_hit commonFields (some line) (bsOf "pages") v acc mask _ _ rfl
      hbit ?_)
  show (pU16 v).map (fun y => { acc with pages := y }) =
    some { acc with pages := w }
  rw [hp]
  rfl

/-- One packed attribute of the common table. -/
theorem stepCommonPacked (bs rest : List Nat) (line : Nat) (acc : Common)
    (mask : Nat) (v : List Nat) (w : Bool)
    (hkv : keyValue bs = Except.ok (some (bsOf "packed", v), rest))
    (hbit : mask.testBit 5 = false) (hp : parseBoolBytes v = some w) :
    loadBlockRun commonFields bs line acc mask =
      loadBlockRun commonFields rest line { acc with packed := w }
        (mask ||| 2 ^ 5) := by
  refine loadBlockRun_step commonFields bs line acc mask _ _ rest _ _ hkv
    (applyField_hit commonFields (some line) (bsOf "packed") v acc mask _ _ rfl
      hbit ?_)
  show (parseBoolBytes v).map (fun y => { acc with packed := y }) =
    some { acc with packed := w }
  rw [hp]
  rfl

/-- One alphaChnl attribute of the common table. -/
theorem stepCommonAlphaChnl (bs rest : List Nat) (line : Nat) (acc : Common)
    (mask : Nat) (v : List Nat) (w : Packing)
    (hkv : keyValue bs = Except.ok (some (bsOf "alphaChnl", v), rest))
    (hbit : mask.testBit 6 = false) (hp : pPacking v = some w) :
    loadBlockRun commonFields bs line acc mask =
      loadBlockRun commonFields rest line { acc with alphaChnl := w }
        (mask ||| 2 ^ 6) := by
  refine loadBlockRun_step commonFields bs line acc mask _ _ rest _ _ hkv
    (applyField_hit commonFields (some line) (bsOf "alphaChnl") v acc mask _ _ rfl
      hbit ?_)
  show (pPacking v).map (fun y => { acc with alphaChnl := y }) =
    some { acc with alphaChnl := w }
  rw [hp]
  rfl

/-- One redChnl attribute of the common table. -/
theorem stepCommonRedChnl (bs rest : List Nat) (line : Nat) (acc : Common)
    (mask : Nat) (v : List Nat) (w : Packing)
    (hkv : keyValue bs = Except.ok (some (bsOf "redChnl", v), rest))
    (hbit : mask.testBit 7 = false) (hp : pPacking v = some w) :
    loadBlockRun commonFields bs line acc mask =
      loadBlockRun commonFields rest line { acc with redChnl := w }
        (mask ||| 2 ^ 7) := by
  refine loadBlockRun_step commonFields bs line acc mask _ _ rest _ _ hkv
    (applyField_hit commonFields (some line) (bsOf "redChnl") v acc mask _ _ rfl
      hbit ?_)
  show (pPacking v).map (fun y => { acc with redChnl := y }) =
    some { acc with redChnl := w }
  rw [hp]
  rfl

/-- One greenChnl attribute of the common table. -/
theorem stepCommonGreenChnl (bs rest : List Nat) (line : Nat) (acc : Common)
    (mask : Nat) (v : List Nat) (w : Packing)
    (hkv : keyValue bs = Except.ok (some (bsOf "greenChnl", v), rest))
    (hbit : mask.testBit 8 = false) (hp : pPacking v = some w) :
    loadBlockRun commonFields bs line acc mask =
      loadBlockRun commonFields rest line { acc with greenChnl := w }
        (mask ||| 2 ^ 8) := by
  refine loadBlockRun_step commonFields bs line acc mask _ _ rest _ _ hkv
    (applyField_hit commonFields (some line) (bsOf "greenChnl") v acc mask _ _ rfl
      hbit ?_)
  show (pPacking v).map (fun y => { acc with greenChnl := y }) =
    some { acc with greenChnl := w }
  rw [hp]
  rfl

/-- One blueChnl attribute of the common table. -/
theorem stepCommonBlueChnl (bs rest : List Nat) (line : Nat) (acc : Common)
    (mask : Nat) (v : List Nat) (w : Packing)
    (hkv : keyValue bs = Except.ok (some (bsOf "blueChnl", v), rest))
    (hbit : mask.testBit 9 = false) (hp : pPacking v = some w) :
    loadBlockRun commonFields bs line acc mask =
      loadBlockRun commonFields rest line { acc with blueChnl := w }
        (mask ||| 2 ^ 9) := by
  refine loadBlockRun_step commonFields bs line acc mask _ _ rest _ _ hkv
    (applyField_hit commonFields (some line) (bsOf "blueChnl") v acc mask _ _ rfl
      hbit ?_)
  show (pPacking v).map (fun y => { acc with blueChnl := y }) =
    some { acc with blueChnl := w }
  rw [hp]
  rfl

/-- One count attribute of the count table. -/
theorem stepCountCount (bs rest : List Nat) (line : Nat) (acc : Count)
    (mask : Nat) (v : List Nat) (w : Nat)
    (hkv : keyValue bs = Except.ok (some (bsOf "count", v), rest))
    (hbit : mask.testBit 0 = false) (hp : pU32 v = some w) :
    loadBlockRun countFields bs line acc mask =
      loadBlockRun countFields rest line { acc with count := w }
        (mask ||| 2 ^ 0) := by
  refine loadBlockRun_step countFields bs line acc mask _ _ rest _ _ hkv
    (applyField_hit countFields (some line) (bsOf "count") v acc mask _ _ rfl
      hbit ?_)
  show (pU32 v).map (fun y => { acc with count := y }) =
    some { acc with count := w }
  rw [hp]
  rfl

/-- One id attribute of the char table. -/
theorem stepCharId (bs rest : List Nat) (line : Nat) (acc : Char)
    (mask : Nat) (v : List Nat) (w : Nat)
    (hkv : keyValue bs = Except.ok (some (bsOf "id", v), rest))
    (hbit : mask.testBit 0 = false) (hp : pU32 v = some w) :
    loadBlockRun charFields bs line acc mask =
      loadBlockRun charFields rest line { acc with id := w }
        (mask ||| 2 ^ 0) := by
  refine loadBlockRun_step charFields bs line acc mask _ _ rest _ _ hkv
    (applyField_hit charFields (some line) (bsOf "id") v acc mask _ _ rfl
      hbit ?_)
  show (pU32 v).map (fun y => { acc with id := y }) =
    some { acc with id := w }
  rw [hp]
  rfl

/-- One x attribute of the char table. -/
theorem stepCharX (bs rest : List Nat) (line : Nat) (acc : Char)
    (mask : Nat) (v : List Nat) (w : Nat)
    (hkv : keyValue bs = Except.ok (some (bsOf "x", v), rest))
    (hbit : mask.testBit 1 = false) (hp : pU16 v = some w) :
    loadBlockRun charFields bs line acc mask =
      loadBlockRun charFields rest line { acc with x := w }
        (mask ||| 2 ^ 1) := by
  refine loadBlockRun_step charFields bs line acc mask _ _ rest _ _ hkv
    (applyField_hit charFields (some line) (bsOf "x") v acc mask _ _ rfl
      hbit ?_)
  show (pU16 v).map (fun y => { acc with x := y }) =
    some { acc with x := w }
  rw [hp]
  rfl

/-- One y attribute of the char table. -/
theorem stepCharY (bs rest : List Nat) (line : Nat) (acc : Char)
    (mask : Nat) (v : List Nat) (w : Nat)
    (hkv : keyValue bs = Except.ok (some (bsOf "y", v), rest))
    (hbit : mask.testBit 2 = false) (hp : pU16 v = some w) :
    loadBlockRun charFields bs line acc mask =
      loadBlockRun charFields rest line { acc with y := w }
        (mask ||| 2 ^ 2) := by
  refine loadBlockRun_step charFields bs line acc mask _ _ rest _ _ hkv
    (applyField_hit charFields (some line) (bsOf "y") v acc mask _ _ rfl
      hbit ?_)
  show (pU16 v).map (fun y => { acc with y := y }) =
    some { acc with y := w }
  rw [hp]
  rfl

/-- One width attribute of the char table. -/
theorem stepCharWidth (bs rest : List Nat) (line : Nat) (acc : Char)
    (mask : Nat) (v : List Nat) (w : Nat)
    (hkv : keyValue bs = Except.ok (some (bsOf "width", v), rest))
    (hbit : mask.testBit 3 = false) (hp : pU16 v = some w) :
    loadBlockRun charFields bs line acc mask =
      loadBlockRun charFields rest line { acc with width := w }
        (mask ||| 2 ^ 3) := by
  refine loadBlockRun_step charFields bs line acc mask _ _ rest _ _ hkv
    (applyField_hit charFields (some line) (bsOf "width") v acc mask _ _ rfl
      hbit ?_)
  show (pU16 v).map (fun y => { acc with width := y }) =
    some { acc with width := w }
  rw [hp]
  rfl

/-- One height attribute of the char table. -/
theorem stepCharHeight (bs rest : List Nat) (line : Nat) (acc : Char)
    (mask : Nat) (v : List Nat) (w : Nat)
    (hkv : keyValue bs = Except.ok (some (bsOf "height", v), rest))
    (hbit : mask.testBit 4 = false) (hp : pU16 v = some w) :
    loadBlockRun charFields bs line acc mask =
      loadBlockRun charFields rest line { acc with height := w }
        (mask ||| 2 ^ 4) := by
  refine loadBlockRun_step charFields bs line acc mask _ _ rest _ _ hkv
    (applyField_hit charFields (some line) (bsOf "height") v acc mask _ _ rfl
      hbit ?_)
  show (pU16 v).map (fun y => { acc with height := y }) =
    some { acc with height := w }
  rw [hp]
  rfl

/-- One xoffset attribute of the char table. -/
theorem stepCharXoffset (bs rest : List Nat) (line : Nat) (acc : Char)
    (mask : Nat) (v : List Nat) (w : Int)
    (hkv : keyValue bs = Except.ok (some (bsOf "xoffset", v), rest))
    (hbit : mask.testBit 5 = false) (hp : parseI16Bytes v = some w) :
    loadBlockRun charFields bs line acc mask =
      loadBlockRun charFields rest line { acc with xoffset := w }
        (mask ||| 2 ^ 5) := by
  refine loadBlockRun_step charFields bs line acc mask _ _ rest _ _ hkv
    (applyField_hit charFields (some line) (bsOf "xoffset") v acc mask _ _ rfl
      hbit ?_)
  show (parseI16Bytes v).map (fun y => { acc with xoffset := y }) =
    some { acc with xoffset := w }
  rw [hp]
  rfl

/-- One yoffset attribute of the char table. -/
theorem stepCharYoffset (bs rest : List Nat) (line : Nat) (acc : Char)
    (mask : Nat) (v : List Nat) (w : Int)
    (hkv : keyValue bs = Except.ok (some (bsOf "yoffset", v), rest))
    (hbit : mask.testBit 6 = false) (hp : parseI16Bytes v = some w) :
    loadBlockRun charFields bs line acc mask =
      loadBlockRun charFields rest line { acc with yoffset := w }
        (mask ||| 2 ^ 6) := by
  refine loadBlockRun_step charFields bs line acc mask _ _ rest _ _ hkv
    (applyField_hit charFields (some line) (bsOf "yoffset") v acc mask _ _ rfl
      hbit ?_)
  show (parseI16Bytes v).map (fun y => { acc with yoffset := y }) =
    some { acc with yoffset := w }
  rw [hp]
  rfl

/-- One xadvance attribute of the char table. -/
theorem stepCharXadvance (bs rest : List Nat) (line : Nat) (acc : Char)
    (mask : Nat) (v : List Nat) (w : Int)
    (hkv : keyValue bs = Except.ok (some (bsOf "xadvance", v), rest))
    (hbit : mask.testBit 8 = false) (hp : parseI16Bytes v = some w) :
    loadBlockRun charFields bs line acc mask =
      loadBlockRun charFields rest line { acc with xadvance := w }
        (mask ||| 2 ^ 8) := by
  refine loadBlockRun_step charFields bs line acc mask _ _ rest _ _ hkv
    (applyField_hit charFields (some line) (bsOf "xadvance") v acc mask _ _ rfl
      hbit ?_)
  show (parseI16Bytes v).map (fun y => { acc with xadvance := y }) =
    some { acc with xadvance := w }
  rw [hp]
  rfl

/-- One page attribute of the char table. -/
theorem stepCharPage (bs rest : List Nat) (line : Nat) (acc : Char)
    (mask : Nat) (v : List Nat) (w : Nat)
    (hkv : keyValue bs = Except.ok (some (bsOf "page", v), rest))
    (hbit : mask.testBit 9 = false) (hp : pU8 v = some w) :
    loadBlockRun charFields bs line acc mask =
      loadBlockRun charFields rest line { acc with page := w }
        (mask ||| 2 ^ 9) := by
  refine loadBlockRun_step charFields bs line acc mask _ _ rest _ _ hkv
    (applyField_hit charFields (some line) (bsOf "page") v acc mask _ _ rfl
      hbit ?_)
  show (pU8 v).map (fun y => { acc with page := y }) =
    some { acc with page := w }
  rw [hp]
  rfl

/-- One chnl attribute of the char table. -/
theorem stepCharChnl (bs rest : List Nat) (line : Nat) (acc : Char)
    (mask : Nat) (v : List Nat) (w : Nat)
    (hkv : keyValue bs = Except.ok (some (bsOf "chnl", v), rest))
    (hbit : mask.testBit 10 = false) (hp : pChnl v = some w) :
    loadBlockRun charFields bs line acc mask =
      loadBlockRun charFields rest line { acc with chnl := w }
        (mask ||| 2 ^ 10) := by
  refine loadBlockRun_step charFields bs line acc mask _ _ rest _ _ hkv
    (applyField_hit charFields (some line) (bsOf "chnl") v acc mask _ _ rfl
      hbit ?_)
  show (pChnl v).map (fun y => { acc with chnl := y }) =
    some { acc with chnl := w }
  rw [hp]
  rfl

/-- One first attribute of the kerning table. -/
theorem stepKerningFirst (bs rest : List Nat) (line : Nat) (acc : Kerning)
    (mask : Nat) (v : List Nat) (w : Nat)
    (hkv : keyValue bs = Except.ok (some (bsOf "first", v), rest))
    (hbit : mask.testBit 0 = false) (hp : pU32 v = some w) :
    loadBlockRun kerningFields bs line acc mask =
      loadBlockRun kerningFields rest line { acc with first := w }
        (mask ||| 2 ^ 0) := by
  refine loadBlockRun_step kerningFields bs line acc mask _ _ rest _ _ hkv
    (applyField_hit kerningFields (some line) (bsOf "first") v acc mask _ _ rfl
      hbit ?_)
  show (pU32 v).map (fun y => { acc with first := y }) =
    some { acc with first := w }
  rw [hp]
  rfl

/-- One second attribute of the kerning table. -/
theorem stepKerningSecond (bs rest : List Nat) (line : Nat) (acc : Kerning)
    (mask : Nat) (v : List Nat) (w : Nat)
    (hkv : keyValue bs = Except.ok (some (bsOf "second", v), rest))
    (hbit : mask.testBit 1 = false) (hp : pU32 v = some w) :
    loadBlockRun kerningFields bs line acc mask =
      loadBlockRun kerningFields rest line { acc with second := w }
        (mask ||| 2 ^ 1) := by
  refine loadBlockRun_step kerningFields bs line acc mask _ _ rest _ _ hkv
    (applyField_hit kerningFields (some line) (bsOf "second") v acc mask _ _ rfl
      hbit ?_)
  show (pU32 v).map (fun y => { acc with second := y }) =
    some { acc with second := w }
  rw [hp]
  rfl

/-- One amount attribute of the kerning table. -/
theorem stepKerningAmount (bs rest : List Nat) (line : Nat) (acc : Kerning)
    (mask : Nat) (v : List Nat) (w : Int)
    (hkv : keyValue bs = Except.ok (some (bsOf "amount", v), rest))
    (hbit : mask.testBit 2 = false) (hp : parseI16Bytes v = some w) :
    loadBlockRun kerningFields bs line acc mask =
      loadBlockRun kerningFields rest line { acc with amount := w }
        (mask ||| 2 ^ 2) := by
  refine loadBlockRun_step kerningFields bs line acc mask _ _ rest _ _ hkv
    (applyField_hit kerningFields (some line) (bsOf "amount") v acc mask _ _ rfl
      hbit ?_)
  show (parseI16Bytes v).map (fun y => { acc with amount := y }) =
    some { acc with amount := w }
  rw [hp]
  rfl

/-- One id attribute of the page table. -/
theorem stepPageId (bs rest : List Nat) (line : Nat) (acc : Page)
    (mask : Nat) (v : List Nat) (w : Nat)
    (hkv : keyValue bs = Except.ok (some (bsOf "id", v), rest))
    (hbit : mask.testBit 0 = false) (hp : pU16 v = some w) :
    loadBlockRun pageFields bs line acc mask =
      loadBlockRun pageFields rest line { acc with id := w }
        (mask ||| 2 ^ 0) := by
  refine loadBlockRun_step pageFields bs line acc mask _ _ rest _ _ hkv
    (applyField_hit pageFields (some line) (bsOf "id") v acc mask _ _ rfl
      hbit ?_)
  show (pU16 v).map (fun y => { acc with id := y }) =
    some { acc with id := w }
  rw [hp]
  rfl

/-- One file attribute of the page table. -/
theorem stepPageFile (bs rest : List Nat) (line : Nat) (acc : Page)
    (mask : Nat) (v : List Nat) (w : List Nat)
    (hkv : keyValue bs = Except.ok (some (bsOf "file", v), rest))
    (hbit : mask.testBit 1 = false) (hp : pString v = some w) :
    loadBlockRun pageFields bs line acc mask =
      loadBlockRun pageFields rest line { acc with file := w }
        (mask ||| 2 ^ 1) := by
  refine loadBlockRun_step pageFields bs line acc mask _ _ rest _ _ hkv
    (applyField_hit pageFields (some line) (bsOf "file") v acc mask _ _ rfl
      hbit ?_)
  show (pString v).map (fun y => { acc with file := y }) =
    some { acc with file := w }
  rw [hp]
  rfl

/-- Rendered decimal digits avoid every tokenizer-special byte. -/
theorem renderNat_bytes (n : Nat) : ∀ b ∈ renderNat n,
    b ≠ 13 ∧ b ≠ 10 ∧ b ≠ 32 ∧ b ≠ 9 ∧ b ≠ 34 := by
  intro b hb
  have h := renderNat_digits n b hb
  simp only [isDigit, Bool.and_eq_true, decide_eq_true_eq] at h
  omega

/-- Rendered integers avoid every tokenizer-special byte. -/
theorem renderInt_bytes (i : Int) : ∀ b ∈ renderInt i,
    b ≠ 13 ∧ b ≠ 10 ∧ b ≠ 32 ∧ b ≠ 9 ∧ b ≠ 34 := by
  intro b hb
  rw [renderInt] at hb
  by_cases hneg : i < 0
  · rw [if_pos hneg] at hb
    rcases List.mem_cons.mp hb with rfl | hb2
    · omega
    · exact renderNat_bytes _ b hb2
  · rw [if_neg hneg] at hb
    exact renderNat_bytes _ b hb

/-- Rendered booleans avoid every tokenizer-special byte. -/
theorem renderBool_bytes (x : Bool) : ∀ b ∈ renderBool x,
    b ≠ 13 ∧ b ≠ 10 ∧ b ≠ 32 ∧ b ≠ 9 ∧ b ≠ 34 := by
  cases x <;> decide

/-- A rendered integer is never empty. -/
theorem renderInt_ne_nil (i : Int) : renderInt i ≠ [] := by
  rw [renderInt]
  by_cases hneg : i < 0
  · rw [if_pos hneg]
    simp
  · rw [if_neg hneg]
    exact renderNat_ne_nil _

/-- A rendered boolean is never empty. -/
theorem renderBool_ne_nil (x : Bool) : renderBool x ≠ [] := by
  cases x <;> decide

/-- Strings passing the export value check contain no CR, LF or quote. -/
theorem checkValueOk_bytes (s : List Nat) (h : checkValueOk s = true) :
    ∀ b ∈ s, b ≠ 13 ∧ b ≠ 10 ∧ b ≠ 34 := by
  intro b hb
  have h2 := List.all_eq_true.mp h b hb
  simp only [Bool.and_eq_true, decide_eq_true_eq] at h2
  omega

/-- ASCII-only byte lists are valid UTF-8. -/
theorem utf8Valid_ascii : ∀ (l : List Nat), (∀ b ∈ l, b ≤ 127) →
    utf8Valid l = true := by
  intro l
  induction l with
  | nil => intro h; rfl
  | cons b r ih =>
    intro h
    rw [utf8Valid, List.length_cons, utf8ValidGo, if_pos (h b (by simp))]
    rw [utf8Valid] at ih
    exact ih (fun x hx => h x (by simp [hx]))

/-- The comma split reads one comma-free chunk per separator. -/
theorem splitCommaGo_chunk : ∀ (cch : List Nat), (∀ b ∈ cch, b ≠ 44) →
    ∀ acc r, splitCommaGo (cch ++ 44 :: r) acc =
      (acc.reverse ++ cch) :: splitCommaGo r [] := by
  intro cch
  induction cch with
  | nil =>
    intro hc acc r
    rw [List.nil_append, splitCommaGo, if_pos rfl]
    simp
  | cons b c2 ih =>
    intro hc acc r
    rw [List.cons_append, splitCommaGo, if_neg (hc b (by simp)),
      ih (fun x hx => hc x (by simp [hx])) (b :: acc) r]
    simp

/-- The comma split reads a trailing comma-free chunk. -/
theorem splitCommaGo_last : ∀ (cch : List Nat), cch ≠ [] →
    (∀ b ∈ cch, b ≠ 44) → ∀ acc,
    splitCommaGo cch acc = [acc.reverse ++ cch] := by
  intro cch
  induction cch with
  | nil => intro h; exact absurd rfl h
  | cons b c2 ih =>
    intro _ hc acc
    rw [splitCommaGo, if_neg (hc b (by simp))]
    cases c2 with
    | nil =>
      rw [splitCommaGo, if_neg (by simp)]
      simp
    | cons c3 c4 =>
      rw [ih (by simp) (fun x hx => hc x (by simp [hx])) (b :: acc)]
      simp

/-- The left trim is the identity on whitespace-free input. -/
theorem trimLeftWs_no (l : List Nat)
    (h : ∀ b ∈ l, ¬(b = 32 ∨ b = 9 ∨ b = 10 ∨ b = 13 ∨ b = 11 ∨ b = 12)) :
    trimLeftWs l = l := by
  cases l with
  | nil => rfl
  | cons b r => rw [trimLeftWs, if_neg (h b (by simp))]

/-- The trim is the identity on whitespace-free input. -/
theorem trimWs_no (l : List Nat)
    (h : ∀ b ∈ l, ¬(b = 32 ∨ b = 9 ∨ b = 10 ∨ b = 13 ∨ b = 11 ∨ b = 12)) :
    trimWs l = l := by
  rw [trimWs, trimLeftWs_no l h,
    trimLeftWs_no l.reverse (fun b hb => h b (List.mem_reverse.mp hb))]
  simp

/-- Rendered digits are whitespace-free. -/
theorem renderNat_no_ws (n : Nat) : ∀ b ∈ renderNat n,
    ¬(b = 32 ∨ b = 9 ∨ b = 10 ∨ b = 13 ∨ b = 11 ∨ b = 12) := by
  intro b hb
  have h := renderNat_digits n b hb
  simp only [isDigit, Bool.and_eq_true, decide_eq_true_eq] at h
  omega

/-- Rendered digits are ASCII. -/
theorem renderNat_ascii (n : Nat) : ∀ b ∈ renderNat n, b ≤ 127 := by
  intro b hb
  have h := renderNat_digits n b hb
  simp only [isDigit, Bool.and_eq_true, decide_eq_true_eq] at h
  omega

/-- The u8 field parse inverts decimal rendering. -/
theorem pU8_render (n : Nat) (h : n < 256) : pU8 (renderNat n) = some n := by
  rw [pU8, parseUInt_renderNat 255 n (by omega)]

/-- The u16 field parse inverts decimal rendering. -/
theorem pU16_render (n : Nat) (h : n < 65536) :
    pU16 (renderNat n) = some n := by
  rw [pU16, parseUInt_renderNat 65535 n (by omega)]

/-- The u32 field parse inverts decimal rendering. -/
theorem pU32_render (n : Nat) (h : n < 4294967296) :
    pU32 (renderNat n) = some n := by
  rw [pU32, parseUInt_renderNat 4294967295 n (by omega)]

/-- The chnl field parse inverts decimal rendering below 16. -/
theorem pChnl_render (n : Nat) (h : n < 16) :
    pChnl (renderNat n) = some n := by
  rw [pChnl, parseUInt_renderNat 255 n (by omega)]
  simp [h]

/-- The packing field parse inverts rendering of the packing byte. -/
theorem pPacking_render (p : Packing) :
    pPacking (renderNat p.toU8) = some p := by
  have h255 : p.toU8 ≤ 255 := by cases p <;> decide
  rw [pPacking, parseUInt_renderNat 255 p.toU8 h255]
  simp [tryFromU8_toU8]

/-- The charset field parse inverts charset rendering for Null and
in-range Tagged charsets. -/
theorem pCharset_render (cs : Charset) (h1 : charsetValid cs = true)
    (h2 : ∀ s, cs ≠ Charset.undefined s) :
    pCharset (charsetRender cs) = some cs := by
  cases cs with
  | null => decide
  | tagged u =>
    have hu : u < 256 := by simpa [charsetValid] using h1
    have hall : ∀ u2, u2 < 256 →
        pCharset (charsetRender (Charset.tagged u2)) =
          some (Charset.tagged u2) := by decide
    exact hall u hu
  | undefined s => exact absurd rfl (h2 s)

/-- Rendered Null and in-range Tagged charsets contain no CR, LF or
quote. -/
theorem charsetRender_bytes (cs : Charset) (h1 : charsetValid cs = true)
    (h2 : ∀ s, cs ≠ Charset.undefined s) :
    ∀ b ∈ charsetRender cs, b ≠ 13 ∧ b ≠ 10 ∧ b ≠ 34 := by
  cases cs with
  | null => simp [charsetRender]
  | tagged u =>
    have hu : u < 256 := by simpa [charsetValid] using h1
    have hall : ∀ u2, u2 < 256 → ∀ b ∈ charsetRender (Charset.tagged u2),
        b ≠ 13 ∧ b ≠ 10 ∧ b ≠ 34 := by decide
    exact hall u hu
  | undefined s => exact absurd rfl (h2 s)

/-- The padding parse inverts the four-value comma rendering. -/
theorem pPadding_render (a b c d : Nat) (ha : a < 256) (hb : b < 256)
    (hc : c < 256) (hd : d < 256) :
    pPadding (renderNat a ++ (44 :: (renderNat b ++ (44 ::
      (renderNat c ++ (44 :: renderNat d)))))) = some ⟨a, b, c, d⟩ := by
  rw [pPadding]
  rw [if_pos (utf8Valid_ascii _ ?hascii)]
  case hascii =>
    intro x hx
    simp only [List.mem_append, List.mem_cons] at hx
    rcases hx with h | h | h | h | h | h | h
    · exact renderNat_ascii a x h
    · omega
    · exact renderNat_ascii b x h
    · omega
    · exact renderNat_ascii c x h
    · omega
    · exact renderNat_ascii d x h
  have hnc : ∀ (n : Nat), ∀ x ∈ renderNat n, x ≠ 44 := by
    intro n x hx
    have h := renderNat_digits n x hx
    simp only [isDigit, Bool.and_eq_true, decide_eq_true_eq] at h
    omega
  rw [splitComma, splitCommaGo_chunk (renderNat a) (hnc a) [],
    splitCommaGo_chunk (renderNat b) (hnc b) [],
    splitCommaGo_chunk (renderNat c) (hnc c) [],
    splitCommaGo_last (renderNat d) (renderNat_ne_nil d) (hnc d) []]
  simp only [List.reverse_nil, List.nil_append]
  rw [trimWs_no _ (renderNat_no_ws a), trimWs_no _ (renderNat_no_ws b),
    trimWs_no _ (renderNat_no_ws c), trimWs_no _ (renderNat_no_ws d),
    pU8_render a ha, pU8_render b hb, pU8_render c hc, pU8_render d hd]

/-- The spacing parse inverts the two-value comma rendering. -/
theorem pSpacing_render (a b : Nat) (ha : a < 256) (hb : b < 256) :
    pSpacing (renderNat a ++ (44 :: renderNat b)) = some ⟨a, b⟩ := by
  rw [pSpacing]
  rw [if_pos (utf8Valid_ascii _ ?hascii)]
  case hascii =>
    intro x hx
    simp only [List.mem_append, List.mem_cons] at hx
    rcases hx with h | h | h
    · exact renderNat_ascii a x h
    · omega
    · exact renderNat_ascii b x h
  have hnc : ∀ (n : Nat), ∀ x ∈ renderNat n, x ≠ 44 := by
    intro n x hx
    have h := renderNat_digits n x hx
    simp only [isDigit, Bool.and_eq_true, decide_eq_true_eq] at h
    omega
  rw [splitComma, splitCommaGo_chunk (renderNat a) (hnc a) [],
    splitCommaGo_last (renderNat b) (renderNat_ne_nil b) (hnc b) []]
  simp only [List.reverse_nil, List.nil_append]
  rw [trimWs_no _ (renderNat_no_ws a), trimWs_no _ (renderNat_no_ws b),
    pU8_render a ha, pU8_render b hb]

/-- A successful tag step never grows the remaining input. -/
theorem textStep_le (t rest : List Nat) (line : Nat) (st : FontBuilder)
    (st2 : FontBuilder) (rest2 : List Nat)
    (h : textStep t rest line st = Except.ok (st2, rest2)) :
    rest2.length ≤ rest.length := by
  rw [textStep] at h
  split at h
  case isTrue =>
    split at h
    case h_1 => exact absurd h (by simp)
    case h_2 x r2 hlb =>
      split at h
      case h_1 => exact absurd h (by simp)
      case h_2 st3 hF =>
        injection h with h2
        injection h2 with h3 h4
        subst h4
        rw [loadBlock] at hlb
        exact loadBlockGo_le _ _ _ _ _ _ _ _ hlb
  case isFalse =>
    split at h
    case isTrue =>
      split at h
      case h_1 => exact absurd h (by simp)
      case h_2 x r2 hlb =>
        split at h
        case h_1 => exact absurd h (by simp)
        case h_2 st3 hF =>
          injection h with h2
          injection h2 with h3 h4
          subst h4
          rw [loadBlock] at hlb
          exact loadBlockGo_le _ _ _ _ _ _ _ _ hlb
    case isFalse =>
      split at h
      case isTrue =>
        split at h
        case h_1 => exact absurd h (by simp)
        case h_2 x r2 hlb =>
          split at h
          case h_1 => exact absurd h (by simp)
          case h_2 st3 hF =>
            injection h with h2
            injection h2 with h3 h4
            subst h4
            rw [loadBlock] at hlb
            exact loadBlockGo_le _ _ _ _ _ _ _ _ hlb
      case isFalse =>
        split at h
        case isTrue =>
          split at h
          case h_1 => exact absurd h (by simp)
          case h_2 x r2 hlb =>
            split at h
            case h_1 => exact absurd h (by simp)
            case h_2 st3 hF =>
              injection h with h2
              injection h2 with h3 h4
              subst h4
              rw [loadBlock] at hlb
              exact loadBlockGo_le _ _ _ _ _ _ _ _ hlb
        case isFalse =>
          split at h
          case isTrue =>
            split at h
            case h_1 => exact absurd h (by simp)
            case h_2 x r2 hlb =>
              split at h
              case h_1 => exact absurd h (by simp)
              case h_2 st3 hF =>
                injection h with h2
                injection h2 with h3 h4
                subst h4
                rw [loadBlock] at hlb
                exact loadBlockGo_le _ _ _ _ _ _ _ _ hlb
          case isFalse =>
            split at h
            case isTrue =>
              split at h
              case h_1 => exact absurd h (by simp)
              case h_2 x r2 hlb =>
                split at h
                case h_1 => exact absurd h (by simp)
                case h_2 st3 hF =>
                  injection h with h2
                  injection h2 with h3 h4
                  subst h4
                  rw [loadBlock] at hlb
                  exact loadBlockGo_le _ _ _ _ _ _ _ _ hlb
            case isFalse =>
              split at h
              case isTrue =>
                split at h
                case h_1 => exact absurd h (by simp)
                case h_2 x r2 hlb =>
                  split at h
                  case h_1 => exact absurd h (by simp)
                  case h_2 st3 hF =>
                    injection h with h2
                    injection h2 with h3 h4
                    subst h4
                    rw [loadBlock] at hlb
                    exact loadBlockGo_le _ _ _ _ _ _ _ _ hlb
              case isFalse =>
                split at h
                case isTrue => exact absurd h (by simp)
                case isFalse => exact absurd h (by simp)

/-- A parsed tag strictly consumes input. -/
theorem nextTag_some_lt : ∀ n bs line t rest l2, bs.length ≤ n →
    nextTag bs line = Except.ok (some t, rest, l2) →
    rest.length < bs.length := by
  intro n
  induction n with
  | zero =>
    intro bs line t rest l2 hn h
    have hb : bs = [] := List.eq_nil_of_length_eq_zero (Nat.le_zero.mp hn)
    subst hb
    exact absurd h (by simp [nextTag])
  | succ m ih =>
    intro bs line t rest l2 hn h
    cases bs with
    | nil => exact absurd h (by simp [nextTag])
    | cons b r =>
      rw [nextTag.eq_def] at h
      simp only [] at h
      split at h
      · have h5 := ih _ line t rest l2 (by
          simp only [List.length_cons] at hn
          omega) h
        simp only [List.length_cons]
        omega
      · split at h
        · split at h
          · have h5 := ih _ (line + 1) t rest l2 (by
              simp only [List.length_cons] at hn
              omega) h
            simp only [List.length_cons]
            omega
          · exact absurd h (by simp)
        · split at h
          · have h5 := ih _ (line + 1) t rest l2 (by
              simp only [List.length_cons] at hn
              omega) h
            simp only [List.length_cons]
            omega
          · split at h
            · exact absurd h (by simp)
            · rename_i t2 rest3 hvt
              injection h with h2
              injection h2 with h3 h4
              injection h4 with h5 h6
              subst h5
              have h7 := valueTailWn_le r t2 rest3 hvt
              simp only [List.length_cons]
              omega

/-- A parsed tag strictly consumes input (canonical bound). -/
theorem nextTag_some_len (bs : List Nat) (line : Nat) (t rest : List Nat)
    (l2 : Nat) (h : nextTag bs line = Except.ok (some t, rest, l2)) :
    rest.length < bs.length :=
  nextTag_some_lt bs.length bs line t rest l2 (Nat.le_refl _) h

/-- The tag loop's result does not depend on the fuel, as long as the
fuel strictly covers the input length. -/
theorem textLoadGo_fuelIrrel : ∀ f1 f2 bs line st, bs.length < f1 →
    bs.length < f2 → textLoadGo f1 bs line st = textLoadGo f2 bs line st := by
  intro f1
  induction f1 with
  | zero =>
    intro f2 bs line st h1 h2
    exact absurd h1 (Nat.not_lt_zero _)
  | succ g ih =>
    intro f2 bs line st h1 h2
    obtain ⟨g2, rfl⟩ : ∃ g2, f2 = g2 + 1 := by
      cases f2
      · exact absurd h2 (Nat.not_lt_zero _)
      · exact ⟨_, rfl⟩
    rw [textLoadGo, textLoadGo]
    split
    · rfl
    · rfl
    · rename_i t rest line2 hnt
      split
      · rfl
      · rename_i st4 rest2 hts
        have ha := nextTag_some_len bs line t rest line2 hnt
        have hb := textStep_le t rest line2 st st4 rest2 hts
        exact ih _ _ _ _ (by omega) (by omega)

/-- One tag line advances the tag loop. -/
theorem textLoad_step (bs : List Nat) (line : Nat) (st : FontBuilder)
    (t rest : List Nat) (line2 : Nat) (st2 : FontBuilder) (rest2 : List Nat)
    (hnt : nextTag bs line = Except.ok (some t, rest, line2))
    (hts : textStep t rest line2 st = Except.ok (st2, rest2)) :
    textLoad bs line st = textLoad rest2 line2 st2 := by
  have h1 : textLoad bs line st =
      match textStep t rest line2 st with
      | .error e => .error e
      | .ok (st3, rest3) => textLoadGo bs.length rest3 line2 st3 := by
    rw [textLoad, textLoadGo, hnt]
  rw [h1, hts]
  have h2 : rest2.length < bs.length := by
    have ha := nextTag_some_len bs line t rest line2 hnt
    have hb := textStep_le t rest line2 st st2 rest2 hts
    omega
  exact textLoadGo_fuelIrrel bs.length (rest2.length + 1) rest2 line2 st2 h2
    (Nat.lt_succ_self _)

/-- End of input ends the tag loop. -/
theorem textLoad_end (bs : List Nat) (line : Nat) (st : FontBuilder)
    (rest2 : List Nat) (l2 : Nat)
    (hnt : nextTag bs line = Except.ok (none, rest2, l2)) :
    textLoad bs line st = Except.ok st := by
  rw [textLoad, textLoadGo, hnt]

/-- A failing tag step fails the tag loop. -/
theorem textLoad_step_err (bs : List Nat) (line : Nat) (st : FontBuilder)
    (t rest : List Nat) (line2 : Nat) (e : Err)
    (hnt : nextTag bs line = Except.ok (some t, rest, line2))
    (hts : textStep t rest line2 st = Except.error e) :
    textLoad bs line st = Except.error e := by
  have h1 : textLoad bs line st =
      match textStep t rest line2 st with
      | .error e2 => .error e2
      | .ok (st3, rest3) => textLoadGo bs.length rest3 line2 st3 := by
    rw [textLoad, textLoadGo, hnt]
  rw [h1, hts]

/-- Byte-condition helper for cons. -/
theorem mem_cons_bytes {P : Nat → Prop} (a : Nat) (l : List Nat) (ha : P a)
    (hl : ∀ b ∈ l, P b) : ∀ b ∈ a :: l, P b := by
  intro b hb
  rcases List.mem_cons.mp hb with rfl | h
  · exact ha
  · exact hl b h

/-- Byte-condition helper for append. -/
theorem mem_append_bytes {P : Nat → Prop} (l1 l2 : List Nat)
    (h1 : ∀ b ∈ l1, P b) (h2 : ∀ b ∈ l2, P b) : ∀ b ∈ l1 ++ l2, P b := by
  intro b hb
  rcases List.mem_append.mp hb with h | h
  · exact h1 b h
  · exact h2 b h

/-- A quoted attribute, with the key as a whole token. -/
theorem keyValue_qt_w (k v tail : List Nat) (hk0 : k ≠ [])
    (hk : ∀ b ∈ k, b ≠ 61 ∧ b ≠ 13 ∧ b ≠ 10 ∧ b ≠ 32 ∧ b ≠ 9)
    (hv : ∀ b ∈ v, b ≠ 13 ∧ b ≠ 10 ∧ b ≠ 34) :
    keyValue (k ++ 61 :: 34 :: (v ++ 34 :: tail)) =
      Except.ok (some (k, v), tail) := by
  obtain ⟨k0, k2, rfl⟩ : ∃ k0 k2, k = k0 :: k2 := by
    cases k
    · exact absurd rfl hk0
    · exact ⟨_, _, rfl⟩
  obtain ⟨h61, h13, h10, h32, h9⟩ := hk k0 (by simp)
  exact keyValue_attr_qt k0 k2 v tail ⟨h13, h10, h32, h9⟩
    (fun b hb => hk b (by simp [hb])) hv

/-- An unquoted attribute followed by a single space, with key and value
as whole tokens. -/
theorem keyValue_sp_w (k v rest : List Nat) (hk0 : k ≠ []) (hv0 : v ≠ [])
    (hk : ∀ b ∈ k, b ≠ 61 ∧ b ≠ 13 ∧ b ≠ 10 ∧ b ≠ 32 ∧ b ≠ 9)
    (hv : ∀ b ∈ v, b ≠ 13 ∧ b ≠ 10 ∧ b ≠ 32 ∧ b ≠ 9 ∧ b ≠ 34) :
    keyValue (k ++ 61 :: (v ++ 32 :: rest)) =
      Except.ok (some (k, v), rest) := by
  obtain ⟨k0, k2, rfl⟩ : ∃ k0 k2, k = k0 :: k2 := by
    cases k
    · exact absurd rfl hk0
    · exact ⟨_, _, rfl⟩
  obtain ⟨v0, v2, rfl⟩ : ∃ v0 v2, v = v0 :: v2 := by
    cases v
    · exact absurd rfl hv0
    · exact ⟨_, _, rfl⟩
  obtain ⟨h61, h13, h10, h32, h9⟩ := hk k0 (by simp)
  obtain ⟨g13, g10, g32, g9, g34⟩ := hv v0 (by simp)
  have h2 := keyValue_attr_wn_sp k0 v0 k2 v2 rest ⟨h13, h10, h32, h9⟩
    (fun b hb => hk b (by simp [hb])) ⟨g13, g10, g32, g9, g34⟩
    (fun b hb => by
      obtain ⟨c13, c10, c32, c9, c34⟩ := hv b (by simp [hb])
      exact ⟨c13, c10, c32, c9⟩)
  exact h2

/-- An unquoted attribute directly followed by the line's CRLF, with
key and value as whole tokens. -/
theorem keyValue_crlf_w (k v rest : List Nat) (hk0 : k ≠ []) (hv0 : v ≠ [])
    (hk : ∀ b ∈ k, b ≠ 61 ∧ b ≠ 13 ∧ b ≠ 10 ∧ b ≠ 32 ∧ b ≠ 9)
    (hv : ∀ b ∈ v, b ≠ 13 ∧ b ≠ 10 ∧ b ≠ 32 ∧ b ≠ 9 ∧ b ≠ 34) :
    keyValue (k ++ 61 :: (v ++ 13 :: 10 :: rest)) =
      Except.ok (some (k, v), 10 :: rest) := by
  obtain ⟨k0, k2, rfl⟩ : ∃ k0 k2, k = k0 :: k2 := by
    cases k
    · exact absurd rfl hk0
    · exact ⟨_, _, rfl⟩
  obtain ⟨v0, v2, rfl⟩ : ∃ v0 v2, v = v0 :: v2 := by
    cases v
    · exact absurd rfl hv0
    · exact ⟨_, _, rfl⟩
  obtain ⟨h61, h13, h10, h32, h9⟩ := hk k0 (by simp)
  obtain ⟨g13, g10, g32, g9, g34⟩ := hv v0 (by simp)
  exact keyValue_attr_wn_crlf k0 v0 k2 v2 rest ⟨h13, h10, h32, h9⟩
    (fun b hb => hk b (by simp [hb])) ⟨g13, g10, g32, g9, g34⟩
    (fun b hb => by
      obtain ⟨c13, c10, c32, c9, c34⟩ := hv b (by simp [hb])
      exact ⟨c13, c10, c32, c9⟩)

/-- A padded unquoted attribute followed by a separator space, with key
and value as whole tokens; the padding is skipped by the attribute
loop. -/
theorem keyValue_pad_w (k v : List Nat) (e : Nat) (rest : List Nat)
    (hk0 : k ≠ []) (hv0 : v ≠ [])
    (hk : ∀ b ∈ k, b ≠ 61 ∧ b ≠ 13 ∧ b ≠ 10 ∧ b ≠ 32 ∧ b ≠ 9)
    (hv : ∀ b ∈ v, b ≠ 13 ∧ b ≠ 10 ∧ b ≠ 32 ∧ b ≠ 9 ∧ b ≠ 34) :
    ∃ r2, keyValue (k ++ 61 ::
        (v ++ (List.replicate e 32 ++ 32 :: rest))) =
      Except.ok (some (k, v), r2) ∧
      ∀ (α : Type) (fields : List (Field α)) (line : Nat) (acc : α)
        (mask : Nat), loadBlockRun fields r2 line acc mask =
          loadBlockRun fields rest line acc mask := by
  obtain ⟨k0, k2, rfl⟩ : ∃ k0 k2, k = k0 :: k2 := by
    cases k
    · exact absurd rfl hk0
    · exact ⟨_, _, rfl⟩
  obtain ⟨v0, v2, rfl⟩ : ∃ v0 v2, v = v0 :: v2 := by
    cases v
    · exact absurd rfl hv0
    · exact ⟨_, _, rfl⟩
  obtain ⟨h61, h13, h10, h32, h9⟩ := hk k0 (by simp)
  obtain ⟨g13, g10, g32, g9, g34⟩ := hv v0 (by simp)
  exact keyValue_attr_wn_pad k0 v0 k2 v2 e rest ⟨h13, h10, h32, h9⟩
    (fun b hb => hk b (by simp [hb])) ⟨g13, g10, g32, g9, g34⟩
    (fun b hb => by
      obtain ⟨c13, c10, c32, c9, c34⟩ := hv b (by simp [hb])
      exact ⟨c13, c10, c32, c9⟩)

/-- A padded unquoted attribute at the line's end, with key and value as
whole tokens; the next scan ends the attribute list after the CR. -/
theorem keyValue_end_w (k v : List Nat) (e : Nat) (rest : List Nat)
    (hk0 : k ≠ []) (hv0 : v ≠ [])
    (hk : ∀ b ∈ k, b ≠ 61 ∧ b ≠ 13 ∧ b ≠ 10 ∧ b ≠ 32 ∧ b ≠ 9)
    (hv : ∀ b ∈ v, b ≠ 13 ∧ b ≠ 10 ∧ b ≠ 32 ∧ b ≠ 9 ∧ b ≠ 34) :
    ∃ r2, keyValue (k ++ 61 ::
        (v ++ (List.replicate e 32 ++ 13 :: 10 :: rest))) =
      Except.ok (some (k, v), r2) ∧
      keyValue r2 = Except.ok (none, 10 :: rest) := by
  obtain ⟨k0, k2, rfl⟩ : ∃ k0 k2, k = k0 :: k2 := by
    cases k
    · exact absurd rfl hk0
    · exact ⟨_, _, rfl⟩
  obtain ⟨v0, v2, rfl⟩ : ∃ v0 v2, v = v0 :: v2 := by
    cases v
    · exact absurd rfl hv0
    · exact ⟨_, _, rfl⟩
  obtain ⟨h61, h13, h10, h32, h9⟩ := hk k0 (by simp)
  obtain ⟨g13, g10, g32, g9, g34⟩ := hv v0 (by simp)
  exact keyValue_attr_wn_end k0 v0 k2 v2 e rest ⟨h13, h10, h32, h9⟩
    (fun b hb => hk b (by simp [hb])) ⟨g13, g10, g32, g9, g34⟩
    (fun b hb => by
      obtain ⟨c13, c10, c32, c9, c34⟩ := hv b (by simp [hb])
      exact ⟨c13, c10, c32, c9⟩)

/-- An unquoted attribute at end of input, with key and value as whole
tokens. -/
theorem keyValue_eof_w (k v : List Nat) (hk0 : k ≠ []) (hv0 : v ≠ [])
    (hk : ∀ b ∈ k, b ≠ 61 ∧ b ≠ 13 ∧ b ≠ 10 ∧ b ≠ 32 ∧ b ≠ 9)
    (hv : ∀ b ∈ v, b ≠ 13 ∧ b ≠ 10 ∧ b ≠ 32 ∧ b ≠ 9 ∧ b ≠ 34) :
    keyValue (k ++ 61 :: v) = Except.ok (some (k, v), []) := by
  obtain ⟨k0, k2, rfl⟩ : ∃ k0 k2, k = k0 :: k2 := by
    cases k
    · exact absurd rfl hk0
    · exact ⟨_, _, rfl⟩
  obtain ⟨v0, v2, rfl⟩ : ∃ v0 v2, v = v0 :: v2 := by
    cases v
    · exact absurd rfl hv0
    · exact ⟨_, _, rfl⟩
  obtain ⟨h61, h13, h10, h32, h9⟩ := hk k0 (by simp)
  obtain ⟨g13, g10, g32, g9, g34⟩ := hv v0 (by simp)
  exact keyValue_attr_wn_eof k0 v0 k2 v2 ⟨h13, h10, h32, h9⟩
    (fun b hb => hk b (by simp [hb])) ⟨g13, g10, g32, g9, g34⟩
    (fun b hb => by
      obtain ⟨c13, c10, c32, c9, c34⟩ := hv b (by simp [hb])
      exact ⟨c13, c10, c32, c9⟩)

/-- Reading the info tag. -/
theorem nextTag_info_tag (A : List Nat) (line : Nat) :
    nextTag (bsOf "info" ++ 32 :: A) line =
      Except.ok (some (bsOf "info"), A, line) := rfl

/-- Reading the common tag. -/
theorem nextTag_common_tag (A : List Nat) (line : Nat) :
    nextTag (bsOf "common" ++ 32 :: A) line =
      Except.ok (some (bsOf "common"), A, line) := rfl

/-- Reading the page tag. -/
theorem nextTag_page_tag (A : List Nat) (line : Nat) :
    nextTag (bsOf "page" ++ 32 :: A) line =
      Except.ok (some (bsOf "page"), A, line) := rfl

/-- Reading the chars tag. -/
theorem nextTag_chars_tag (A : List Nat) (line : Nat) :
    nextTag (bsOf "chars" ++ 32 :: A) line =
      Except.ok (some (bsOf "chars"), A, line) := rfl

/-- Reading the char tag. -/
theorem nextTag_char_tag (A : List Nat) (line : Nat) :
    nextTag (bsOf "char" ++ 32 :: A) line =
      Except.ok (some (bsOf "char"), A, line) := rfl

/-- Reading the kernings tag. -/
theorem nextTag_kernings_tag (A : List Nat) (line : Nat) :
    nextTag (bsOf "kernings" ++ 32 :: A) line =
      Except.ok (some (bsOf "kernings"), A, line) := rfl

/-- Reading the kerning tag. -/
theorem nextTag_kerning_tag (A : List Nat) (line : Nat) :
    nextTag (bsOf "kerning" ++ 32 :: A) line =
      Except.ok (some (bsOf "kerning"), A, line) := rfl

/-- Skipping the line feed left over from the previous line. -/
theorem nextTag_lf (r : List Nat) (line : Nat) :
    nextTag (10 :: r) line = nextTag r (line + 1) := by
  rw [nextTag.eq_def]
  simp only []
  norm_num

/-- End of input yields no further tag. -/
theorem nextTag_nil (line : Nat) :
    nextTag [] line = Except.ok (none, [], line) := rfl

/-- Dispatch of the info tag. -/
theorem textStep_info (rest : List Nat) (line : Nat) (st : FontBuilder) :
    textStep (bsOf "info") rest line st =
      match loadBlock infoFields rest line infoDefault with
      | .error e => .error e
      | .ok (i, rest2) =>
        match st.setInfo (some line) i with
        | .error e => .error e
        | .ok st2 => .ok (st2, rest2) := rfl

/-- Dispatch of the common tag. -/
theorem textStep_common (rest : List Nat) (line : Nat) (st : FontBuilder) :
    textStep (bsOf "common") rest line st =
      match loadBlock commonFields rest line commonDefault with
      | .error e => .error e
      | .ok (c, rest2) =>
        match st.setCommon (some line) c with
        | .error e => .error e
        | .ok st2 => .ok (st2, rest2) := rfl

/-- Dispatch of the page tag. -/
theorem textStep_page (rest : List Nat) (line : Nat) (st : FontBuilder) :
    textStep (bsOf "page") rest line st =
      match loadBlock pageFields rest line pageDefault with
      | .error e => .error e
      | .ok (p, rest2) =>
        match st.addPage p with
        | .error e => .error e
        | .ok st2 => .ok (st2, rest2) := rfl

/-- Dispatch of the chars tag. -/
theorem textStep_chars (rest : List Nat) (line : Nat) (st : FontBuilder) :
    textStep (bsOf "chars") rest line st =
      match loadBlock countFields rest line countDefault with
      | .error e => .error e
      | .ok (c, rest2) =>
        match st.setCharCount (some line) c.count with
        | .error e => .error e
        | .ok st2 => .ok (st2, rest2) := rfl

/-- Dispatch of the char tag. -/
theorem textStep_char (rest : List Nat) (line : Nat) (st : FontBuilder) :
    textStep (bsOf "char") rest line st =
      match loadBlock charFields rest line charDefault with
      | .error e => .error e
      | .ok (c, rest2) =>
        match st.addChar c with
        | .error e => .error e
        | .ok st2 => .ok (st2, rest2) := rfl

/-- Dispatch of the kernings tag. -/
theorem textStep_kernings (rest : List Nat) (line : Nat) (st : FontBuilder) :
    textStep (bsOf "kernings") rest line st =
      match loadBlock countFields rest line countDefault with
      | .error e => .error e
      | .ok (c, rest2) =>
        match st.setKerningCount (some line) c.count with
        | .error e => .error e
        | .ok st2 => .ok (st2, rest2) := rfl

/-- Dispatch of the kerning tag. -/
theorem textStep_kerning (rest : List Nat) (line : Nat) (st : FontBuilder) :
    textStep (bsOf "kerning") rest line st =
      match loadBlock kerningFields rest line kerningDefault with
      | .error e => .error e
      | .ok (k, rest2) =>
        match st.addKerning k with
        | .error e => .error e
        | .ok st2 => .ok (st2, rest2) := rfl

/-- Splitting the info line head into tag and first key tokens. -/
theorem sInfo (X : List Nat) : bsOf "info face=\"" ++ X =
    bsOf "info" ++ 32 :: (bsOf "face" ++ 61 :: 34 :: X) := rfl

/-- Splitting the face-to-size separator into its tokens. -/
theorem sSize (X : List Nat) : bsOf "\" size=" ++ X =
    34 :: 32 :: (bsOf "size" ++ 61 :: X) := rfl

/-- Splitting the bold separator into its tokens. -/
theorem sBold (X : List Nat) : bsOf " bold=" ++ X =
    32 :: (bsOf "bold" ++ 61 :: X) := rfl

/-- Splitting the italic separator into its tokens. -/
theorem sItalic (X : List Nat) : bsOf " italic=" ++ X =
    32 :: (bsOf "italic" ++ 61 :: X) := rfl

/-- Splitting the charset separator into its tokens. -/
theorem sCharset (X : List Nat) : bsOf " charset=\"" ++ X =
    32 :: (bsOf "charset" ++ 61 :: 34 :: X) := rfl

/-- Splitting the unicode separator into its tokens. -/
theorem sUnicode (X : List Nat) : bsOf "\" unicode=" ++ X =
    34 :: 32 :: (bsOf "unicode" ++ 61 :: X) := rfl

/-- Splitting the stretchH separator into its tokens. -/
theorem sStretchH (X : List Nat) : bsOf " stretchH=" ++ X =
    32 :: (bsOf "stretchH" ++ 61 :: X) := rfl

/-- Splitting the smooth separator into its tokens. -/
theorem sSmooth (X : List Nat) : bsOf " smooth=" ++ X =
    32 :: (bsOf "smooth" ++ 61 :: X) := rfl

/-- Splitting the aa separator into its tokens. -/
theorem sAa (X : List Nat) : bsOf " aa=" ++ X =
    32 :: (bsOf "aa" ++ 61 :: X) := rfl

/-- Splitting the padding separator into its tokens. -/
theorem sPadding (X : List Nat) : bsOf " padding=" ++ X =
    32 :: (bsOf "padding" ++ 61 :: X) := rfl

/-- Splitting the spacing separator into its tokens. -/
theorem sSpacing (X : List Nat) : bsOf " spacing=" ++ X =
    32 :: (bsOf "spacing" ++ 61 :: X) := rfl

/-- Splitting the outline separator into its tokens. -/
theorem sOutline (X : List Nat) : bsOf " outline=" ++ X =
    32 :: (bsOf "outline" ++ 61 :: X) := rfl

/-- Splitting the common line head into tag and first key tokens. -/
theorem sCommon (X : List Nat) : bsOf "common lineHeight=" ++ X =
    bsOf "common" ++ 32 :: (bsOf "lineHeight" ++ 61 :: X) := rfl

/-- Splitting the base separator into its tokens. -/
theorem sBase (X : List Nat) : bsOf " base=" ++ X =
    32 :: (bsOf "base" ++ 61 :: X) := rfl

/-- Splitting the scaleW separator into its tokens. -/
theorem sScaleW (X : List Nat) : bsOf " scaleW=" ++ X =
    32 :: (bsOf "scaleW" ++ 61 :: X) := rfl

/-- Splitting the scaleH separator into its tokens. -/
theorem sScaleH (X : List Nat) : bsOf " scaleH=" ++ X =
    32 :: (bsOf "scaleH" ++ 61 :: X) := rfl

/-- Splitting the pages separator into its tokens. -/
theorem sPages (X : List Nat) : bsOf " pages=" ++ X =
    32 :: (bsOf "pages" ++ 61 :: X) := rfl

/-- Splitting the packed separator into its tokens. -/
theorem sPacked (X : List Nat) : bsOf " packed=" ++ X =
    32 :: (bsOf "packed" ++ 61 :: X) := rfl

/-- Splitting the alphaChnl separator into its tokens. -/
theorem sAlphaChnl (X : List Nat) : bsOf " alphaChnl=" ++ X =
    32 :: (bsOf "alphaChnl" ++ 61 :: X) := rfl

/-- Splitting the redChnl separator into its tokens. -/
theorem sRedChnl (X : List Nat) : bsOf " redChnl=" ++ X =
    32 :: (bsOf "redChnl" ++ 61 :: X) := rfl

/-- Splitting the greenChnl separator into its tokens. -/
theorem sGreenChnl (X : List Nat) : bsOf " greenChnl=" ++ X =
    32 :: (bsOf "greenChnl" ++ 61 :: X) := rfl

/-- Splitting the blueChnl separator into its tokens. -/
theorem sBlueChnl (X : List Nat) : bsOf " blueChnl=" ++ X =
    32 :: (bsOf "blueChnl" ++ 61 :: X) := rfl

/-- Splitting the page line head into tag and first key tokens. -/
theorem sPage (X : List Nat) : bsOf "page id=" ++ X =
    bsOf "page" ++ 32 :: (bsOf "id" ++ 61 :: X) := rfl

/-- Splitting the file separator into its tokens. -/
theorem sFile (X : List Nat) : bsOf " file=\"" ++ X =
    32 :: (bsOf "file" ++ 61 :: 34 :: X) := rfl

/-- Splitting the chars count line head into its tokens. -/
theorem sCharsCount (X : List Nat) : bsOf "chars count=" ++ X =
    bsOf "chars" ++ 32 :: (bsOf "count" ++ 61 :: X) := rfl

/-- Splitting the kernings count line head into its tokens. -/
theorem sKerningsCount (X : List Nat) : bsOf "kernings count=" ++ X =
    bsOf "kernings" ++ 32 :: (bsOf "count" ++ 61 :: X) := rfl

/-- Splitting the char line head into tag and first key tokens. -/
theorem sChar (X : List Nat) : bsOf "char id=" ++ X =
    bsOf "char" ++ 32 :: (bsOf "id" ++ 61 :: X) := rfl

/-- Splitting the x separator into its tokens. -/
theorem sX (X : List Nat) : bsOf " x=" ++ X =
    32 :: (bsOf "x" ++ 61 :: X) := rfl

/-- Splitting the y separator into its tokens. -/
theorem sY (X : List Nat) : bsOf " y=" ++ X =
    32 :: (bsOf "y" ++ 61 :: X) := rfl

/-- Splitting the width separator into its tokens. -/
theorem sWidth (X : List Nat) : bsOf " width=" ++ X =
    32 :: (bsOf "width" ++ 61 :: X) := rfl

/-- Splitting the height separator into its tokens. -/
theorem sHeight (X : List Nat) : bsOf " height=" ++ X =
    32 :: (bsOf "height" ++ 61 :: X) := rfl

/-- Splitting the xoffset separator into its tokens. -/
theorem sXoffset (X : List Nat) : bsOf " xoffset=" ++ X =
    32 :: (bsOf "xoffset" ++ 61 :: X) := rfl

/-- Splitting the yoffset separator into its tokens. -/
theorem sYoffset (X : List Nat) : bsOf " yoffset=" ++ X =
    32 :: (bsOf "yoffset" ++ 61 :: X) := rfl

/-- Splitting the xadvance separator into its tokens. -/
theorem sXadvance (X : List Nat) : bsOf " xadvance=" ++ X =
    32 :: (bsOf "xadvance" ++ 61 :: X) := rfl

/-- Splitting the page attribute separator into its tokens. -/
theorem sPageAttr (X : List Nat) : bsOf " page=" ++ X =
    32 :: (bsOf "page" ++ 61 :: X) := rfl

/-- Splitting the chnl separator into its tokens. -/
theorem sChnl (X : List Nat) : bsOf " chnl=" ++ X =
    32 :: (bsOf "chnl" ++ 61 :: X) := rfl

/-- Splitting the kerning line head into tag and first key tokens. -/
theorem sKerning (X : List Nat) : bsOf "kerning first=" ++ X =
    bsOf "kerning" ++ 32 :: (bsOf "first" ++ 61 :: X) := rfl

/-- Splitting the second separator into its tokens. -/
theorem sSecond (X : List Nat) : bsOf " second=" ++ X =
    32 :: (bsOf "second" ++ 61 :: X) := rfl

/-- Splitting the amount separator into its tokens. -/
theorem sAmount (X : List Nat) : bsOf " amount=" ++ X =
    32 :: (bsOf "amount" ++ 61 :: X) := rfl

/-- A UTF-8-valid byte string parses as a string field unchanged. -/
theorem pString_of_valid (s : List Nat) (h : utf8Valid s = true) :
    pString s = some s := by
  rw [pString, if_pos h]

/-- Regrouping a four-part comma token before its trailing space. -/
theorem tok4_assoc (a b c d r : List Nat) :
    a ++ 44 :: (b ++ 44 :: (c ++ 44 :: (d ++ 32 :: r))) =
      (a ++ 44 :: (b ++ 44 :: (c ++ 44 :: d))) ++ 32 :: r := by
  simp [List.append_assoc]

/-- Regrouping a two-part comma token before its trailing space. -/
theorem tok2_assoc (a b r : List Nat) :
    a ++ 44 :: (b ++ 32 :: r) = (a ++ 44 :: b) ++ 32 :: r := by
  simp [List.append_assoc]

/-- A leading line feed is skipped by the tag loop, bumping the line. -/
theorem textLoad_lf (bs : List Nat) (line : Nat) (st : FontBuilder) :
    textLoad (10 :: bs) line st = textLoad bs (line + 1) st := by
  rw [textLoad, textLoad, textLoadGo, textLoadGo, nextTag_lf]
  cases hnt : nextTag bs (line + 1) with
  | error p =>
    rcases p with ⟨e, l2⟩
    exact rfl
  | ok r =>
    obtain ⟨t2, rest, l2⟩ := r
    cases t2 with
    | none => exact rfl
    | some t =>
      simp only []
      cases hts : textStep t rest l2 st with
      | error e => rfl
      | ok pr =>
        obtain ⟨st2, rest2⟩ := pr
        simp only []
        have ha := nextTag_some_len bs (line + 1) t rest l2 hnt
        have hb := textStep_le t rest l2 st st2 rest2 hts
        exact textLoadGo_fuelIrrel _ _ rest2 l2 st2
          (by simp only [List.length_cons]; omega) (by omega)

/-- Empty input ends the tag loop successfully. -/
theorem textLoad_nil (line : Nat) (st : FontBuilder) :
    textLoad [] line st = Except.ok st :=
  textLoad_end [] line st [] line (nextTag_nil line)

/-- A padded unquoted attribute: the application step plus the skipping
of the padding spaces and the single separator space. -/
theorem loadBlockRun_pad_step {α : Type} (fields : List (Field α))
    (k v : List Nat) (e : Nat) (rest : List Nat) (line : Nat) (acc : α)
    (mask : Nat) (acc2 : α) (mask2 : Nat) (hk0 : k ≠ [])
    (hk : ∀ b ∈ k, b ≠ 61 ∧ b ≠ 13 ∧ b ≠ 10 ∧ b ≠ 32 ∧ b ≠ 9)
    (hv0 : v ≠ []) (hv : ∀ b ∈ v, b ≠ 13 ∧ b ≠ 10 ∧ b ≠ 32 ∧ b ≠ 9 ∧ b ≠ 34)
    (happ : applyField fields (some line) k v acc mask =
      Except.ok (acc2, mask2)) :
    loadBlockRun fields (k ++ 61 :: (v ++ (List.replicate e 32 ++ 32 :: rest)))
        line acc mask =
      loadBlockRun fields rest line acc2 mask2 := by
  obtain ⟨r2, hkv, hcont⟩ := keyValue_pad_w k v e rest hk0 hv0 hk hv
  rw [loadBlockRun_step fields _ line acc mask k v r2 acc2 mask2 hkv happ]
  exact hcont _ fields line acc2 mask2

/-- A padded unquoted attribute at the end of a CRLF-terminated line:
the application step plus the padding spaces and line end. -/
theorem loadBlockRun_pad_last {α : Type} (fields : List (Field α))
    (k v : List Nat) (e : Nat) (rest : List Nat) (line : Nat) (acc : α)
    (mask : Nat) (acc2 : α) (mask2 : Nat) (hk0 : k ≠ [])
    (hk : ∀ b ∈ k, b ≠ 61 ∧ b ≠ 13 ∧ b ≠ 10 ∧ b ≠ 32 ∧ b ≠ 9)
    (hv0 : v ≠ []) (hv : ∀ b ∈ v, b ≠ 13 ∧ b ≠ 10 ∧ b ≠ 32 ∧ b ≠ 9 ∧ b ≠ 34)
    (happ : applyField fields (some line) k v acc mask =
      Except.ok (acc2, mask2)) :
    loadBlockRun fields
        (k ++ 61 :: (v ++ (List.replicate e 32 ++ 13 :: 10 :: rest)))
        line acc mask =
      Except.ok (acc2, 10 :: rest) := by
  obtain ⟨r2, hkv, hkv2⟩ := keyValue_end_w k v e rest hk0 hv0 hk hv
  rw [loadBlockRun_step fields _ line acc mask k v r2 acc2 mask2 hkv happ]
  exact loadBlockRun_end fields r2 line acc2 mask2 _ hkv2

/-- Loading a chars count line. -/
theorem textLoad_chars_line (n : Nat) (hn : n < 4294967296)
    (rest : List Nat) (line : Nat) (st : FontBuilder)
    (hcc : st.charCount = none) :
    textLoad (bsOf "chars" ++ 32 :: (bsOf "count" ++ 61 ::
        (renderNat n ++ 13 :: 10 :: rest))) line st =
      textLoad (10 :: rest) line { st with charCount := some n } := by
  refine textLoad_step _ _ _ _ _ _ _ _ (nextTag_chars_tag _ line) ?_
  rw [textStep_chars]
  rw [show ∀ (bs : List Nat) (l : Nat) (acc : Count),
    loadBlock countFields bs l acc = loadBlockRun countFields bs l acc 0
    from fun _ _ _ => rfl]
  rw [stepCountCount _ _ line countDefault 0 _ n
    (keyValue_crlf_w (bsOf "count") (renderNat n) rest (by decide)
      (renderNat_ne_nil n) (by decide) (renderNat_bytes n))
    (by decide) (pU32_render n hn)]
  rw [loadBlockRun_end countFields _ line _ _ _ (keyValue_lf rest)]
  simp [FontBuilder.setCharCount, hcc]

/-- Loading a kernings count line. -/
theorem textLoad_kernings_line (n : Nat) (hn : n < 4294967296)
    (rest : List Nat) (line : Nat) (st : FontBuilder)
    (hkc : st.kerningCount = none) :
    textLoad (bsOf "kernings" ++ 32 :: (bsOf "count" ++ 61 ::
        (renderNat n ++ 13 :: 10 :: rest))) line st =
      textLoad (10 :: rest) line { st with kerningCount := some n } := by
  refine textLoad_step _ _ _ _ _ _ _ _ (nextTag_kernings_tag _ line) ?_
  rw [textStep_kernings]
  rw [show ∀ (bs : List Nat) (l : Nat) (acc : Count),
    loadBlock countFields bs l acc = loadBlockRun countFields bs l acc 0
    from fun _ _ _ => rfl]
  rw [stepCountCount _ _ line countDefault 0 _ n
    (keyValue_crlf_w (bsOf "count") (renderNat n) rest (by decide)
      (renderNat_ne_nil n) (by decide) (renderNat_bytes n))
    (by decide) (pU32_render n hn)]
  rw [loadBlockRun_end countFields _ line _ _ _ (keyValue_lf rest)]
  simp [FontBuilder.setKerningCount, hkc]

/-- One padded id attribute of the Char table. -/
theorem stepCharIdP (e : Nat) (rest : List Nat) (line : Nat) (acc : Char)
    (mask : Nat) (v : List Nat) (w : Nat) (hv0 : v ≠ [])
    (hv : ∀ b ∈ v, b ≠ 13 ∧ b ≠ 10 ∧ b ≠ 32 ∧ b ≠ 9 ∧ b ≠ 34)
    (hbit : mask.testBit 0 = false) (hp : pU32 v = some w) :
    loadBlockRun charFields (bsOf "id" ++ 61 ::
        (v ++ (List.replicate e 32 ++ 32 :: rest))) line acc mask =
      loadBlockRun charFields rest line { acc with id := w }
        (mask ||| 2 ^ 0) := by
  refine loadBlockRun_pad_step charFields (bsOf "id") v e rest line acc mask
    _ _ (by decide) (by decide) hv0 hv
    (applyField_hit charFields (some line) (bsOf "id") v acc mask _ _ rfl
      hbit ?_)
  show (pU32 v).map (fun y => { acc with id := y }) =
    some { acc with id := w }
  rw [hp]
  rfl

/-- One padded x attribute of the Char table. -/
theorem stepCharXP (e : Nat) (rest : List Nat) (line : Nat) (acc : Char)
    (mask : Nat) (v : List Nat) (w : Nat) (hv0 : v ≠ [])
    (hv : ∀ b ∈ v, b ≠ 13 ∧ b ≠ 10 ∧ b ≠ 32 ∧ b ≠ 9 ∧ b ≠ 34)
    (hbit : mask.testBit 1 = false) (hp : pU16 v = some w) :
    loadBlockRun charFields (bsOf "x" ++ 61 ::
        (v ++ (List.replicate e 32 ++ 32 :: rest))) line acc mask =
      loadBlockRun charFields rest line { acc with x := w }
        (mask ||| 2 ^ 1) := by
  refine loadBlockRun_pad_step charFields (bsOf "x") v e rest line acc mask
    _ _ (by decide) (by decide) hv0 hv
    (applyField_hit charFields (some line) (bsOf "x") v acc mask _ _ rfl
      hbit ?_)
  show (pU16 v).map (fun y => { acc with x := y }) =
    some { acc with x := w }
  rw [hp]
  rfl

/-- One padded y attribute of the Char table. -/
theorem stepCharYP (e : Nat) (rest : List Nat) (line : Nat) (acc : Char)
    (mask : Nat) (v : List Nat) (w : Nat) (hv0 : v ≠ [])
    (hv : ∀ b ∈ v, b ≠ 13 ∧ b ≠ 10 ∧ b ≠ 32 ∧ b ≠ 9 ∧ b ≠ 34)
    (hbit : mask.testBit 2 = false) (hp : pU16 v = some w) :
    loadBlockRun charFields (bsOf "y" ++ 61 ::
        (v ++ (List.replicate e 32 ++ 32 :: rest))) line acc mask =
      loadBlockRun charFields rest line { acc with y := w }
        (mask ||| 2 ^ 2) := by
  refine loadBlockRun_pad_step charFields (bsOf "y") v e rest line acc mask
    _ _ (by decide) (by decide) hv0 hv
    (applyField_hit charFields (some line) (bsOf "y") v acc mask _ _ rfl
      hbit ?_)
  show (pU16 v).map (fun y => { acc with y := y }) =
    some { acc with y := w }
  rw [hp]
  rfl

/-- One padded width attribute of the Char table. -/
theorem stepCharWidthP (e : Nat) (rest : List Nat) (line : Nat) (acc : Char)
    (mask : Nat) (v : List Nat) (w : Nat) (hv0 : v ≠ [])
    (hv : ∀ b ∈ v, b ≠ 13 ∧ b ≠ 10 ∧ b ≠ 32 ∧ b ≠ 9 ∧ b ≠ 34)
    (hbit : mask.testBit 3 = false) (hp : pU16 v = some w) :
    loadBlockRun charFields (bsOf "width" ++ 61 ::
        (v ++ (List.replicate e 32 ++ 32 :: rest))) line acc mask =
      loadBlockRun charFields rest line { acc with width := w }
        (mask ||| 2 ^ 3) := by
  refine loadBlockRun_pad_step charFields (bsOf "width") v e rest line acc mask
    _ _ (by decide) (by decide) hv0 hv
    (applyField_hit charFields (some line) (bsOf "width") v acc mask _ _ rfl
      hbit ?_)
  show (pU16 v).map (fun y => { acc with width := y }) =
    some { acc with width := w }
  rw [hp]
  rfl

/-- One padded height attribute of the Char table. -/
theorem stepCharHeightP (e : Nat) (rest : List Nat) (line : Nat) (acc : Char)
    (mask : Nat) (v : List Nat) (w : Nat) (hv0 : v ≠ [])
    (hv : ∀ b ∈ v, b ≠ 13 ∧ b ≠ 10 ∧ b ≠ 32 ∧ b ≠ 9 ∧ b ≠ 34)
    (hbit : mask.testBit 4 = false) (hp : pU16 v = some w) :
    loadBlockRun charFields (bsOf "height" ++ 61 ::
        (v ++ (List.replicate e 32 ++ 32 :: rest))) line acc mask =
      loadBlockRun charFields rest line { acc with height := w }
        (mask ||| 2 ^ 4) := by
  refine loadBlockRun_pad_step charFields (bsOf "height") v e rest line acc mask
    _ _ (by decide) (by decide) hv0 hv
    (applyField_hit charFields (some line) (bsOf "height") v acc mask _ _ rfl
      hbit ?_)
  show (pU16 v).map (fun y => { acc with height := y }) =
    some { acc with height := w }
  rw [hp]
  rfl

/-- One padded xoffset attribute of the Char table. -/
theorem stepCharXoffsetP (e : Nat) (rest : List Nat) (line : Nat) (acc : Char)
    (mask : Nat) (v : List Nat) (w : Int) (hv0 : v ≠ [])
    (hv : ∀ b ∈ v, b ≠ 13 ∧ b ≠ 10 ∧ b ≠ 32 ∧ b ≠ 9 ∧ b ≠ 34)
    (hbit : mask.testBit 5 = false) (hp : parseI16Bytes v = some w) :
    loadBlockRun charFields (bsOf "xoffset" ++ 61 ::
        (v ++ (List.replicate e 32 ++ 32 :: rest))) line acc mask =
      loadBlockRun charFields rest line { acc with xoffset := w }
        (mask ||| 2 ^ 5) := by
  refine loadBlockRun_pad_step charFields (bsOf "xoffset") v e rest line acc mask
    _ _ (by decide) (by decide) hv0 hv
    (applyField_hit charFields (some line) (bsOf "xoffset") v acc mask _ _ rfl
      hbit ?_)
  show (parseI16Bytes v).map (fun y => { acc with xoffset := y }) =
    some { acc with xoffset := w }
  rw [hp]
  rfl

/-- One padded yoffset attribute of the Char table. -/
theorem stepCharYoffsetP (e : Nat) (rest : List Nat) (line : Nat) (acc : Char)
    (mask : Nat) (v : List Nat) (w : Int) (hv0 : v ≠ [])
    (hv : ∀ b ∈ v, b ≠ 13 ∧ b ≠ 10 ∧ b ≠ 32 ∧ b ≠ 9 ∧ b ≠ 34)
    (hbit : mask.testBit 6 = false) (hp : parseI16Bytes v = some w) :
    loadBlockRun charFields (bsOf "yoffset" ++ 61 ::
        (v ++ (List.replicate e 32 ++ 32 :: rest))) line acc mask =
      loadBlockRun charFields rest line { acc with yoffset := w }
        (mask ||| 2 ^ 6) := by
  refine loadBlockRun_pad_step charFields (bsOf "yoffset") v e rest line acc mask
    _ _ (by decide) (by decide) hv0 hv
    (applyField_hit charFields (some line) (bsOf "yoffset") v acc mask _ _ rfl
      hbit ?_)
  show (parseI16Bytes v).map (fun y => { acc with yoffset := y }) =
    some { acc with yoffset := w }
  rw [hp]
  rfl

/-- One padded xadvance attribute of the Char table. -/
theorem stepCharXadvanceP (e : Nat) (rest : List Nat) (line : Nat) (acc : Char)
    (mask : Nat) (v : List Nat) (w : Int) (hv0 : v ≠ [])
    (hv : ∀ b ∈ v, b ≠ 13 ∧ b ≠ 10 ∧ b ≠ 32 ∧ b ≠ 9 ∧ b ≠ 34)
    (hbit : mask.testBit 8 = false) (hp : parseI16Bytes v = some w) :
    loadBlockRun charFields (bsOf "xadvance" ++ 61 ::
        (v ++ (List.replicate e 32 ++ 32 :: rest))) line acc mask =
      loadBlockRun charFields rest line { acc with xadvance := w }
        (mask ||| 2 ^ 8) := by
  refine loadBlockRun_pad_step charFields (bsOf "xadvance") v e rest line acc mask
    _ _ (by decide) (by decide) hv0 hv
    (applyField_hit charFields (some line) (bsOf "xadvance") v acc mask _ _ rfl
      hbit ?_)
  show (parseI16Bytes v).map (fun y => { acc with xadvance := y }) =
    some { acc with xadvance := w }
  rw [hp]
  rfl

/-- One padded page attribute of the Char table. -/
theorem stepCharPageP (e : Nat) (rest : List Nat) (line : Nat) (acc : Char)
    (mask : Nat) (v : List Nat) (w : Nat) (hv0 : v ≠ [])
    (hv : ∀ b ∈ v, b ≠ 13 ∧ b ≠ 10 ∧ b ≠ 32 ∧ b ≠ 9 ∧ b ≠ 34)
    (hbit : mask.testBit 9 = false) (hp : pU8 v = some w) :
    loadBlockRun charFields (bsOf "page" ++ 61 ::
        (v ++ (List.replicate e 32 ++ 32 :: rest))) line acc mask =
      loadBlockRun charFields rest line { acc with page := w }
        (mask ||| 2 ^ 9) := by
  refine loadBlockRun_pad_step charFields (bsOf "page") v e rest line acc mask
    _ _ (by decide) (by decide) hv0 hv
    (applyField_hit charFields (some line) (bsOf "page") v acc mask _ _ rfl
      hbit ?_)
  show (pU8 v).map (fun y => { acc with page := y }) =
    some { acc with page := w }
  rw [hp]
  rfl

/-- One padded chnl attribute of the Char table. -/
theorem stepCharChnlLast (e : Nat) (rest : List Nat) (line : Nat) (acc : Char)
    (mask : Nat) (v : List Nat) (w : Nat) (hv0 : v ≠ [])
    (hv : ∀ b ∈ v, b ≠ 13 ∧ b ≠ 10 ∧ b ≠ 32 ∧ b ≠ 9 ∧ b ≠ 34)
    (hbit : mask.testBit 10 = false) (hp : pChnl v = some w) :
    loadBlockRun charFields (bsOf "chnl" ++ 61 ::
        (v ++ (List.replicate e 32 ++ 13 :: 10 :: rest))) line acc mask =
      Except.ok ({ acc with chnl := w }, 10 :: rest) := by
  refine loadBlockRun_pad_last charFields (bsOf "chnl") v e rest line acc mask
    _ _ (by decide) (by decide) hv0 hv
    (applyField_hit charFields (some line) (bsOf "chnl") v acc mask _ _ rfl
      hbit ?_)
  show (pChnl v).map (fun y => { acc with chnl := y }) =
    some { acc with chnl := w }
  rw [hp]
  rfl

/-- One padded first attribute of the Kerning table. -/
theorem stepKerningFirstP (e : Nat) (rest : List Nat) (line : Nat) (acc : Kerning)
    (mask : Nat) (v : List Nat) (w : Nat) (hv0 : v ≠ [])
    (hv : ∀ b ∈ v, b ≠ 13 ∧ b ≠ 10 ∧ b ≠ 32 ∧ b ≠ 9 ∧ b ≠ 34)
    (hbit : mask.testBit 0 = false) (hp : pU32 v = some w) :
    loadBlockRun kerningFields (bsOf "first" ++ 61 ::
        (v ++ (List.replicate e 32 ++ 32 :: rest))) line acc mask =
      loadBlockRun kerningFields rest line { acc with first := w }
        (mask ||| 2 ^ 0) := by
  refine loadBlockRun_pad_step kerningFields (bsOf "first") v e rest line acc mask
    _ _ (by decide) (by decide) hv0 hv
    (applyField_hit kerningFields (some line) (bsOf "first") v acc mask _ _ rfl
      hbit ?_)
  show (pU32 v).map (fun y => { acc with first := y }) =
    some { acc with first := w }
  rw [hp]
  rfl

/-- One padded second attribute of the Kerning table. -/
theorem stepKerningSecondP (e : Nat) (rest : List Nat) (line : Nat) (acc : Kerning)
    (mask : Nat) (v : List Nat) (w : Nat) (hv0 : v ≠ [])
    (hv : ∀ b ∈ v, b ≠ 13 ∧ b ≠ 10 ∧ b ≠ 32 ∧ b ≠ 9 ∧ b ≠ 34)
    (hbit : mask.testBit 1 = false) (hp : pU32 v = some w) :
    loadBlockRun kerningFields (bsOf "second" ++ 61 ::
        (v ++ (List.replicate e 32 ++ 32 :: rest))) line acc mask =
      loadBlockRun kerningFields rest line { acc with second := w }
        (mask ||| 2 ^ 1) := by
  refine loadBlockRun_pad_step kerningFields (bsOf "second") v e rest line acc mask
    _ _ (by decide) (by decide) hv0 hv
    (applyField_hit kerningFields (some line) (bsOf "second") v acc mask _ _ rfl
      hbit ?_)
  show (pU32 v).map (fun y => { acc with second := y }) =
    some { acc with second := w }
  rw [hp]
  rfl

/-- One padded amount attribute of the Kerning table. -/
theorem stepKerningAmountLast (e : Nat) (rest : List Nat) (line : Nat) (acc : Kerning)
    (mask : Nat) (v : List Nat) (w : Int) (hv0 : v ≠ [])
    (hv : ∀ b ∈ v, b ≠ 13 ∧ b ≠ 10 ∧ b ≠ 32 ∧ b ≠ 9 ∧ b ≠ 34)
    (hbit : mask.testBit 2 = false) (hp : parseI16Bytes v = some w) :
    loadBlockRun kerningFields (bsOf "amount" ++ 61 ::
        (v ++ (List.replicate e 32 ++ 13 :: 10 :: rest))) line acc mask =
      Except.ok ({ acc with amount := w }, 10 :: rest) := by
  refine loadBlockRun_pad_last kerningFields (bsOf "amount") v e rest line acc mask
    _ _ (by decide) (by decide) hv0 hv
    (applyField_hit kerningFields (some line) (bsOf "amount") v acc mask _ _ rfl
      hbit ?_)
  show (parseI16Bytes v).map (fun y => { acc with amount := y }) =
    some { acc with amount := w }
  rw [hp]
  rfl

/-- One padding attribute of the info table, taken as a comma token in
the shape the text store emits. -/
theorem stepInfoPaddingTok (rest : List Nat) (line : Nat) (acc : Info)
    (mask : Nat) (a b c d : Nat) (ha : a < 256) (hb : b < 256) (hc : c < 256)
    (hd : d < 256) (hbit : mask.testBit 9 = false) :
    loadBlockRun infoFields (bsOf "padding" ++ 61 :: (renderNat a ++ 44 ::
        (renderNat b ++ 44 :: (renderNat c ++ 44 ::
        (renderNat d ++ 32 :: rest))))) line acc mask =
      loadBlockRun infoFields rest line
        { acc with padding := ⟨a, b, c, d⟩ } (mask ||| 2 ^ 9) := by
  rw [tok4_assoc]
  exact stepInfoPadding _ _ line acc mask _ _
    (keyValue_sp_w (bsOf "padding")
      (renderNat a ++ 44 :: (renderNat b ++ 44 :: (renderNat c ++ 44 ::
        renderNat d))) rest (by decide) (by simp) (by decide)
      (mem_append_bytes _ _ (renderNat_bytes _) (mem_cons_bytes _ _
        (by decide) (mem_append_bytes _ _ (renderNat_bytes _)
        (mem_cons_bytes _ _ (by decide) (mem_append_bytes _ _
        (renderNat_bytes _) (mem_cons_bytes _ _ (by decide)
        (renderNat_bytes _))))))))
    hbit (pPadding_render a b c d ha hb hc hd)

/-- One spacing attribute of the info table, taken as a comma token in
the shape the text store emits. -/
theorem stepInfoSpacingTok (rest : List Nat) (line : Nat) (acc : Info)
    (mask : Nat) (a b : Nat) (ha : a < 256) (hb : b < 256)
    (hbit : mask.testBit 10 = false) :
    loadBlockRun infoFields (bsOf "spacing" ++ 61 :: (renderNat a ++ 44 ::
        (renderNat b ++ 32 :: rest))) line acc mask =
      loadBlockRun infoFields rest line
        { acc with spacing := ⟨a, b⟩ } (mask ||| 2 ^ 10) := by
  rw [tok2_assoc]
  exact stepInfoSpacing _ _ line acc mask _ _
    (keyValue_sp_w (bsOf "spacing") (renderNat a ++ 44 :: renderNat b) rest
      (by decide) (by simp) (by decide)
      (mem_append_bytes _ _ (renderNat_bytes _) (mem_cons_bytes _ _
        (by decide) (renderNat_bytes _))))
    hbit (pSpacing_render a b ha hb)

set_option maxHeartbeats 2000000 in
/-- Loading an info line as emitted by the text store. -/
theorem textLoad_info_line (i : Info) (rest : List Nat) (line : Nat)
    (st : FontBuilder) (hval : infoValid i = true)
    (hchk : checkValueOk i.face = true)
    (hcs : ∀ s, i.charset ≠ Charset.undefined s)
    (hst : st.info = none) :
    textLoad (bsOf "info" ++ 32 :: (bsOf "face" ++ 61 :: 34 :: (i.face ++ 34 :: 32 ::
        (bsOf "size" ++ 61 :: (renderInt i.size ++ 32 ::
        (bsOf "bold" ++ 61 :: (renderBool i.bold ++ 32 ::
        (bsOf "italic" ++ 61 :: (renderBool i.italic ++ 32 ::
        (bsOf "charset" ++ 61 :: 34 :: (charsetRender i.charset ++ 34 :: 32 ::
        (bsOf "unicode" ++ 61 :: (renderBool i.unicode ++ 32 ::
        (bsOf "stretchH" ++ 61 :: (renderNat i.stretchH ++ 32 ::
        (bsOf "smooth" ++ 61 :: (renderBool i.smooth ++ 32 ::
        (bsOf "aa" ++ 61 :: (renderNat i.aa ++ 32 ::
        (bsOf "padding" ++ 61 :: (renderNat i.padding.up ++ 44 ::
        (renderNat i.padding.right ++ 44 :: (renderNat i.padding.down ++ 44 ::
        (renderNat i.padding.left ++ 32 ::
        (bsOf "spacing" ++ 61 :: (renderNat i.spacing.horizontal ++ 44 ::
        (renderNat i.spacing.vertical ++ 32 ::
        (bsOf "outline" ++ 61 :: (renderNat i.outline ++ 13 :: 10 ::
        rest))))))))))))))))))))))))))))) line st =
      textLoad (10 :: rest) line { st with info := some i } := by
  simp only [infoValid, i16Ok, Bool.and_eq_true, decide_eq_true_eq] at hval
  obtain ⟨⟨⟨⟨⟨⟨⟨⟨⟨⟨⟨hface, hsize⟩, hcsv⟩, hstr⟩, haa⟩, hpu⟩,
    hpr⟩, hpd⟩, hpl⟩, hsh⟩, hsv⟩, houtl⟩ := hval
  refine textLoad_step _ _ _ _ _ _ _ _ (nextTag_info_tag _ line) ?_
  rw [textStep_info]
  rw [show ∀ (bs : List Nat) (l : Nat) (acc : Info),
    loadBlock infoFields bs l acc = loadBlockRun infoFields bs l acc 0
    from fun _ _ _ => rfl]
  rw [stepInfoFace _ _ line infoDefault 0 _ _
    (keyValue_qt_w (bsOf "face") i.face _ (by decide) (by decide)
      (checkValueOk_bytes i.face hchk))
    (by decide) (pString_of_valid i.face hface)]
  rw [loadBlockRun_skipSp]
  rw [stepInfoSize _ _ line _ (0 ||| 2 ^ 0) _ _
    (keyValue_sp_w (bsOf "size") (renderInt i.size) _ (by decide)
      (renderInt_ne_nil _) (by decide) (renderInt_bytes _))
    (by decide) (parseI16_renderInt i.size hsize.1 hsize.2)]
  rw [stepInfoBold _ _ line _ (0 ||| 2 ^ 0 ||| 2 ^ 1) _ _
    (keyValue_sp_w (bsOf "bold") (renderBool i.bold) _ (by decide)
      (renderBool_ne_nil _) (by decide) (renderBool_bytes _))
    (by decide) (parseBool_renderBool i.bold)]
  rw [stepInfoItalic _ _ line _ (0 ||| 2 ^ 0 ||| 2 ^ 1 ||| 2 ^ 2) _ _
    (keyValue_sp_w (bsOf "italic") (renderBool i.italic) _ (by decide)
      (renderBool_ne_nil _) (by decide) (renderBool_bytes _))
    (by decide) (parseBool_renderBool i.italic)]
  rw [stepInfoCharset _ _ line _ (0 ||| 2 ^ 0 ||| 2 ^ 1 ||| 2 ^ 2 ||| 2 ^ 3) _ _
    (keyValue_qt_w (bsOf "charset") (charsetRender i.charset) _ (by decide)
      (by decide) (charsetRender_bytes i.charset hcsv hcs))
    (by decide) (pCharset_render i.charset hcsv hcs)]
  rw [loadBlockRun_skipSp]
  rw [stepInfoUnicode _ _ line _ (0 ||| 2 ^ 0 ||| 2 ^ 1 ||| 2 ^ 2 ||| 2 ^ 3 ||| 2 ^ 4) _ _
    (keyValue_sp_w (bsOf "unicode") (renderBool i.unicode) _ (by decide)
      (renderBool_ne_nil _) (by decide) (renderBool_bytes _))
    (by decide) (parseBool_renderBool i.unicode)]
  rw [stepInfoStretchH _ _ line _ (0 ||| 2 ^ 0 ||| 2 ^ 1 ||| 2 ^ 2 ||| 2 ^ 3 ||| 2 ^ 4 ||| 2 ^ 5) _ _
    (keyValue_sp_w (bsOf "stretchH") (renderNat i.stretchH) _ (by decide)
      (renderNat_ne_nil _) (by decide) (renderNat_bytes _))
    (by decide) (pU16_render i.stretchH hstr)]
  rw [stepInfoSmooth _ _ line _ (0 ||| 2 ^ 0 ||| 2 ^ 1 ||| 2 ^ 2 ||| 2 ^ 3 ||| 2 ^ 4 ||| 2 ^ 5 ||| 2 ^ 6) _ _
    (keyValue_sp_w (bsOf "smooth") (renderBool i.smooth) _ (by decide)
      (renderBool_ne_nil _) (by decide) (renderBool_bytes _))
    (by decide) (parseBool_renderBool i.smooth)]
  rw [stepInfoAa _ _ line _ (0 ||| 2 ^ 0 ||| 2 ^ 1 ||| 2 ^ 2 ||| 2 ^ 3 ||| 2 ^ 4 ||| 2 ^ 5 ||| 2 ^ 6 ||| 2 ^ 7) _ _
    (keyValue_sp_w (bsOf "aa") (renderNat i.aa) _ (by decide)
      (renderNat_ne_nil _) (by decide) (renderNat_bytes _))
    (by decide) (pU8_render i.aa haa)]
  rw [stepInfoPaddingTok _ line _ (0 ||| 2 ^ 0 ||| 2 ^ 1 ||| 2 ^ 2 ||| 2 ^ 3 ||| 2 ^ 4 ||| 2 ^ 5 ||| 2 ^ 6 ||| 2 ^ 7 ||| 2 ^ 8)
    i.padding.up i.padding.right i.padding.down i.padding.left
    hpu hpr hpd hpl (by decide)]
  rw [stepInfoSpacingTok _ line _ (0 ||| 2 ^ 0 ||| 2 ^ 1 ||| 2 ^ 2 ||| 2 ^ 3 ||| 2 ^ 4 ||| 2 ^ 5 ||| 2 ^ 6 ||| 2 ^ 7 ||| 2 ^ 8 ||| 2 ^ 9)
    i.spacing.horizontal i.spacing.vertical hsh hsv (by decide)]
  rw [stepInfoOutline _ _ line _ (0 ||| 2 ^ 0 ||| 2 ^ 1 ||| 2 ^ 2 ||| 2 ^ 3 ||| 2 ^ 4 ||| 2 ^ 5 ||| 2 ^ 6 ||| 2 ^ 7 ||| 2 ^ 8 ||| 2 ^ 9 ||| 2 ^ 10) _ _
    (keyValue_crlf_w (bsOf "outline") (renderNat i.outline) rest (by decide)
      (renderNat_ne_nil _) (by decide) (renderNat_bytes _))
    (by decide) (pU8_render i.outline houtl)]
  rw [loadBlockRun_end infoFields _ line _ _ _ (keyValue_lf rest)]
  simp only [FontBuilder.setInfo]
  rw [hst]
  exact rfl

set_option maxHeartbeats 2000000 in
/-- Loading a common line as emitted by the text store. -/
theorem textLoad_common_line (c : Common) (rest : List Nat) (line : Nat)
    (st : FontBuilder) (hval : commonValid c = true)
    (hst : st.common = none) :
    textLoad (bsOf "common" ++ 32 :: (bsOf "lineHeight" ++ 61 ::
        (renderNat c.lineHeight ++ 32 ::
        (bsOf "base" ++ 61 :: (renderNat c.base ++ 32 ::
        (bsOf "scaleW" ++ 61 :: (renderNat c.scaleW ++ 32 ::
        (bsOf "scaleH" ++ 61 :: (renderNat c.scaleH ++ 32 ::
        (bsOf "pages" ++ 61 :: (renderNat c.pages ++ 32 ::
        (bsOf "packed" ++ 61 :: (renderBool c.packed ++ 32 ::
        (bsOf "alphaChnl" ++ 61 :: (renderNat c.alphaChnl.toU8 ++ 32 ::
        (bsOf "redChnl" ++ 61 :: (renderNat c.redChnl.toU8 ++ 32 ::
        (bsOf "greenChnl" ++ 61 :: (renderNat c.greenChnl.toU8 ++ 32 ::
        (bsOf "blueChnl" ++ 61 :: (renderNat c.blueChnl.toU8 ++ 13 :: 10 ::
        rest))))))))))))))))))))) line st =
      textLoad (10 :: rest) line { st with common := some c } := by
  simp only [commonValid, Bool.and_eq_true, decide_eq_true_eq] at hval
  obtain ⟨⟨⟨⟨hlh, hbase⟩, hsw⟩, hshh⟩, hpg⟩ := hval
  refine textLoad_step _ _ _ _ _ _ _ _ (nextTag_common_tag _ line) ?_
  rw [textStep_common]
  rw [show ∀ (bs : List Nat) (l : Nat) (acc : Common),
    loadBlock commonFields bs l acc = loadBlockRun commonFields bs l acc 0
    from fun _ _ _ => rfl]
  rw [stepCommonLineHeight _ _ line _ (0) _ _
    (keyValue_sp_w (bsOf "lineHeight") (renderNat c.lineHeight) _ (by decide)
      (renderNat_ne_nil _) (by decide) (renderNat_bytes _))
    (by decide) (pU16_render c.lineHeight hlh)]
  rw [stepCommonBase _ _ line _ (0 ||| 2 ^ 0) _ _
    (keyValue_sp_w (bsOf "base") (renderNat c.base) _ (by decide)
      (renderNat_ne_nil _) (by decide) (renderNat_bytes _))
    (by decide) (pU16_render c.base hbase)]
  rw [stepCommonScaleW _ _ line _ (0 ||| 2 ^ 0 ||| 2 ^ 1) _ _
    (keyValue_sp_w (bsOf "scaleW") (renderNat c.scaleW) _ (by decide)
      (renderNat_ne_nil _) (by decide) (renderNat_bytes _))
    (by decide) (pU16_render c.scaleW hsw)]
  rw [stepCommonScaleH _ _ line _ (0 ||| 2 ^ 0 ||| 2 ^ 1 ||| 2 ^ 2) _ _
    (keyValue_sp_w (bsOf "scaleH") (renderNat c.scaleH) _ (by decide)
      (renderNat_ne_nil _) (by decide) (renderNat_bytes _))
    (by decide) (pU16_render c.scaleH hshh)]
  rw [stepCommonPages _ _ line _ (0 ||| 2 ^ 0 ||| 2 ^ 1 ||| 2 ^ 2 ||| 2 ^ 3) _ _
    (keyValue_sp_w (bsOf "pages") (renderNat c.pages) _ (by decide)
      (renderNat_ne_nil _) (by decide) (renderNat_bytes _))
    (by decide) (pU16_render c.pages hpg)]
  rw [stepCommonPacked _ _ line _ (0 ||| 2 ^ 0 ||| 2 ^ 1 ||| 2 ^ 2 ||| 2 ^ 3 ||| 2 ^ 4) _ _
    (keyValue_sp_w (bsOf "packed") (renderBool c.packed) _ (by decide)
      (renderBool_ne_nil _) (by decide) (renderBool_bytes _))
    (by decide) (parseBool_renderBool c.packed)]
  rw [stepCommonAlphaChnl _ _ line _ (0 ||| 2 ^ 0 ||| 2 ^ 1 ||| 2 ^ 2 ||| 2 ^ 3 ||| 2 ^ 4 ||| 2 ^ 5) _ _
    (keyValue_sp_w (bsOf "alphaChnl") (renderNat c.alphaChnl.toU8) _ (by decide)
      (renderNat_ne_nil _) (by decide) (renderNat_bytes _))
    (by decide) (pPacking_render c.alphaChnl)]
  rw [stepCommonRedChnl _ _ line _ (0 ||| 2 ^ 0 ||| 2 ^ 1 ||| 2 ^ 2 ||| 2 ^ 3 ||| 2 ^ 4 ||| 2 ^ 5 ||| 2 ^ 6) _ _
    (keyValue_sp_w (bsOf "redChnl") (renderNat c.redChnl.toU8) _ (by decide)
      (renderNat_ne_nil _) (by decide) (renderNat_bytes _))
    (by decide) (pPacking_render c.redChnl)]
  rw [stepCommonGreenChnl _ _ line _ (0 ||| 2 ^ 0 ||| 2 ^ 1 ||| 2 ^ 2 ||| 2 ^ 3 ||| 2 ^ 4 ||| 2 ^ 5 ||| 2 ^ 6 ||| 2 ^ 7) _ _
    (keyValue_sp_w (bsOf "greenChnl") (renderNat c.greenChnl.toU8) _ (by decide)
      (renderNat_ne_nil _) (by decide) (renderNat_bytes _))
    (by decide) (pPacking_render c.greenChnl)]
  rw [stepCommonBlueChnl _ _ line _ (0 ||| 2 ^ 0 ||| 2 ^ 1 ||| 2 ^ 2 ||| 2 ^ 3 ||| 2 ^ 4 ||| 2 ^ 5 ||| 2 ^ 6 ||| 2 ^ 7 ||| 2 ^ 8) _ _
    (keyValue_crlf_w (bsOf "blueChnl") (renderNat c.blueChnl.toU8) rest
      (by decide) (renderNat_ne_nil _) (by decide) (renderNat_bytes _))
    (by decide) (pPacking_render c.blueChnl)]
  rw [loadBlockRun_end commonFields _ line _ _ _ (keyValue_lf rest)]
  simp only [FontBuilder.setCommon]
  rw [hst]
  exact rfl

/-- Loading a page line as emitted by the text store. -/
theorem textLoad_page_line (id : Nat) (file : List Nat) (rest : List Nat)
    (line : Nat) (st : FontBuilder) (hid : id = st.pages.length)
    (hlt : id < 65536) (hchk : checkValueOk file = true)
    (hutf : utf8Valid file = true) :
    textLoad (bsOf "page" ++ 32 :: (bsOf "id" ++ 61 :: (renderNat id ++ 32 ::
        (bsOf "file" ++ 61 :: 34 :: (file ++ 34 :: 13 :: 10 :: rest))))) line st =
      textLoad (10 :: rest) line { st with pages := st.pages ++ [file] }
      := by
  refine textLoad_step _ _ _ _ _ _ _ _ (nextTag_page_tag _ line) ?_
  rw [textStep_page]
  rw [show ∀ (bs : List Nat) (l : Nat) (acc : Page),
    loadBlock pageFields bs l acc = loadBlockRun pageFields bs l acc 0
    from fun _ _ _ => rfl]
  rw [stepPageId _ _ line pageDefault 0 _ _
    (keyValue_sp_w (bsOf "id") (renderNat id) _ (by decide)
      (renderNat_ne_nil _) (by decide) (renderNat_bytes _))
    (by decide) (pU16_render id hlt)]
  rw [stepPageFile _ _ line _ (0 ||| 2 ^ 0) _ _
    (keyValue_qt_w (bsOf "file") file _ (by decide) (by decide)
      (checkValueOk_bytes file hchk))
    (by decide) (pString_of_valid file hutf)]
  rw [loadBlockRun_end pageFields _ line _ _ _ (keyValue_crlf rest)]
  simp [FontBuilder.addPage, FontBuilder.addPageMut, ← hid]

set_option maxHeartbeats 2000000 in
/-- Loading a char line as emitted by the text store, paddings
included. -/
theorem textLoad_char_line (c : Char) (rest : List Nat) (line : Nat)
    (st : FontBuilder) (hval : charValid c = true) :
    textLoad (bsOf "char" ++ 32 :: (bsOf "id" ++ 61 :: (renderNat c.id ++
        (List.replicate (4 - (renderNat c.id).length) 32 ++ 32 ::
        (bsOf "x" ++ 61 :: (renderNat c.x ++
        (List.replicate (5 - (renderNat c.x).length) 32 ++ 32 ::
        (bsOf "y" ++ 61 :: (renderNat c.y ++
        (List.replicate (5 - (renderNat c.y).length) 32 ++ 32 ::
        (bsOf "width" ++ 61 :: (renderNat c.width ++
        (List.replicate (5 - (renderNat c.width).length) 32 ++ 32 ::
        (bsOf "height" ++ 61 :: (renderNat c.height ++
        (List.replicate (5 - (renderNat c.height).length) 32 ++ 32 ::
        (bsOf "xoffset" ++ 61 :: (renderInt c.xoffset ++
        (List.replicate (5 - (renderInt c.xoffset).length) 32 ++ 32 ::
        (bsOf "yoffset" ++ 61 :: (renderInt c.yoffset ++
        (List.replicate (5 - (renderInt c.yoffset).length) 32 ++ 32 ::
        (bsOf "xadvance" ++ 61 :: (renderInt c.xadvance ++
        (List.replicate (5 - (renderInt c.xadvance).length) 32 ++ 32 ::
        (bsOf "page" ++ 61 :: (renderNat c.page ++
        (List.replicate (2 - (renderNat c.page).length) 32 ++ 32 ::
        (bsOf "chnl" ++ 61 :: (renderNat c.chnl ++
        (List.replicate (2 - (renderNat c.chnl).length) 32 ++ 13 :: 10 ::
        rest))))))))))))))))))))))))))))))) line st =
      textLoad (10 :: rest) line { st with chars := st.chars ++ [c] }
      := by
  simp only [charValid, i16Ok, Bool.and_eq_true, decide_eq_true_eq] at hval
  obtain ⟨⟨⟨⟨⟨⟨⟨⟨⟨hid, hx⟩, hy⟩, hw⟩, hh⟩, hxo⟩, hyo⟩,
    hxa⟩, hpg⟩, hch⟩ := hval
  refine textLoad_step _ _ _ _ _ _ _ _ (nextTag_char_tag _ line) ?_
  rw [textStep_char]
  rw [show ∀ (bs : List Nat) (l : Nat) (acc : Char),
    loadBlock charFields bs l acc = loadBlockRun charFields bs l acc 0
    from fun _ _ _ => rfl]
  rw [stepCharIdP _ _ line _ (0) _ _
    (renderNat_ne_nil _) (renderNat_bytes _) (by decide) (pU32_render c.id hid)]
  rw [stepCharXP _ _ line _ (0 ||| 2 ^ 0) _ _
    (renderNat_ne_nil _) (renderNat_bytes _) (by decide) (pU16_render c.x hx)]
  rw [stepCharYP _ _ line _ (0 ||| 2 ^ 0 ||| 2 ^ 1) _ _
    (renderNat_ne_nil _) (renderNat_bytes _) (by decide) (pU16_render c.y hy)]
  rw [stepCharWidthP _ _ line _ (0 ||| 2 ^ 0 ||| 2 ^ 1 ||| 2 ^ 2) _ _
    (renderNat_ne_nil _) (renderNat_bytes _) (by decide) (pU16_render c.width hw)]
  rw [stepCharHeightP _ _ line _ (0 ||| 2 ^ 0 ||| 2 ^ 1 ||| 2 ^ 2 ||| 2 ^ 3) _ _
    (renderNat_ne_nil _) (renderNat_bytes _) (by decide) (pU16_render c.height hh)]
  rw [stepCharXoffsetP _ _ line _ (0 ||| 2 ^ 0 ||| 2 ^ 1 ||| 2 ^ 2 ||| 2 ^ 3 ||| 2 ^ 4) _ _
    (renderInt_ne_nil _) (renderInt_bytes _) (by decide) (parseI16_renderInt c.xoffset hxo.1 hxo.2)]
  rw [stepCharYoffsetP _ _ line _ (0 ||| 2 ^ 0 ||| 2 ^ 1 ||| 2 ^ 2 ||| 2 ^ 3 ||| 2 ^ 4 ||| 2 ^ 5) _ _
    (renderInt_ne_nil _) (renderInt_bytes _) (by decide) (parseI16_renderInt c.yoffset hyo.1 hyo.2)]
  rw [stepCharXadvanceP _ _ line _ (0 ||| 2 ^ 0 ||| 2 ^ 1 ||| 2 ^ 2 ||| 2 ^ 3 ||| 2 ^ 4 ||| 2 ^ 5 ||| 2 ^ 6) _ _
    (renderInt_ne_nil _) (renderInt_bytes _) (by decide) (parseI16_renderInt c.xadvance hxa.1 hxa.2)]
  rw [stepCharPageP _ _ line _ (0 ||| 2 ^ 0 ||| 2 ^ 1 ||| 2 ^ 2 ||| 2 ^ 3 ||| 2 ^ 4 ||| 2 ^ 5 ||| 2 ^ 6 ||| 2 ^ 8) _ _
    (renderNat_ne_nil _) (renderNat_bytes _) (by decide) (pU8_render c.page hpg)]
  rw [stepCharChnlLast _ _ line _ (0 ||| 2 ^ 0 ||| 2 ^ 1 ||| 2 ^ 2 ||| 2 ^ 3 ||| 2 ^ 4 ||| 2 ^ 5 ||| 2 ^ 6 ||| 2 ^ 8 ||| 2 ^ 9) _ _
    (renderNat_ne_nil _) (renderNat_bytes _) (by decide) (pChnl_render c.chnl hch)]
  simp only [FontBuilder.addChar]
  try exact rfl

/-- Loading a kerning line as emitted by the text store, paddings
included. -/
theorem textLoad_kerning_line (k : Kerning) (rest : List Nat) (line : Nat)
    (st : FontBuilder) (hval : kerningValid k = true) :
    textLoad (bsOf "kerning" ++ 32 :: (bsOf "first" ++ 61 :: (renderNat k.first ++
        (List.replicate (3 - (renderNat k.first).length) 32 ++ 32 ::
        (bsOf "second" ++ 61 :: (renderNat k.second ++
        (List.replicate (3 - (renderNat k.second).length) 32 ++ 32 ::
        (bsOf "amount" ++ 61 :: (renderInt k.amount ++
        (List.replicate (4 - (renderInt k.amount).length) 32 ++ 13 :: 10 ::
        rest)))))))))) line st =
      textLoad (10 :: rest) line { st with kernings := st.kernings ++ [k] }
      := by
  simp only [kerningValid, i16Ok, Bool.and_eq_true, decide_eq_true_eq] at hval
  obtain ⟨⟨hf, hs⟩, ha⟩ := hval
  refine textLoad_step _ _ _ _ _ _ _ _ (nextTag_kerning_tag _ line) ?_
  rw [textStep_kerning]
  rw [show ∀ (bs : List Nat) (l : Nat) (acc : Kerning),
    loadBlock kerningFields bs l acc = loadBlockRun kerningFields bs l acc 0
    from fun _ _ _ => rfl]
  rw [stepKerningFirstP _ _ line _ (0) _ _
    (renderNat_ne_nil _) (renderNat_bytes _) (by decide)
    (pU32_render k.first hf)]
  rw [stepKerningSecondP _ _ line _ (0 ||| 2 ^ 0) _ _
    (renderNat_ne_nil _) (renderNat_bytes _) (by decide)
    (pU32_render k.second hs)]
  rw [stepKerningAmountLast _ _ line _ (0 ||| 2 ^ 0 ||| 2 ^ 1) _ _
    (renderInt_ne_nil _) (renderInt_bytes _) (by decide)
    (parseI16_renderInt k.amount ha.1 ha.2)]
  simp only [FontBuilder.addKerning]
  try exact rfl

/-- Every page name accepted by the page-lines writer passed the value
check. -/
theorem pageLinesGo_checkValue : ∀ (ps : List (List Nat)) (id : Nat)
    (pls : List Nat), pageLinesGo id ps = Except.ok pls →
    ∀ p ∈ ps, checkValueOk p = true := by
  intro ps
  induction ps with
  | nil =>
    intro id pls h p hp
    exact absurd hp (List.not_mem_nil p)
  | cons q ps2 ih =>
    intro id pls h p hp
    rw [pageLinesGo, checkValue] at h
    cases hchk : checkValueOk q with
    | false =>
      rw [if_neg (by simp [hchk])] at h
      exact Except.noConfusion h
    | true =>
      rw [if_pos hchk] at h
      simp only [] at h
      rcases List.mem_cons.mp hp with rfl | hmem
      · exact hchk
      · cases hrec : pageLinesGo (id + 1) ps2 with
        | error e =>
          rw [hrec] at h
          exact Except.noConfusion h
        | ok pls2 => exact ih (id + 1) pls2 hrec p hmem

/-- Loading the page lines written for a page list appends the pages in
order. -/
theorem textLoad_pages : ∀ (ps : List (List Nat)) (pls rest : List Nat)
    (line : Nat) (st : FontBuilder),
    pageLinesGo st.pages.length ps = Except.ok pls →
    (∀ p ∈ ps, utf8Valid p = true) →
    st.pages.length + ps.length ≤ 65535 →
    textLoad (pls ++ rest) line st =
      textLoad rest (line + ps.length) { st with pages := st.pages ++ ps }
    := by
  intro ps
  induction ps with
  | nil =>
    intro pls rest line st hpls hutf hbound
    rw [pageLinesGo] at hpls
    injection hpls with h2
    subst h2
    simp only [List.nil_append, List.length_nil, Nat.add_zero,
      List.append_nil]
    try exact rfl
  | cons p ps2 ih =>
    intro pls rest line st hpls hutf hbound
    rw [pageLinesGo, checkValue] at hpls
    cases hchk : checkValueOk p with
    | false =>
      rw [if_neg (by simp [hchk])] at hpls
      exact Except.noConfusion hpls
    | true =>
      rw [if_pos hchk] at hpls
      simp only [] at hpls
      cases hrec : pageLinesGo (st.pages.length + 1) ps2 with
      | error e =>
        rw [hrec] at hpls
        exact Except.noConfusion hpls
      | ok pls2 =>
        rw [hrec] at hpls
        simp only [] at hpls
        injection hpls with h2
        subst h2
        rw [List.append_assoc]
        simp only [pageLine, sPage, sFile, List.append_assoc,
          List.cons_append, List.nil_append]
        rw [textLoad_page_line st.pages.length p _ line st rfl
          (by omega) hchk (hutf p (by simp))]
        rw [textLoad_lf]
        rw [ih pls2 rest (line + 1) _
          (by simpa using hrec)
          (fun p2 hp2 => hutf p2 (by simp [hp2]))
          (by simp only [List.length_append, List.length_cons,
            List.length_nil] at hbound ⊢; omega)]
        rw [show line + 1 + ps2.length = line + (ps2.length + 1) from by
          omega]
        simp only [List.length_cons, List.append_assoc,
          List.singleton_append]
        try exact rfl

/-- Loading the char lines written for a char list appends the chars in
order. -/
theorem textLoad_charList : ∀ (cs : List Char) (rest : List Nat)
    (line : Nat) (st : FontBuilder), (∀ c ∈ cs, charValid c = true) →
    textLoad ((cs.map charLine).flatten ++ rest) line st =
      textLoad rest (line + cs.length) { st with chars := st.chars ++ cs }
    := by
  intro cs
  induction cs with
  | nil =>
    intro rest line st hval
    simp only [List.map_nil, List.flatten_nil, List.nil_append,
      List.length_nil, Nat.add_zero, List.append_nil]
    try exact rfl
  | cons c cs2 ih =>
    intro rest line st hval
    simp only [List.map_cons, List.flatten_cons, List.append_assoc]
    simp only [charLine, padTo, sChar, sX, sY, sWidth, sHeight, sXoffset,
      sYoffset, sXadvance, sPageAttr, sChnl, List.append_assoc,
      List.cons_append, List.nil_append]
    rw [textLoad_char_line c _ line st (hval c (by simp))]
    rw [textLoad_lf]
    rw [ih _ (line + 1) _ (fun c2 hc2 => hval c2 (by simp [hc2]))]
    rw [show line + 1 + cs2.length = line + (cs2.length + 1) from by omega]
    simp only [List.length_cons, List.append_assoc, List.singleton_append]
    try exact rfl

/-- Loading the kerning lines written for a kerning list appends the
kerning pairs in order. -/
theorem textLoad_kernList : ∀ (ks : List Kerning) (rest : List Nat)
    (line : Nat) (st : FontBuilder), (∀ k ∈ ks, kerningValid k = true) →
    textLoad ((ks.map kerningLine).flatten ++ rest) line st =
      textLoad rest (line + ks.length)
        { st with kernings := st.kernings ++ ks } := by
  intro ks
  induction ks with
  | nil =>
    intro rest line st hval
    simp only [List.map_nil, List.flatten_nil, List.nil_append,
      List.length_nil, Nat.add_zero, List.append_nil]
    try exact rfl
  | cons k ks2 ih =>
    intro rest line st hval
    simp only [List.map_cons, List.flatten_cons, List.append_assoc]
    simp only [kerningLine, padTo, sKerning, sSecond, sAmount,
      List.append_assoc, List.cons_append, List.nil_append]
    rw [textLoad_kerning_line k _ line st (hval k (by simp))]
    rw [textLoad_lf]
    rw [ih _ (line + 1) _ (fun k2 hk2 => hval k2 (by simp [hk2]))]
    rw [show line + 1 + ks2.length = line + (ks2.length + 1) from by omega]
    simp only [List.length_cons, List.append_assoc, List.singleton_append]
    try exact rfl

/-- The export value check is stricter than the builder string check. -/
theorem checkValueOk_strings (s : List Nat) (h : checkValueOk s = true) :
    checkStringOk s = true := by
  rw [checkStringOk, List.all_eq_true]
  intro b hb
  have h2 := List.all_eq_true.mp h b hb
  simp only [Bool.and_eq_true, decide_eq_true_eq] at h2 ⊢
  exact ⟨h2.1.1, h2.2⟩

/-- Building from the fully loaded state of a valid font under strict
settings returns the font. -/
theorem build_roundtrip (f : Font) (hval : fontValid f = true)
    (hface : checkStringOk f.info.face = true)
    (hpages : ∀ p ∈ f.pages, checkStringOk p = true) :
    FontBuilder.build loadSettingsDefault
      { info := some f.info, common := some f.common, pages := f.pages,
        chars := f.chars, charCount := some f.chars.length,
        kernings := f.kernings, kerningCount := some f.kernings.length } =
      Except.ok f := by
  simp only [fontValid, Bool.and_eq_true, beq_iff_eq, List.all_eq_true,
    decide_eq_true_eq] at hval
  obtain ⟨⟨⟨⟨⟨hiv, hcv⟩, hpu⟩, hcvv⟩, hkv⟩, hpc⟩ := hval
  have hfind : f.pages.find? (fun p => !(checkStringOk p)) = none := by
    rw [List.find?_eq_none]
    intro p hp
    simp [hpages p hp]
  simp [FontBuilder.build, loadSettingsDefault, buildCountsErr,
    buildCountsErrKern, buildCountsErrPage, buildStringsErr, hpc, hfind,
    hface]

/-- Unfolding the text import entry point to the tag loop. -/
theorem textFromBytes_load (bs : List Nat) :
    textFromBytes bs =
      match textLoad bs 1 builderNew with
      | .error e => .error e
      | .ok st => FontBuilder.build loadSettingsDefault st := rfl

/-- Decoding an emitted text stream recovers the font. -/
theorem textFromBytes_of_toVec (f : Font) (bs : List Nat)
    (hval : fontValid f = true)
    (hcs : ∀ s, f.info.charset ≠ Charset.undefined s)
    (hcls : f.chars.length < 4294967296)
    (hkls : f.kernings.length < 4294967296)
    (henc : textToVec f = Except.ok bs) :
    textFromBytes bs = Except.ok f := by
  have hval2 := hval
  simp only [fontValid, Bool.and_eq_true, beq_iff_eq, List.all_eq_true,
    decide_eq_true_eq] at hval2
  obtain ⟨⟨⟨⟨⟨hiv, hcv⟩, hpu⟩, hcvv⟩, hkv⟩, hpc⟩ := hval2
  have hcv2 := hcv
  simp only [commonValid, Bool.and_eq_true, decide_eq_true_eq] at hcv2
  have hplen : f.pages.length < 65536 := by omega
  revert henc
  unfold textToVec
  cases hil : infoLine f.info with
  | error e =>
    intro henc
    exact Except.noConfusion henc
  | ok il =>
    cases hpls : pageLinesGo 0 f.pages with
    | error e =>
      intro henc
      exact Except.noConfusion henc
    | ok pls =>
      intro henc
      simp only [] at henc
      injection henc with hbs
      subst hbs
      rw [infoLine, checkValue] at hil
      cases hchk : checkValueOk f.info.face with
      | false =>
        rw [if_neg (by simp [hchk])] at hil
        exact Except.noConfusion hil
      | true =>
        rw [if_pos hchk] at hil
        simp only [] at hil
        have h2 := Except.ok.inj hil
        subst h2
        rw [textFromBytes_load]
        simp only [sInfo, sSize, sBold, sItalic, sCharset, sUnicode,
          sStretchH, sSmooth, sAa, sPadding, sSpacing, sOutline,
          commonLine, sCommon, sBase, sScaleW, sScaleH, sPages, sPacked,
          sAlphaChnl, sRedChnl, sGreenChnl, sBlueChnl, sCharsCount,
          sKerningsCount, List.append_assoc, List.cons_append,
          List.nil_append]
        rw [textLoad_info_line f.info _ 1 builderNew hiv hchk hcs rfl]
        rw [textLoad_lf]
        rw [textLoad_common_line f.common _ 2 _ hcv rfl]
        rw [textLoad_lf]
        rw [textLoad_pages f.pages pls _ 3 _ ?hpl ?hpu2 ?hb]
        case hpl => exact hpls
        case hpu2 => exact hpu
        case hb =>
          show 0 + f.pages.length ≤ 65535
          omega
        rw [textLoad_chars_line f.chars.length hcls _ _ _ rfl]
        rw [textLoad_lf]
        rw [textLoad_charList f.chars _ _ _ hcvv]
        rw [textLoad_kernings_line f.kernings.length hkls _ _ _ rfl]
        rw [textLoad_lf]
        rw [show (f.kernings.map kerningLine).flatten =
          (f.kernings.map kerningLine).flatten ++ [] from
          (List.append_nil _).symm]
        rw [textLoad_kernList f.kernings [] _ _ hkv]
        rw [textLoad_nil]
        simp only []
        exact build_roundtrip f hval (checkValueOk_strings _ hchk)
          (fun p hp => checkValueOk_strings p
            (pageLinesGo_checkValue f.pages 0 pls hpls p hp))

/-- Decoding an emitted binary stream recovers the font. -/
theorem binFromBytes_of_toVec (f : Font) (bs : List Nat)
    (hval : fontValid f = true) (hlen : binLenOk f = true)
    (hcs : ∀ s, f.info.charset ≠ Charset.undefined s)
    (hnull : f.info.charset = Charset.null → f.info.unicode = true)
    (henc : binToVec f = Except.ok bs) :
    binFromBytes bs = Except.ok f := by
  obtain ⟨infoP, pagesP, hip, hpp, hchk, hbs⟩ := binToVec_shape f bs henc
  have h := binLoad_of_encoded f bs [] henc hval hlen
  rw [List.append_nil] at h
  rw [h]
  rw [show binLoad [] (binLoadedBuilder f) = Except.ok (binLoadedBuilder f)
    from binLoadGo_nil 0 _]
  simp only []
  have hic : infoCoerced f.info = f.info := by
    rw [infoCoerced,
      charsetOfU8_toU8 f.info.charset f.info.unicode hchk hcs hnull]
  rw [binLoadedBuilder, hic]
  have hval2 := hval
  simp only [fontValid, Bool.and_eq_true, beq_iff_eq, List.all_eq_true,
    decide_eq_true_eq] at hval2
  obtain ⟨⟨⟨⟨⟨hiv, hcv⟩, hpu⟩, hcvv⟩, hkv⟩, hpc⟩ := hval2
  simp [binBuild, hpc]

/-- Leading blank lines are skipped by the tag scanner, bumping the line
counter once per line feed. -/
theorem nextTag_rep_lf : ∀ (m : Nat) (r : List Nat) (line : Nat),
    nextTag (List.replicate m 10 ++ r) line = nextTag r (line + m) := by
  intro m
  induction m with
  | zero => intro r line; rfl
  | succ m2 ih =>
    intro r line
    rw [List.replicate_succ, List.cons_append, nextTag_lf, ih,
      show line + 1 + m2 = line + (m2 + 1) from by omega]

/-- C1: for every valid font whose charset is not Undefined, whose
charset is Null only when unicode is set, and whose encodings succeed,
decoding the binary encoding and decoding the text encoding both return
the font itself. -/
theorem c1_round_trip (f : Font) (bbs tbs : List Nat)
    (hval : fontValid f = true) (hlen : binLenOk f = true)
    (hund : ∀ s, f.info.charset ≠ Charset.undefined s)
    (hnull : f.info.charset = Charset.null → f.info.unicode = true)
    (hbenc : binToVec f = Except.ok bbs)
    (htenc : textToVec f = Except.ok tbs) :
    binFromBytes bbs = Except.ok f ∧ textFromBytes tbs = Except.ok f := by
  have hlen2 := hlen
  simp only [binLenOk, Bool.and_eq_true, decide_eq_true_eq] at hlen2
  obtain ⟨⟨⟨hinfo, hpg⟩, hch⟩, hkn⟩ := hlen2
  exact ⟨binFromBytes_of_toVec f bbs hval hlen hund hnull hbenc,
    textFromBytes_of_toVec f tbs hval hund (by omega) (by omega) htenc⟩

/-- C1 witness: the concrete one-page font round-trips through both
codecs. -/
theorem c1_witness :
    binFromBytes c1BinBytes = Except.ok c1Font ∧
    textFromBytes c1TextBytes = Except.ok c1Font :=
  c1_round_trip c1Font c1BinBytes c1TextBytes (by decide) (by decide)
    (fun s => by simp [c1Font, c1Info]) (fun _ => by decide) (by decide)
    (by decide)

/-- C6: an attribute line of the char table (the attribute loop shared
by every implement_load tag) in which a recognized key appears twice,
after any number of leading blank lines, fails with DuplicateKey
carrying the 1-based number of that line. -/
theorem c6_duplicate_key (m : Nat) (k v1 v2 : List Nat) (fd : Field Char)
    (c2 : Char)
    (hfind : charFields.find? (fun f2 => f2.key == k) = some fd)
    (hset : fd.set charDefault v1 = some c2)
    (hk0 : k ≠ [])
    (hk : ∀ b ∈ k, b ≠ 61 ∧ b ≠ 13 ∧ b ≠ 10 ∧ b ≠ 32 ∧ b ≠ 9)
    (hv10 : v1 ≠ [])
    (hv1 : ∀ b ∈ v1, b ≠ 13 ∧ b ≠ 10 ∧ b ≠ 32 ∧ b ≠ 9 ∧ b ≠ 34)
    (hv20 : v2 ≠ [])
    (hv2 : ∀ b ∈ v2, b ≠ 13 ∧ b ≠ 10 ∧ b ≠ 32 ∧ b ≠ 9 ∧ b ≠ 34) :
    textFromBytes (List.replicate m 10 ++ (bsOf "char" ++ 32 ::
        (k ++ 61 :: (v1 ++ 32 :: (k ++ 61 :: v2))))) =
      Except.error (Err.duplicateKey (some (m + 1)) k) := by
  have hnt : nextTag (List.replicate m 10 ++ (bsOf "char" ++ 32 ::
      (k ++ 61 :: (v1 ++ 32 :: (k ++ 61 :: v2))))) 1 =
      Except.ok (some (bsOf "char"),
        k ++ 61 :: (v1 ++ 32 :: (k ++ 61 :: v2)), m + 1) := by
    rw [nextTag_rep_lf, nextTag_char_tag, Nat.add_comm 1 m]
  have hts : textStep (bsOf "char")
      (k ++ 61 :: (v1 ++ 32 :: (k ++ 61 :: v2))) (m + 1) builderNew =
      Except.error (Err.duplicateKey (some (m + 1)) k) := by
    rw [textStep_char]
    rw [show ∀ (bs : List Nat) (l : Nat) (acc : Char),
      loadBlock charFields bs l acc = loadBlockRun charFields bs l acc 0
      from fun _ _ _ => rfl]
    rw [loadBlockRun_step charFields _ (m + 1) charDefault 0 k v1
      (k ++ 61 :: v2) c2 (0 ||| 2 ^ fd.bit)
      (keyValue_sp_w k v1 _ hk0 hv10 hk hv1)
      (applyField_hit charFields (some (m + 1)) k v1 charDefault 0 fd c2
        hfind (Nat.zero_testBit _) hset)]
    rw [loadBlockRun_applyField_err charFields _ (m + 1) c2
      (0 ||| 2 ^ fd.bit) k v2 [] _ (keyValue_eof_w k v2 hk0 hv20 hk hv2)
      (applyField_dup charFields (some (m + 1)) k v2 c2 (0 ||| 2 ^ fd.bit)
        fd hfind (by simp [Nat.testBit_or, Nat.zero_testBit,
          Nat.testBit_two_pow_self]))]
  rw [textFromBytes_load]
  rw [textLoad_step_err _ 1 builderNew _ _ (m + 1) _ hnt hts]

/-- C6 witness: two blank lines then a char line repeating the x key
fails with DuplicateKey at line 3. -/
theorem c6_witness :
    textFromBytes (List.replicate 2 10 ++ (bsOf "char" ++ 32 ::
        (bsOf "x" ++ 61 :: (bsOf "7" ++ 32 ::
        (bsOf "x" ++ 61 :: bsOf "9"))))) =
      Except.error (Err.duplicateKey (some 3) (bsOf "x")) :=
  c6_duplicate_key 2 (bsOf "x") (bsOf "7") (bsOf "9")
    ⟨bsOf "x", 1, fun a v => (pU16 v).map fun x => { a with x := x }⟩
    { charDefault with x := 7 } rfl rfl (by decide) (by decide) (by decide)
    (by decide) (by decide) (by decide)

end BmFont

